import Mathlib

/-!
Verification of the blind_map tactile-map generator core
(`src/core/generate.py`, `src/core/create_3d_map.py`,
`src/core/tactile_map/mesh_generator.py`,
`src/core/tactile_map/water_processor.py`).

Grids are embedded as `List (List ℚ)` (row-major, matching the numpy 2D
arrays), meshes as a list of vertices (`ℚ × ℚ × ℚ`) together with a list of
triangles (`ℕ × ℕ × ℕ` of vertex indices).  Floating-point values are
embedded as exact rationals; the only transcendental ingredients of the
source (the sinusoidal wave field, square roots of arbitrary lengths, the
shapely polygon tests) are threaded through the definitions as explicit
parameters, so every definition stays computable and every theorem can be
evaluated on concrete inputs.
-/

/-- Configuration constants from `src/core/constants.py`. -/
def CARD_WIDTH_MM : ℚ := 200
def CARD_HEIGHT_MM : ℚ := 160
def BASE_THICKNESS_MM : ℚ := 6
def TAB_HEIGHT_MM : ℚ := 3
def TAB_DEPTH_MM : ℚ := 4
def TAB_WIDTH_MM : ℚ := 8
def SLOT_CLEARANCE_MM : ℚ := 1/2
def BOUNDARY_HEIGHT_MM : ℚ := 5
def BOUNDARY_WIDTH_MM : ℚ := 5/2
def MAX_ELEVATION_MM : ℚ := 10
def WAVE_HEIGHT_MM : ℚ := 2
def WAVE_INTERVAL_MM : ℚ := 4
def CAPITAL_HEIGHT_MM : ℚ := 2
def CAPITAL_DIAMETER_MM : ℚ := 3
def MIN_AREA_FOR_NUMBER : ℚ := 1

/-- Map bounds `(min_lon, min_lat, max_lon, max_lat)` from `src/core/config.py`
(`MAP_BOUNDS = (5, 12, 70, 55)`). -/
def MAP_BOUNDS : ℚ × ℚ × ℚ × ℚ := (5, 12, 70, 55)

/-- `FULL_WIDTH_MM = CARD_WIDTH_MM * GRID_COLS` (constants.py). -/
def FULL_WIDTH_MM : ℚ := CARD_WIDTH_MM * 2
/-- `FULL_HEIGHT_MM = CARD_HEIGHT_MM * GRID_ROWS` (constants.py). -/
def FULL_HEIGHT_MM : ℚ := CARD_HEIGHT_MM * 2

/-- Entry `(i, j)` of a 2D boolean array, `false` out of bounds. -/
def maskAt (m : List (List Bool)) (i j : ℕ) : Bool :=
  (m[i]?.getD [])[j]?.getD false

/-- Entry `(i, j)` of a 2D rational array, `0` out of bounds. -/
def gridAt (g : List (List ℚ)) (i j : ℕ) : ℚ :=
  (g[i]?.getD [])[j]?.getD 0

/-- Length of row `i` of a 2D array (0 out of bounds). -/
def rowLen {α : Type} (g : List (List α)) (i : ℕ) : ℕ :=
  (g[i]?.getD []).length

theorem getElem?_map_range {α : Type} (n : ℕ) (g : ℕ → α) (i : ℕ) :
    ((List.range n).map g)[i]? = if i < n then some (g i) else none := by
  rcases Nat.lt_or_ge i n with hi | hi
  · rw [List.getElem?_map, List.getElem?_range hi]
    simp [hi]
  · rw [List.getElem?_eq_none (by simpa using hi)]
    simp [Nat.not_lt.2 hi]

/-! ## Water Classifier (sign-based policy, `src/core/create_3d_map.py` line 97)

The sign-based policy is the single line `water_mask = elevation < 0`:
an element-wise strict comparison of the elevation array with zero,
producing a boolean array of the same shape. -/

/-- `water_mask = elevation < 0` from `src/core/create_3d_map.py` (line 97):
element-wise strict comparison of the 2D elevation array with `0`. -/
def water_mask_sign (elevation : List (List ℚ)) : List (List Bool) :=
  elevation.map (fun row => row.map (fun z => decide (z < 0)))

theorem water_mask_sign_length (elevation : List (List ℚ)) :
    (water_mask_sign elevation).length = elevation.length := by
  simp [water_mask_sign]

theorem water_mask_sign_row_length (elevation : List (List ℚ)) (i : ℕ) :
    rowLen (water_mask_sign elevation) i = rowLen elevation i := by
  unfold rowLen water_mask_sign
  rw [List.getElem?_map]
  rcases hx : elevation[i]? with _ | row
  · rfl
  · simp

theorem maskAt_water_mask_sign (elevation : List (List ℚ)) (i j : ℕ) :
    maskAt (water_mask_sign elevation) i j = decide (gridAt elevation i j < 0) := by
  unfold maskAt water_mask_sign gridAt
  rw [List.getElem?_map]
  rcases hx : elevation[i]? with _ | row
  · simp
  · simp only [Option.map_some', Option.getD_some]
    rw [List.getElem?_map]
    have hopt : ∀ o : Option ℚ,
        (o.map (fun z => decide (z < 0))).getD false = decide (o.getD 0 < 0) := by
      intro o
      rcases o with _ | z
      · simp
      · simp
    exact hopt _

/-! ## Wave Texture Generator

Two implementations are claimed about:
`create_wave_pattern` in `src/core/generate.py` (lines 171-191), which zeroes
the sinusoidal field outside a 3-fold binary erosion of the water mask, and
`create_tactile_wave_pattern` in `src/core/tactile_map/water_processor.py`
(lines 8-35), which multiplies the sinusoidal field by the boolean mask.
The sinusoidal field itself (`WAVE_HEIGHT_MM * 0.5 * (1 + sin(2π·Y/interval))`
resp. `0.3 * sin(2π·lon/4)`) is transcendental, so it is threaded through as
an explicit per-cell parameter `waveField`; the claims hold for every field. -/

/-- One step of `scipy.ndimage.binary_erosion` with the default structuring
element (the 4-neighbour cross) and default `border_value=0`: a cell survives
iff it and its four orthogonal neighbours are all set, neighbours outside the
array counting as unset. -/
def erodedAt (m : List (List Bool)) (i j : ℕ) : Bool :=
  maskAt m i j && (decide (0 < i) && maskAt m (i - 1) j) && maskAt m (i + 1) j
    && (decide (0 < j) && maskAt m i (j - 1)) && maskAt m i (j + 1)

/-- Materialized single binary-erosion step (same shape as the input). -/
def erodeOnce (m : List (List Bool)) : List (List Bool) :=
  (List.range m.length).map fun i =>
    (List.range (rowLen m i)).map fun j => erodedAt m i j

/-- `binary_erosion(water_mask, iterations=3)` from
`create_wave_pattern` (src/core/generate.py line 180). -/
def binary_erosion3 (m : List (List Bool)) : List (List Bool) :=
  erodeOnce (erodeOnce (erodeOnce m))

/-- `create_wave_pattern(X, Y, water_mask)` from `src/core/generate.py`
(lines 171-191): build the sinusoidal field (abstracted as `waveField`),
then set `waves[~eroded_water] = 0` where `eroded_water` is the 3-fold
binary erosion of the water mask. -/
def create_wave_pattern (waveField : ℕ → ℕ → ℚ) (water_mask : List (List Bool)) :
    List (List ℚ) :=
  (List.range water_mask.length).map fun i =>
    (List.range (rowLen water_mask i)).map fun j =>
      if maskAt (binary_erosion3 water_mask) i j then waveField i j else 0

/-- `create_tactile_wave_pattern(water_mask, lon_grid, lat_grid)` from
`src/core/tactile_map/water_processor.py` (lines 8-35): the sinusoidal field
(abstracted as `waveField`) multiplied element-wise by the boolean water mask
(`wave_pattern = wave_pattern * water_mask`, booleans acting as 0/1). -/
def create_tactile_wave_pattern (waveField : ℕ → ℕ → ℚ)
    (water_mask : List (List Bool)) : List (List ℚ) :=
  (List.range water_mask.length).map fun i =>
    (List.range (rowLen water_mask i)).map fun j =>
      waveField i j * (if maskAt water_mask i j then 1 else 0)

theorem getD2_map_range {α : Type} (d : α) (n : ℕ) (len : ℕ → ℕ)
    (f : ℕ → ℕ → α) (i j : ℕ) :
    ((((List.range n).map fun i => (List.range (len i)).map fun j =>
        f i j)[i]?.getD [])[j]?.getD d) = if i < n ∧ j < len i then f i j else d := by
  rw [getElem?_map_range]
  rcases Nat.lt_or_ge i n with hi | hi
  · rw [if_pos hi, Option.getD_some, getElem?_map_range]
    rcases Nat.lt_or_ge j (len i) with hj | hj
    · rw [if_pos hj, Option.getD_some, if_pos ⟨hi, hj⟩]
    · rw [if_neg (Nat.not_lt.2 hj), if_neg (by exact fun hc => absurd hc.2 (Nat.not_lt.2 hj))]
      rfl
  · rw [if_neg (Nat.not_lt.2 hi), if_neg (by exact fun hc => absurd hc.1 (Nat.not_lt.2 hi))]
    rfl

theorem maskAt_erodeOnce (m : List (List Bool)) (i j : ℕ)
    (h : maskAt (erodeOnce m) i j = true) : erodedAt m i j = true := by
  unfold maskAt erodeOnce at h
  rw [getD2_map_range false m.length (fun i => rowLen m i)
    (fun i j => erodedAt m i j) i j] at h
  by_cases hc : i < m.length ∧ j < rowLen m i
  · rwa [if_pos hc] at h
  · rw [if_neg hc] at h
    exact absurd h (by simp)

theorem erodedAt_subset (m : List (List Bool)) (i j : ℕ)
    (h : erodedAt m i j = true) : maskAt m i j = true := by
  unfold erodedAt at h
  simp only [Bool.and_eq_true] at h
  exact h.1.1.1.1

theorem maskAt_erosion3_subset (m : List (List Bool)) (i j : ℕ)
    (h : maskAt (binary_erosion3 m) i j = true) : maskAt m i j = true := by
  unfold binary_erosion3 at h
  exact erodedAt_subset _ _ _ (maskAt_erodeOnce _ _ _
    (erodedAt_subset _ _ _ (maskAt_erodeOnce _ _ _
      (erodedAt_subset _ _ _ (maskAt_erodeOnce _ _ _ h)))))

/-- C9: for every water mask and every configuration (any per-cell sinusoidal
field, i.e. any wave height/interval), the Wave Texture Generator's per-cell
additive height output is exactly zero at every cell where the water mask is
false — both for `create_wave_pattern` (src/core/generate.py, which zeroes
everything outside the eroded water mask, a subset of the water mask) and for
`create_tactile_wave_pattern` (src/core/tactile_map/water_processor.py, which
multiplies by the boolean mask). -/
theorem C9_waves_zero_off_water (waveField : ℕ → ℕ → ℚ)
    (water_mask : List (List Bool)) (i j : ℕ)
    (h : maskAt water_mask i j = false) :
    gridAt (create_wave_pattern waveField water_mask) i j = 0 ∧
    gridAt (create_tactile_wave_pattern waveField water_mask) i j = 0 := by
  constructor
  · unfold gridAt create_wave_pattern
    rw [getD2_map_range]
    by_cases hc : i < water_mask.length ∧ j < rowLen water_mask i
    · rw [if_pos hc]
      by_cases he : maskAt (binary_erosion3 water_mask) i j = true
      · exact absurd (maskAt_erosion3_subset _ _ _ he) (by simp [h])
      · simp [he]
    · rw [if_neg hc]
  · unfold gridAt create_tactile_wave_pattern
    rw [getD2_map_range]
    by_cases hc : i < water_mask.length ∧ j < rowLen water_mask i
    · rw [if_pos hc, h]
      simp
    · rw [if_neg hc]

theorem C9_waves_zero_off_water_witness :
    maskAt [[true, false]] 0 1 = false ∧
    (gridAt (create_wave_pattern (fun _ _ => 1) [[true, false]]) 0 1 = 0 ∧
     gridAt (create_tactile_wave_pattern (fun _ _ => 1) [[true, false]]) 0 1 = 0) :=
  ⟨by decide, C9_waves_zero_off_water (fun _ _ => 1) [[true, false]] 0 1 (by decide)⟩

/-! ## C8: the sign-based water mask is strict (`elevation < 0`) -/

/-- C8 counterexample: at a cell of height exactly `0`, the sign-based policy
(src/core/create_3d_map.py line 97, `water_mask = elevation < 0`) marks the
cell as land, whereas the claim ("water iff height ≤ 0") would mark it as
water: the claimed equivalence fails on the one-cell grid `[[0]]`. -/
theorem C8_counterexample :
    ¬ (maskAt (water_mask_sign [[(0 : ℚ)]]) 0 0 = true ↔
        gridAt [[(0 : ℚ)]] 0 0 ≤ 0) := by
  decide

/-- C8 amended: the sign-based water classification marks a cell as water iff
its height is strictly negative (`height < 0`, not `height ≤ 0`), and the
mask has exactly the shape of the elevation grid. -/
theorem C8_sign_mask_strict (elevation : List (List ℚ)) :
    (water_mask_sign elevation).length = elevation.length ∧
    (∀ i, rowLen (water_mask_sign elevation) i = rowLen elevation i) ∧
    (∀ i j, (maskAt (water_mask_sign elevation) i j = true ↔
        gridAt elevation i j < 0)) := by
  refine ⟨water_mask_sign_length elevation,
    fun i => water_mask_sign_row_length elevation i, fun i j => ?_⟩
  rw [maskAt_water_mask_sign]
  exact decide_eq_true_iff

theorem C8_sign_mask_strict_witness :
    maskAt (water_mask_sign [[(-1 : ℚ)]]) 0 0 = true ↔
      gridAt [[(-1 : ℚ)]] 0 0 < 0 :=
  (C8_sign_mask_strict [[(-1 : ℚ)]]).2.2 0 0

/-! ## Binary Exporter (`save_stl`, `src/core/generate.py` lines 1503-1529)

The file is a byte list (each byte a natural number `< 256`).  The IEEE-754
float32 encoding of a vertex (nine data bytes per triangle, `np.float32(v)
.tobytes()` per vertex) is bit-level floating point, so it is threaded
through as an abstract little-endian vertex encoder `enc3` producing the
12 bytes of the three 4-byte coordinates; the only fact the claim needs is
that each encoded vertex is 12 bytes long.  The zero normal
`np.float32([0,0,0]).tobytes()` and the zero attribute `np.uint16(0)
.tobytes()` are concrete: IEEE-754 float32 `0.0` and uint16 `0` serialize
to all-zero bytes. -/

abbrev Vec3 : Type := ℚ × ℚ × ℚ

abbrev Face : Type := ℕ × ℕ × ℕ

/-- `np.uint32(n).tobytes()`: the 4 little-endian bytes of `n mod 2³²`. -/
def le32 (n : ℕ) : List ℕ :=
  [n % 256, n / 256 % 256, n / 65536 % 256, n / 16777216 % 256]

/-- Decode a 4-byte little-endian unsigned integer. -/
def fromLE32 (l : List ℕ) : ℕ :=
  l.getD 0 0 + 256 * l.getD 1 0 + 65536 * l.getD 2 0 + 16777216 * l.getD 3 0

/-- The 50 bytes written per triangle by `save_stl`: a zero-filled normal
(three float32 zeros = 12 zero bytes), the three vertices (12 bytes each via
the float32 triple encoder `enc3`), and the 2-byte zero attribute count. -/
def stl_record (enc3 : Vec3 → List ℕ) (vertices : List Vec3) (face : Face) :
    List ℕ :=
  List.replicate 12 0
    ++ enc3 (vertices.getD face.1 ((0 : ℚ), (0 : ℚ), (0 : ℚ)))
    ++ enc3 (vertices.getD face.2.1 ((0 : ℚ), (0 : ℚ), (0 : ℚ)))
    ++ enc3 (vertices.getD face.2.2 ((0 : ℚ), (0 : ℚ), (0 : ℚ)))
    ++ [0, 0]

/-- `save_stl(vertices, faces, filename)` from `src/core/generate.py`
(lines 1503-1529), as the byte sequence written to the file: an 80-byte
zero header (`b'\x00' * 80`), the 4-byte little-endian triangle count
(`np.uint32(len(faces))`), then the 50-byte record of each triangle. -/
def save_stl (enc3 : Vec3 → List ℕ) (vertices : List Vec3) (faces : List Face) :
    List ℕ :=
  List.replicate 80 0 ++ le32 faces.length
    ++ faces.flatMap (stl_record enc3 vertices)

theorem fromLE32_le32 (n : ℕ) : fromLE32 (le32 n) = n % 4294967296 := by
  unfold fromLE32 le32
  simp only [List.getD_cons_zero, List.getD_cons_succ]
  omega

theorem stl_record_length (enc3 : Vec3 → List ℕ)
    (h12 : ∀ v, (enc3 v).length = 12) (vertices : List Vec3) (face : Face) :
    (stl_record enc3 vertices face).length = 50 := by
  simp [stl_record, h12]

theorem length_flatMap_const {α β : Type} (l : List α) (f : α → List β) (k : ℕ)
    (h : ∀ a ∈ l, (f a).length = k) : (l.flatMap f).length = k * l.length := by
  induction l with
  | nil => simp
  | cons a l ih =>
    simp only [List.flatMap_cons, List.length_append, List.length_cons]
    rw [h a (List.mem_cons_self a l), ih (fun b hb => h b (List.mem_cons_of_mem a hb))]
    ring

/-- C3: for every mesh, the Binary Exporter writes an 80-byte (zero) header,
then the 4-byte little-endian unsigned triangle count (equal to `n` whenever
`n < 2³²`), then one 50-byte record per triangle consisting of a 12-byte
zero-filled normal, the three 12-byte float32-encoded vertices and a 2-byte
zero attribute field; the total output is exactly `80 + 4 + 50·n` bytes. -/
theorem C3_stl_layout (enc3 : Vec3 → List ℕ)
    (h12 : ∀ v, (enc3 v).length = 12) (vertices : List Vec3)
    (faces : List Face) :
    (save_stl enc3 vertices faces).length = 80 + 4 + 50 * faces.length ∧
    (save_stl enc3 vertices faces).take 80 = List.replicate 80 0 ∧
    ((save_stl enc3 vertices faces).drop 80).take 4 = le32 faces.length ∧
    (faces.length < 4294967296 →
      fromLE32 (((save_stl enc3 vertices faces).drop 80).take 4) = faces.length) ∧
    (∀ face ∈ faces,
      (stl_record enc3 vertices face).length = 50 ∧
      (stl_record enc3 vertices face).take 12 = List.replicate 12 0 ∧
      ((stl_record enc3 vertices face).drop 12).take 36 =
        enc3 (vertices.getD face.1 ((0 : ℚ), (0 : ℚ), (0 : ℚ)))
          ++ enc3 (vertices.getD face.2.1 ((0 : ℚ), (0 : ℚ), (0 : ℚ)))
          ++ enc3 (vertices.getD face.2.2 ((0 : ℚ), (0 : ℚ), (0 : ℚ))) ∧
      (stl_record enc3 vertices face).drop 48 = [0, 0]) := by
  have hlen : ∀ face ∈ faces, (stl_record enc3 vertices face).length = 50 :=
    fun face _ => stl_record_length enc3 h12 vertices face
  refine ⟨?_, ?_, ?_, ?_, ?_⟩
  · unfold save_stl
    rw [List.length_append, List.length_append,
      length_flatMap_const faces _ 50 hlen]
    simp only [List.length_replicate, le32, List.length_cons, List.length_nil]
  · unfold save_stl
    rw [List.append_assoc, List.take_left' (by simp)]
  · unfold save_stl
    rw [List.append_assoc, List.drop_left' (by simp),
      List.take_left' (by simp [le32])]
  · intro hn
    unfold save_stl
    rw [List.append_assoc, List.drop_left' (by simp),
      List.take_left' (by simp [le32]), fromLE32_le32,
      Nat.mod_eq_of_lt hn]
  · intro face hf
    refine ⟨hlen face hf, ?_, ?_, ?_⟩
    · unfold stl_record
      rw [List.append_assoc, List.append_assoc, List.append_assoc,
        List.take_left' (by simp)]
    · unfold stl_record
      rw [List.append_assoc, List.append_assoc, List.append_assoc,
        List.drop_left' (by simp), ← List.append_assoc, ← List.append_assoc,
        List.take_left' (by simp [h12])]
    · unfold stl_record
      rw [List.drop_left' (by simp [h12])]

theorem C3_stl_layout_witness :
    (save_stl (fun _ => List.replicate 12 0) [((0 : ℚ), (0 : ℚ), (0 : ℚ))]
      [((0, 0, 0) : Face)]).length = 80 + 4 + 50 * 1 :=
  (C3_stl_layout (fun _ => List.replicate 12 0) (fun _ => by simp)
    [((0 : ℚ), (0 : ℚ), (0 : ℚ))] [((0, 0, 0) : Face)]).1

/-! ## Terrain Mesh Builder

`create_terrain_mesh(X, Y, Z)` from `src/core/generate.py` (lines 194-257)
and `create_flat_bottom_mesh(lon_grid, lat_grid, elevation, base_thickness)`
from `src/core/tactile_map/mesh_generator.py` (lines 9-120).  Both stack the
raveled top-surface vertices above the raveled bottom-surface vertices
(`n_top = ny·nx` of each) and emit, in source order: top faces, bottom faces,
front skirt, back skirt, left skirt, right skirt.  The face lists depend only
on the grid shape `(ny, nx)`. -/

/-- Top-surface faces of `create_terrain_mesh` (two triangles per quad,
`[p1, p2, p4]` and `[p1, p4, p3]`). -/
def terrain_top_faces (ny nx : ℕ) : List Face :=
  (List.range (ny - 1)).flatMap fun i =>
    (List.range (nx - 1)).flatMap fun j =>
      [(i * nx + j, i * nx + j + 1, (i + 1) * nx + j + 1),
       (i * nx + j, (i + 1) * nx + j + 1, (i + 1) * nx + j)]

/-- Bottom-surface faces of `create_terrain_mesh` (reversed winding,
`[p1, p4, p2]` and `[p1, p3, p4]`, all indices offset by `n_top = ny·nx`). -/
def terrain_bottom_faces (ny nx : ℕ) : List Face :=
  (List.range (ny - 1)).flatMap fun i =>
    (List.range (nx - 1)).flatMap fun j =>
      [(ny * nx + i * nx + j, ny * nx + (i + 1) * nx + j + 1,
        ny * nx + i * nx + j + 1),
       (ny * nx + i * nx + j, ny * nx + (i + 1) * nx + j,
        ny * nx + (i + 1) * nx + j + 1)]

/-- Front (`y = 0`) skirt faces, `[t1, b1, t2]` and `[t2, b1, b2]`
(identical in `create_terrain_mesh` and `create_flat_bottom_mesh`). -/
def terrain_front_faces (ny nx : ℕ) : List Face :=
  (List.range (nx - 1)).flatMap fun j =>
    [(j, ny * nx + j, j + 1),
     (j + 1, ny * nx + j, ny * nx + j + 1)]

/-- Back (`y = max`) skirt faces, `[t1, t2, b1]` and `[t2, b2, b1]`. -/
def terrain_back_faces (ny nx : ℕ) : List Face :=
  (List.range (nx - 1)).flatMap fun j =>
    [((ny - 1) * nx + j, (ny - 1) * nx + j + 1, ny * nx + (ny - 1) * nx + j),
     ((ny - 1) * nx + j + 1, ny * nx + (ny - 1) * nx + j + 1,
      ny * nx + (ny - 1) * nx + j)]

/-- Left (`x = 0`) skirt faces, `[t1, t2, b1]` and `[t2, b2, b1]`. -/
def terrain_left_faces (ny nx : ℕ) : List Face :=
  (List.range (ny - 1)).flatMap fun i =>
    [(i * nx, (i + 1) * nx, ny * nx + i * nx),
     ((i + 1) * nx, ny * nx + (i + 1) * nx, ny * nx + i * nx)]

/-- Right (`x = max`) skirt faces, `[t1, b1, t2]` and `[t2, b1, b2]`. -/
def terrain_right_faces (ny nx : ℕ) : List Face :=
  (List.range (ny - 1)).flatMap fun i =>
    [(i * nx + nx - 1, ny * nx + i * nx + nx - 1, (i + 1) * nx + nx - 1),
     ((i + 1) * nx + nx - 1, ny * nx + i * nx + nx - 1,
      ny * nx + (i + 1) * nx + nx - 1)]

/-- All faces of `create_terrain_mesh`, in source append order. -/
def terrain_faces (ny nx : ℕ) : List Face :=
  terrain_top_faces ny nx ++ terrain_bottom_faces ny nx
    ++ terrain_front_faces ny nx ++ terrain_back_faces ny nx
    ++ terrain_left_faces ny nx ++ terrain_right_faces ny nx

/-- Row-major ravel of a 2D array (`arr.ravel()`). -/
def ravel (g : List (List ℚ)) : List ℚ := g.flatMap id

/-- `np.column_stack` of three raveled grids into a vertex list. -/
def column_stack3 (xs ys zs : List ℚ) : List Vec3 :=
  (xs.zip (ys.zip zs)).map fun p => (p.1, p.2.1, p.2.2)

/-- `create_terrain_mesh(X, Y, Z)` from `src/core/generate.py` (lines
194-257): top vertices at the grid heights, bottom vertices at
`-BASE_THICKNESS_MM`, followed by the shape-determined face list. -/
def create_terrain_mesh (X Y Z : List (List ℚ)) : List Vec3 × List Face :=
  (column_stack3 (ravel X) (ravel Y) (ravel Z)
     ++ column_stack3 (ravel X) (ravel Y)
          ((ravel Z).map fun _ => -BASE_THICKNESS_MM),
   terrain_faces Z.length (rowLen Z 0))

/-- Top-surface faces of `create_flat_bottom_mesh` (the other diagonal:
`[p1, p2, p3]` and `[p2, p4, p3]`). -/
def flat_bottom_top_faces (ny nx : ℕ) : List Face :=
  (List.range (ny - 1)).flatMap fun i =>
    (List.range (nx - 1)).flatMap fun j =>
      [(i * nx + j, i * nx + j + 1, (i + 1) * nx + j),
       (i * nx + j + 1, (i + 1) * nx + j + 1, (i + 1) * nx + j)]

/-- Bottom-surface faces of `create_flat_bottom_mesh` (reversed winding,
`[p1, p3, p2]` and `[p2, p3, p4]`, offset by `n_top`). -/
def flat_bottom_bottom_faces (ny nx : ℕ) : List Face :=
  (List.range (ny - 1)).flatMap fun i =>
    (List.range (nx - 1)).flatMap fun j =>
      [(ny * nx + i * nx + j, ny * nx + (i + 1) * nx + j,
        ny * nx + i * nx + j + 1),
       (ny * nx + i * nx + j + 1, ny * nx + (i + 1) * nx + j,
        ny * nx + (i + 1) * nx + j + 1)]

/-- All faces of `create_flat_bottom_mesh`, in source append order (its four
skirt loops emit exactly the same triangles as `create_terrain_mesh`). -/
def flat_bottom_faces (ny nx : ℕ) : List Face :=
  flat_bottom_top_faces ny nx ++ flat_bottom_bottom_faces ny nx
    ++ terrain_front_faces ny nx ++ terrain_back_faces ny nx
    ++ terrain_left_faces ny nx ++ terrain_right_faces ny nx

/-- The single `side_faces` list of `create_flat_bottom_mesh`, accumulated by
its four skirt loops in source order (front, back, left, right). -/
def fb_side_faces (ny nx : ℕ) : List Face :=
  terrain_front_faces ny nx ++ terrain_back_faces ny nx
    ++ terrain_left_faces ny nx ++ terrain_right_faces ny nx

/-- Whether `np.vstack([top_faces, bottom_faces, side_faces])` at
src/core/tactile_map/mesh_generator.py line 109 raises `ValueError`:
`np.atleast_2d` promotes an empty Python list to shape `(1, 0)` while a
nonempty face list has shape `(k, 3)`, and stacking along axis 0 requires
equal column counts, so the call fails exactly when the three lists are
neither all empty nor all nonempty (top and bottom are compared with the
skirt list; they always share each other's emptiness). -/
def fb_vstack_raises (ny nx : ℕ) : Bool :=
  !((decide ((flat_bottom_top_faces ny nx).length = 0) ==
      decide ((fb_side_faces ny nx).length = 0)) &&
    (decide ((flat_bottom_bottom_faces ny nx).length = 0) ==
      decide ((fb_side_faces ny nx).length = 0)))

/-- `create_flat_bottom_mesh(lon_grid, lat_grid, elevation, base_thickness)`
from `src/core/tactile_map/mesh_generator.py` (lines 9-120): `none` models
the `ValueError` raised by the `np.vstack` of the face lists (line 109);
otherwise the stacked vertices and faces are returned.  In the surviving
degenerate case (both grid dimensions below 2) the stacked `(3, 0)` array
holds no triangle data, so the face list is empty. -/
def create_flat_bottom_mesh (lon_grid lat_grid elevation : List (List ℚ))
    (base_thickness : ℚ) : Option (List Vec3 × List Face) :=
  if fb_vstack_raises elevation.length (rowLen elevation 0) then none
  else
    some (column_stack3 (ravel lon_grid) (ravel lat_grid) (ravel elevation)
       ++ column_stack3 (ravel lon_grid) (ravel lat_grid)
            ((ravel elevation).map fun _ => -base_thickness),
     flat_bottom_faces elevation.length (rowLen elevation 0))

/-! ### Closed-mesh predicate

An undirected edge is a normalized index pair; a mesh is closed when every
edge of some triangle lies in exactly two of the mesh's triangles. -/

/-- Undirected edge between vertex indices `a` and `b`. -/
def ekey (a b : ℕ) : ℕ × ℕ := (min a b, max a b)

/-- The three undirected edges of a triangle. -/
def faceEdges (f : Face) : List (ℕ × ℕ) :=
  [ekey f.1 f.2.1, ekey f.2.1 f.2.2, ekey f.2.2 f.1]

/-- All edge slots of a face list. -/
def edgeList (fs : List Face) : List (ℕ × ℕ) := fs.flatMap faceEdges

/-- Number of triangles of `fs` having `e` among their edges. -/
def sharedCount (fs : List Face) (e : ℕ × ℕ) : ℕ :=
  fs.countP (fun f => decide (e ∈ faceEdges f))

/-- Every undirected edge of the mesh is shared by exactly two triangles. -/
def IsClosedMesh (fs : List Face) : Prop :=
  ∀ e ∈ edgeList fs, sharedCount fs e = 2

instance (fs : List Face) : Decidable (IsClosedMesh fs) := by
  unfold IsClosedMesh
  infer_instance

theorem length_flatMap_range1 {β : Type} (n : ℕ) (f : ℕ → List β) (k : ℕ)
    (h : ∀ i, (f i).length = k) :
    ((List.range n).flatMap f).length = n * k := by
  rw [length_flatMap_const _ _ k (fun a _ => h a), List.length_range]
  ring

theorem length_flatMap_range2 {β : Type} (n m : ℕ) (f : ℕ → ℕ → List β) (k : ℕ)
    (h : ∀ i j, (f i j).length = k) :
    ((List.range n).flatMap fun i =>
      (List.range m).flatMap fun j => f i j).length = n * m * k := by
  rw [length_flatMap_const _ _ (m * k)
    (fun a _ => length_flatMap_range1 m (f a) k (h a)), List.length_range]
  ring

theorem terrain_faces_length (ny nx : ℕ) :
    (terrain_faces ny nx).length =
      4 * (ny - 1) * (nx - 1) + 4 * (nx - 1) + 4 * (ny - 1) := by
  have h1 : (terrain_top_faces ny nx).length = (ny - 1) * (nx - 1) * 2 :=
    length_flatMap_range2 _ _ _ 2 (fun i j => rfl)
  have h2 : (terrain_bottom_faces ny nx).length = (ny - 1) * (nx - 1) * 2 :=
    length_flatMap_range2 _ _ _ 2 (fun i j => rfl)
  have h3 : (terrain_front_faces ny nx).length = (nx - 1) * 2 :=
    length_flatMap_range1 _ _ 2 (fun j => rfl)
  have h4 : (terrain_back_faces ny nx).length = (nx - 1) * 2 :=
    length_flatMap_range1 _ _ 2 (fun j => rfl)
  have h5 : (terrain_left_faces ny nx).length = (ny - 1) * 2 :=
    length_flatMap_range1 _ _ 2 (fun i => rfl)
  have h6 : (terrain_right_faces ny nx).length = (ny - 1) * 2 :=
    length_flatMap_range1 _ _ 2 (fun i => rfl)
  unfold terrain_faces
  rw [List.length_append, List.length_append, List.length_append,
    List.length_append, List.length_append, h1, h2, h3, h4, h5, h6]
  ring

theorem flat_bottom_faces_length (ny nx : ℕ) :
    (flat_bottom_faces ny nx).length =
      4 * (ny - 1) * (nx - 1) + 4 * (nx - 1) + 4 * (ny - 1) := by
  have h1 : (flat_bottom_top_faces ny nx).length = (ny - 1) * (nx - 1) * 2 :=
    length_flatMap_range2 _ _ _ 2 (fun i j => rfl)
  have h2 : (flat_bottom_bottom_faces ny nx).length = (ny - 1) * (nx - 1) * 2 :=
    length_flatMap_range2 _ _ _ 2 (fun i j => rfl)
  have h3 : (terrain_front_faces ny nx).length = (nx - 1) * 2 :=
    length_flatMap_range1 _ _ 2 (fun j => rfl)
  have h4 : (terrain_back_faces ny nx).length = (nx - 1) * 2 :=
    length_flatMap_range1 _ _ 2 (fun j => rfl)
  have h5 : (terrain_left_faces ny nx).length = (ny - 1) * 2 :=
    length_flatMap_range1 _ _ 2 (fun i => rfl)
  have h6 : (terrain_right_faces ny nx).length = (ny - 1) * 2 :=
    length_flatMap_range1 _ _ 2 (fun i => rfl)
  unfold flat_bottom_faces
  rw [List.length_append, List.length_append, List.length_append,
    List.length_append, List.length_append, h1, h2, h3, h4, h5, h6]
  ring

theorem fb_side_faces_length (ny nx : ℕ) :
    (fb_side_faces ny nx).length = 4 * (nx - 1) + 4 * (ny - 1) := by
  have h3 : (terrain_front_faces ny nx).length = (nx - 1) * 2 :=
    length_flatMap_range1 _ _ 2 (fun j => rfl)
  have h4 : (terrain_back_faces ny nx).length = (nx - 1) * 2 :=
    length_flatMap_range1 _ _ 2 (fun j => rfl)
  have h5 : (terrain_left_faces ny nx).length = (ny - 1) * 2 :=
    length_flatMap_range1 _ _ 2 (fun i => rfl)
  have h6 : (terrain_right_faces ny nx).length = (ny - 1) * 2 :=
    length_flatMap_range1 _ _ 2 (fun i => rfl)
  unfold fb_side_faces
  rw [List.length_append, List.length_append, List.length_append,
    h3, h4, h5, h6]
  ring

theorem fb_vstack_raises_true (ny nx : ℕ) (h1 : ny < 2 ∨ nx < 2)
    (h2 : 2 ≤ ny ∨ 2 ≤ nx) : fb_vstack_raises ny nx = true := by
  have lt : (flat_bottom_top_faces ny nx).length = (ny - 1) * (nx - 1) * 2 :=
    length_flatMap_range2 _ _ _ 2 (fun i j => rfl)
  have ls := fb_side_faces_length ny nx
  have dt : decide ((flat_bottom_top_faces ny nx).length = 0) = true :=
    decide_eq_true (by
      rw [lt]
      rcases h1 with h | h
      · have h0 : ny - 1 = 0 := by omega
        rw [h0]; ring
      · have h0 : nx - 1 = 0 := by omega
        rw [h0]; ring)
  have ds : decide ((fb_side_faces ny nx).length = 0) = false :=
    decide_eq_false (by rw [ls]; omega)
  unfold fb_vstack_raises
  rw [dt, ds]
  rfl

theorem fb_vstack_raises_false_big (ny nx : ℕ) (hny : 2 ≤ ny)
    (hnx : 2 ≤ nx) : fb_vstack_raises ny nx = false := by
  have lt : (flat_bottom_top_faces ny nx).length = (ny - 1) * (nx - 1) * 2 :=
    length_flatMap_range2 _ _ _ 2 (fun i j => rfl)
  have lb : (flat_bottom_bottom_faces ny nx).length =
      (ny - 1) * (nx - 1) * 2 :=
    length_flatMap_range2 _ _ _ 2 (fun i j => rfl)
  have ls := fb_side_faces_length ny nx
  have hm : 1 * 1 ≤ (ny - 1) * (nx - 1) :=
    Nat.mul_le_mul (by omega) (by omega)
  have dt : decide ((flat_bottom_top_faces ny nx).length = 0) = false :=
    decide_eq_false (by rw [lt]; omega)
  have db : decide ((flat_bottom_bottom_faces ny nx).length = 0) = false :=
    decide_eq_false (by rw [lb]; omega)
  have ds : decide ((fb_side_faces ny nx).length = 0) = false :=
    decide_eq_false (by rw [ls]; omega)
  unfold fb_vstack_raises
  rw [dt, db, ds]
  rfl

theorem fb_vstack_raises_false_tiny (ny nx : ℕ) (hny : ny < 2)
    (hnx : nx < 2) : fb_vstack_raises ny nx = false := by
  have lt : (flat_bottom_top_faces ny nx).length = (ny - 1) * (nx - 1) * 2 :=
    length_flatMap_range2 _ _ _ 2 (fun i j => rfl)
  have lb : (flat_bottom_bottom_faces ny nx).length =
      (ny - 1) * (nx - 1) * 2 :=
    length_flatMap_range2 _ _ _ 2 (fun i j => rfl)
  have ls := fb_side_faces_length ny nx
  have e1 : ny - 1 = 0 := by omega
  have e2 : nx - 1 = 0 := by omega
  have dt : decide ((flat_bottom_top_faces ny nx).length = 0) = true :=
    decide_eq_true (by rw [lt, e1]; ring)
  have db : decide ((flat_bottom_bottom_faces ny nx).length = 0) = true :=
    decide_eq_true (by rw [lb, e1]; ring)
  have ds : decide ((fb_side_faces ny nx).length = 0) = true :=
    decide_eq_true (by rw [ls, e1, e2])
  unfold fb_vstack_raises
  rw [dt, db, ds]
  rfl

theorem flat_bottom_faces_nil (ny nx : ℕ) (hny : ny < 2) (hnx : nx < 2) :
    flat_bottom_faces ny nx = [] := by
  have h0 : (flat_bottom_faces ny nx).length = 0 := by
    rw [flat_bottom_faces_length]
    have e1 : ny - 1 = 0 := by omega
    have e2 : nx - 1 = 0 := by omega
    rw [e1, e2]
  exact List.length_eq_zero.mp h0

/-- C7 counterexample: on a degenerate `1×2` grid neither terrain builder
raises a `DegenerateGrid` error (no `DegenerateGrid` exists anywhere in the
repository).  `create_terrain_mesh` raises nothing at all: it returns a mesh
with 4 skirt triangles (front and back skirts on coincident vertices) that
is not closed — the edge `(1, 2)` lies in 4 triangles.
`create_flat_bottom_mesh` instead dies with the generic `ValueError` of
`np.vstack` (modeled as `none`): its empty top/bottom face lists promote to
shape `(1, 0)` while its skirt list has shape `(4, 3)`. -/
theorem C7_counterexample :
    (create_terrain_mesh [[0, 0]] [[0, 0]] [[0, 0]]).2.length = 4 ∧
    ¬ IsClosedMesh (create_terrain_mesh [[0, 0]] [[0, 0]] [[0, 0]]).2 ∧
    sharedCount (create_terrain_mesh [[0, 0]] [[0, 0]] [[0, 0]]).2 (1, 2) = 4 ∧
    create_flat_bottom_mesh [[0, 0]] [[0, 0]] [[0, 0]] 2 = none := by
  decide

/-- C7 amended: for `ny < 2` or `nx < 2` no `DegenerateGrid` error is
raised (none exists in the repository).  `create_terrain_mesh` does not fail
at all: it returns a (degenerate) mesh with `4·((ny-1)+(nx-1))` triangles
(no top or bottom faces, only the surviving skirt strips, which coincide
vertex-for-vertex).  `create_flat_bottom_mesh` never reaches a return when
exactly one dimension is at least 2: the `np.vstack` of its empty top/bottom
face lists with the nonempty skirt list raises a generic `ValueError`
(modeled as `none`) — still not a `DegenerateGrid`; when both dimensions are
below 2 the stack degenerates and it returns with no triangle data. -/
theorem C7_degenerate_grid_no_error (X Y Z : List (List ℚ)) (b : ℚ)
    (h : Z.length < 2 ∨ rowLen Z 0 < 2) :
    (create_terrain_mesh X Y Z).2.length =
        4 * ((Z.length - 1) + (rowLen Z 0 - 1)) ∧
    ((2 ≤ Z.length ∨ 2 ≤ rowLen Z 0) →
      create_flat_bottom_mesh X Y Z b = none) ∧
    (Z.length < 2 ∧ rowLen Z 0 < 2 →
      create_flat_bottom_mesh X Y Z b =
        some (column_stack3 (ravel X) (ravel Y) (ravel Z)
           ++ column_stack3 (ravel X) (ravel Y)
                ((ravel Z).map fun _ => -b), [])) := by
  refine ⟨?_, ?_, ?_⟩
  · have hz : 4 * (Z.length - 1) * (rowLen Z 0 - 1) = 0 := by
      rcases h with h | h
      · have h0 : Z.length - 1 = 0 := by omega
        rw [h0]; ring
      · have h0 : rowLen Z 0 - 1 = 0 := by omega
        rw [h0]; ring
    show (terrain_faces Z.length (rowLen Z 0)).length = _
    rw [terrain_faces_length, hz]
    ring
  · intro h2
    unfold create_flat_bottom_mesh
    rw [fb_vstack_raises_true Z.length (rowLen Z 0) h h2]
    rfl
  · intro h12
    obtain ⟨h1, h2⟩ := h12
    unfold create_flat_bottom_mesh
    rw [fb_vstack_raises_false_tiny Z.length (rowLen Z 0) h1 h2,
      flat_bottom_faces_nil Z.length (rowLen Z 0) h1 h2]
    rfl

/-! ## Boundary Wall Builder

`create_wall_segment(points, height, width)` from `src/core/generate.py`
(lines 677-733) and the per-ring sampling loop of `create_boundary_walls`
(lines 308-358).  The source computes each outgoing edge length as
`np.sqrt(dx*dx + dy*dy)`, which is irrational in general; the length value
at each ring index is therefore threaded through as an explicit assignment
`lenO : ℕ → ℚ`.  Theorems below either hold for every assignment (all facts
about `z` coordinates and faces, which do not depend on the perpendicular)
or pin `lenO i` to the exact Euclidean length where the perpendicular
matters (on Pythagorean inputs the exact length is rational). -/

/-- The outgoing edge vector `(dx, dy)` at ring index `i`: direction from
`points[i]` to `points[(i+1) % n]` (planar components). -/
def ring_next_dir (points : List Vec3) (i : ℕ) : ℚ × ℚ :=
  ((points.getD ((i + 1) % points.length) ((0 : ℚ), (0 : ℚ), (0 : ℚ))).1 -
     (points.getD i ((0 : ℚ), (0 : ℚ), (0 : ℚ))).1,
   (points.getD ((i + 1) % points.length) ((0 : ℚ), (0 : ℚ), (0 : ℚ))).2.1 -
     (points.getD i ((0 : ℚ), (0 : ℚ), (0 : ℚ))).2.1)

/-- The incoming edge vector at ring index `i`: direction from
`points[(i-1) mod n]` to `points[i]` (planar components). -/
def ring_prev_dir (points : List Vec3) (i : ℕ) : ℚ × ℚ :=
  ((points.getD i ((0 : ℚ), (0 : ℚ), (0 : ℚ))).1 -
     (points.getD ((i + points.length - 1) % points.length)
       ((0 : ℚ), (0 : ℚ), (0 : ℚ))).1,
   (points.getD i ((0 : ℚ), (0 : ℚ), (0 : ℚ))).2.1 -
     (points.getD ((i + points.length - 1) % points.length)
       ((0 : ℚ), (0 : ℚ), (0 : ℚ))).2.1)

/-- The `(px, py)` pair computed by `create_wall_segment` at ring index `i`:
the half-width perpendicular of the outgoing edge `(dx, dy)`, i.e.
`(-dy/length * width/2, dx/length * width/2)`, falling back to the fixed
perpendicular `(0, width/2)` when `length < 0.01`. -/
def wall_pq (points : List Vec3) (width : ℚ) (lenO : ℕ → ℚ) (i : ℕ) : ℚ × ℚ :=
  if lenO i < 1 / 100 then (0, width / 2)
  else (-(ring_next_dir points i).2 / lenO i * (width / 2),
        (ring_next_dir points i).1 / lenO i * (width / 2))

/-- The 4 wall vertices emitted for ring index `i` by `create_wall_segment`:
inner-bottom, inner-top, outer-bottom, outer-top; the perpendicular comes
from the direction to the next ring point (`next_i = (i+1) % n`), falling
back to `(0, width/2)` when `length < 0.01`. -/
def wall_vertex_block (points : List Vec3) (height width : ℚ)
    (lenO : ℕ → ℚ) (i : ℕ) : List Vec3 :=
  let p := points.getD i ((0 : ℚ), (0 : ℚ), (0 : ℚ))
  let pq := wall_pq points width lenO i
  [(p.1 + pq.1, p.2.1 + pq.2, p.2.2),
   (p.1 + pq.1, p.2.1 + pq.2, p.2.2 + height),
   (p.1 - pq.1, p.2.1 - pq.2, p.2.2),
   (p.1 - pq.1, p.2.1 - pq.2, p.2.2 + height)]

/-- The 6 wall faces emitted for ring index `i` (inner wall, outer wall and
top cap quads, two triangles each), connecting vertex block `i` to vertex
block `(i+1) % n` — including `i = n-1` back to block `0`. -/
def wall_faces_block (n i : ℕ) : List Face :=
  [(i * 4, ((i + 1) % n) * 4, i * 4 + 1),
   (i * 4 + 1, ((i + 1) % n) * 4, ((i + 1) % n) * 4 + 1),
   (i * 4 + 2, i * 4 + 3, ((i + 1) % n) * 4 + 2),
   (i * 4 + 3, ((i + 1) % n) * 4 + 3, ((i + 1) % n) * 4 + 2),
   (i * 4 + 1, ((i + 1) % n) * 4 + 1, i * 4 + 3),
   (((i + 1) % n) * 4 + 1, ((i + 1) % n) * 4 + 3, i * 4 + 3)]

/-- `create_wall_segment(points, height, width)` from `src/core/generate.py`
(lines 677-733): returns empty arrays for fewer than 3 points, otherwise
4 vertices and 6 faces per ring point. -/
def create_wall_segment (points : List Vec3) (height width : ℚ)
    (lenO : ℕ → ℚ) : List Vec3 × List Face :=
  if points.length < 3 then ([], [])
  else
    ((List.range points.length).flatMap (wall_vertex_block points height width lenO),
     (List.range points.length).flatMap (wall_faces_block points.length))

/-- `deg_to_mm(lon, lat)` from `src/core/generate.py` (lines 85-90). -/
def deg_to_mm (lon lat : ℚ) : ℚ × ℚ :=
  ((lon - MAP_BOUNDS.1) / (MAP_BOUNDS.2.2.1 - MAP_BOUNDS.1) * FULL_WIDTH_MM,
   (lat - MAP_BOUNDS.2.1) / (MAP_BOUNDS.2.2.2 - MAP_BOUNDS.2.1) * FULL_HEIGHT_MM)

/-- Accumulator loop of `np.argmin(np.abs(xs - t))`: first index of the
minimal absolute difference (strict improvement keeps the first). -/
def argminAux (t : ℚ) : List ℚ → ℕ → ℕ → ℚ → ℕ
  | [], _, bi, _ => bi
  | v :: rest, idx, bi, bv =>
      if |v - t| < bv then argminAux t rest (idx + 1) idx |v - t|
      else argminAux t rest (idx + 1) bi bv

/-- `np.argmin(np.abs(xs - t))`: index of the first element of `xs` closest
to `t` (0 on the empty list). -/
def argminAbs (xs : List ℚ) (t : ℚ) : ℕ :=
  match xs with
  | [] => 0
  | v :: rest => argminAux t rest 1 0 |v - t|

/-- The per-ring body of `create_boundary_walls` (src/core/generate.py lines
324-345): drop the duplicated closing point, convert each ring coordinate to
mm, sample the terrain height at the nearest grid point (`X[0,:]` and
`Y[:,0]` scans), producing the `(x_mm, y_mm, base_z)` list handed to
`create_wall_segment`. -/
def ring_points_mm (coords : List (ℚ × ℚ)) (X Y Z : List (List ℚ)) :
    List Vec3 :=
  coords.dropLast.map fun c =>
    let m := deg_to_mm c.1 c.2
    let xi := argminAbs (X.getD 0 []) m.1
    let yi := argminAbs (Y.map fun row => row.getD 0 0) m.2
    (m.1, m.2, gridAt Z yi xi)

/-- One polygon ring of `create_boundary_walls` (src/core/generate.py lines
308-358): skip rings of fewer than 3 coordinates, then build the wall with
`BOUNDARY_HEIGHT_MM`/`BOUNDARY_WIDTH_MM`. -/
def create_boundary_wall_ring (coords : List (ℚ × ℚ)) (X Y Z : List (List ℚ))
    (lenO : ℕ → ℚ) : List Vec3 × List Face :=
  if coords.length < 3 then ([], [])
  else if (ring_points_mm coords X Y Z).length < 3 then ([], [])
  else create_wall_segment (ring_points_mm coords X Y Z)
    BOUNDARY_HEIGHT_MM BOUNDARY_WIDTH_MM lenO

theorem getElem?_flatMap_range_const {β : Type} (n sz : ℕ) (f : ℕ → List β)
    (hsz : ∀ i, (f i).length = sz) (i k : ℕ) (hi : i < n) (hk : k < sz) :
    ((List.range n).flatMap f)[sz * i + k]? = (f i)[k]? := by
  induction n with
  | zero => omega
  | succ n ih =>
    rw [List.range_succ, List.flatMap_append]
    have hlen : ((List.range n).flatMap f).length = n * sz :=
      length_flatMap_range1 n f sz hsz
    rcases Nat.lt_or_ge i n with h | h
    · rw [List.getElem?_append_left, ih h]
      rw [hlen]
      have h2 : sz * i + sz ≤ sz * n := by
        calc sz * i + sz = sz * (i + 1) := by ring
          _ ≤ sz * n := Nat.mul_le_mul_left sz h
      have h3 : sz * n = n * sz := Nat.mul_comm sz n
      omega
    · have hin : i = n := by omega
      subst hin
      have hcomm : i * sz = sz * i := Nat.mul_comm i sz
      rw [List.getElem?_append_right (by rw [hlen]; omega)]
      rw [hlen]
      have : sz * i + k - i * sz = k := by omega
      rw [this]
      simp

theorem getD_flatMap_range_const {β : Type} (n sz : ℕ) (f : ℕ → List β)
    (d : β) (hsz : ∀ i, (f i).length = sz) (i k : ℕ) (hi : i < n)
    (hk : k < sz) :
    ((List.range n).flatMap f).getD (sz * i + k) d = (f i).getD k d := by
  rw [List.getD_eq_getElem?_getD, List.getD_eq_getElem?_getD,
    getElem?_flatMap_range_const n sz f hsz i k hi hk]

/-- The terrain height `create_boundary_walls` samples for ring vertex `i`:
convert the coordinate to mm, scan `X[0,:]` and `Y[:,0]` for the nearest
grid indices, and read `Z` there (src/core/generate.py lines 331-339). -/
def ring_base_z (coords : List (ℚ × ℚ)) (X Y Z : List (List ℚ)) (i : ℕ) : ℚ :=
  gridAt Z
    (argminAbs (Y.map fun row => row.getD 0 0)
      (deg_to_mm (coords.getD i (0, 0)).1 (coords.getD i (0, 0)).2).2)
    (argminAbs (X.getD 0 [])
      (deg_to_mm (coords.getD i (0, 0)).1 (coords.getD i (0, 0)).2).1)

theorem ring_points_mm_length (coords : List (ℚ × ℚ)) (X Y Z : List (List ℚ)) :
    (ring_points_mm coords X Y Z).length = coords.length - 1 := by
  simp [ring_points_mm]

theorem ring_points_mm_getD (coords : List (ℚ × ℚ)) (X Y Z : List (List ℚ))
    (i : ℕ) (hi : i < coords.length - 1) :
    (ring_points_mm coords X Y Z).getD i ((0 : ℚ), (0 : ℚ), (0 : ℚ)) =
      ((deg_to_mm (coords.getD i (0, 0)).1 (coords.getD i (0, 0)).2).1,
       (deg_to_mm (coords.getD i (0, 0)).1 (coords.getD i (0, 0)).2).2,
       ring_base_z coords X Y Z i) := by
  unfold ring_points_mm ring_base_z
  have hi' : i < coords.length := by omega
  rw [List.getD_eq_getElem?_getD, List.getElem?_map, List.getElem?_dropLast,
    if_pos hi, List.getElem?_eq_getElem hi', Option.map_some', Option.getD_some]
  simp only [List.getD_eq_getElem?_getD, List.getElem?_eq_getElem hi',
    Option.getD_some]

/-- C5: on every ring of `n ≥ 3` points (a polygon whose coordinate list
still carries the duplicated closing point, so `coords.length ≥ 4`), for
every edge-length assignment, the Boundary Wall Builder emits `4n` vertices
and `6n` faces; the four vertices of each ring index sit at the locally
sampled terrain height (inner/outer base) and at that height plus the
configured positive `BOUNDARY_HEIGHT_MM` (inner/outer top, hence never below
the local terrain); each ring index is connected to the next by its 6-face
band, and index `n-1` connects back to index `0` — a closed ribbon. -/
theorem C5_wall_ring (coords : List (ℚ × ℚ)) (X Y Z : List (List ℚ))
    (lenO : ℕ → ℚ) (h4 : 4 ≤ coords.length) :
    (create_boundary_wall_ring coords X Y Z lenO).1.length =
        (coords.length - 1) * 4 ∧
    (create_boundary_wall_ring coords X Y Z lenO).2.length =
        (coords.length - 1) * 6 ∧
    (∀ i, i < coords.length - 1 →
      ((create_boundary_wall_ring coords X Y Z lenO).1.getD (4 * i)
          ((0 : ℚ), (0 : ℚ), (0 : ℚ))).2.2 = ring_base_z coords X Y Z i ∧
      ((create_boundary_wall_ring coords X Y Z lenO).1.getD (4 * i + 1)
          ((0 : ℚ), (0 : ℚ), (0 : ℚ))).2.2 =
        ring_base_z coords X Y Z i + BOUNDARY_HEIGHT_MM ∧
      ((create_boundary_wall_ring coords X Y Z lenO).1.getD (4 * i + 2)
          ((0 : ℚ), (0 : ℚ), (0 : ℚ))).2.2 = ring_base_z coords X Y Z i ∧
      ((create_boundary_wall_ring coords X Y Z lenO).1.getD (4 * i + 3)
          ((0 : ℚ), (0 : ℚ), (0 : ℚ))).2.2 =
        ring_base_z coords X Y Z i + BOUNDARY_HEIGHT_MM) ∧
    (0 : ℚ) < BOUNDARY_HEIGHT_MM ∧
    (∀ i, i < coords.length - 1 →
      wall_faces_block (coords.length - 1) i ⊆
        (create_boundary_wall_ring coords X Y Z lenO).2) ∧
    ((coords.length - 2) * 4, 0, (coords.length - 2) * 4 + 1) ∈
      (create_boundary_wall_ring coords X Y Z lenO).2 := by
  have hn : (ring_points_mm coords X Y Z).length = coords.length - 1 :=
    ring_points_mm_length coords X Y Z
  have hring : create_boundary_wall_ring coords X Y Z lenO =
      ((List.range (coords.length - 1)).flatMap
        (wall_vertex_block (ring_points_mm coords X Y Z)
          BOUNDARY_HEIGHT_MM BOUNDARY_WIDTH_MM lenO),
       (List.range (coords.length - 1)).flatMap
        (wall_faces_block (coords.length - 1))) := by
    unfold create_boundary_wall_ring
    rw [if_neg (by omega), if_neg (by omega)]
    unfold create_wall_segment
    rw [if_neg (by omega), hn]
  have hblock : ∀ i, i < coords.length - 1 → ∀ k, k < 4 →
      (create_boundary_wall_ring coords X Y Z lenO).1.getD (4 * i + k)
          ((0 : ℚ), (0 : ℚ), (0 : ℚ)) =
        (wall_vertex_block (ring_points_mm coords X Y Z)
          BOUNDARY_HEIGHT_MM BOUNDARY_WIDTH_MM lenO i).getD k
          ((0 : ℚ), (0 : ℚ), (0 : ℚ)) := by
    intro i hi k hk
    rw [hring]
    have hsz : ∀ t, (wall_vertex_block (ring_points_mm coords X Y Z)
        BOUNDARY_HEIGHT_MM BOUNDARY_WIDTH_MM lenO t).length = 4 := fun _ => rfl
    exact getD_flatMap_range_const (coords.length - 1) 4 _ _ hsz i k hi hk
  have hsub : ∀ i, i < coords.length - 1 →
      wall_faces_block (coords.length - 1) i ⊆
        (create_boundary_wall_ring coords X Y Z lenO).2 := by
    intro i hi f hf
    rw [hring]
    exact List.mem_flatMap.mpr ⟨i, List.mem_range.mpr hi, hf⟩
  refine ⟨?_, ?_, ?_, by norm_num [BOUNDARY_HEIGHT_MM], hsub, ?_⟩
  · rw [hring]
    have hsz : ∀ t, (wall_vertex_block (ring_points_mm coords X Y Z)
        BOUNDARY_HEIGHT_MM BOUNDARY_WIDTH_MM lenO t).length = 4 := fun _ => rfl
    exact length_flatMap_range1 _ _ 4 hsz
  · rw [hring]
    have hsz : ∀ t, (wall_faces_block (coords.length - 1) t).length = 6 :=
      fun _ => rfl
    exact length_flatMap_range1 _ _ 6 hsz
  · intro i hi
    have h0 := hblock i hi 0 (by omega)
    have h1 := hblock i hi 1 (by omega)
    have h2 := hblock i hi 2 (by omega)
    have h3 := hblock i hi 3 (by omega)
    simp only [Nat.add_zero] at h0
    have e0 : ((wall_vertex_block (ring_points_mm coords X Y Z)
        BOUNDARY_HEIGHT_MM BOUNDARY_WIDTH_MM lenO i).getD 0
          ((0 : ℚ), (0 : ℚ), (0 : ℚ))).2.2 =
        ((ring_points_mm coords X Y Z).getD i
          ((0 : ℚ), (0 : ℚ), (0 : ℚ))).2.2 := rfl
    have e1 : ((wall_vertex_block (ring_points_mm coords X Y Z)
        BOUNDARY_HEIGHT_MM BOUNDARY_WIDTH_MM lenO i).getD 1
          ((0 : ℚ), (0 : ℚ), (0 : ℚ))).2.2 =
        ((ring_points_mm coords X Y Z).getD i
          ((0 : ℚ), (0 : ℚ), (0 : ℚ))).2.2 + BOUNDARY_HEIGHT_MM := rfl
    have e2 : ((wall_vertex_block (ring_points_mm coords X Y Z)
        BOUNDARY_HEIGHT_MM BOUNDARY_WIDTH_MM lenO i).getD 2
          ((0 : ℚ), (0 : ℚ), (0 : ℚ))).2.2 =
        ((ring_points_mm coords X Y Z).getD i
          ((0 : ℚ), (0 : ℚ), (0 : ℚ))).2.2 := rfl
    have e3 : ((wall_vertex_block (ring_points_mm coords X Y Z)
        BOUNDARY_HEIGHT_MM BOUNDARY_WIDTH_MM lenO i).getD 3
          ((0 : ℚ), (0 : ℚ), (0 : ℚ))).2.2 =
        ((ring_points_mm coords X Y Z).getD i
          ((0 : ℚ), (0 : ℚ), (0 : ℚ))).2.2 + BOUNDARY_HEIGHT_MM := rfl
    rw [h0, h1, h2, h3, e0, e1, e2, e3, ring_points_mm_getD coords X Y Z i hi]
    exact ⟨rfl, rfl, rfl, rfl⟩
  · have hmem : ((coords.length - 2) * 4, 0, (coords.length - 2) * 4 + 1) ∈
        wall_faces_block (coords.length - 1) (coords.length - 2) := by
      have hmod : (coords.length - 2 + 1) % (coords.length - 1) = 0 := by
        have he : coords.length - 2 + 1 = coords.length - 1 := by omega
        rw [he, Nat.mod_self]
      unfold wall_faces_block
      rw [hmod]
      simp
    exact hsub (coords.length - 2) (by omega) hmem

theorem C5_wall_ring_witness :
    (create_boundary_wall_ring
      [((10 : ℚ), (20 : ℚ)), (20, 20), (20, 30), (10, 30), (10, 20)]
      [[0, 100, 200], [0, 100, 200]] [[0, 0, 0], [80, 80, 80]]
      [[1, 2, 3], [4, 5, 6]] (fun _ => 1)).1.length = (5 - 1) * 4 :=
  (C5_wall_ring
    [((10 : ℚ), (20 : ℚ)), (20, 20), (20, 30), (10, 30), (10, 20)]
    [[0, 100, 200], [0, 100, 200]] [[0, 0, 0], [80, 80, 80]]
    [[1, 2, 3], [4, 5, 6]] (fun _ => 1) (by decide)).1

/-! ### C4: the perpendicular uses the outgoing edge only

`create_wall_segment` computes the offset purely from the direction to the
*next* ring point; the incoming edge is never read (compare
`_calculate_wall_direction` in `src/core/create_3d_model/mesh_generator.py`,
which does average the two unit directions — the claim describes that other
variant, not the cited `src/core/generate.py` function). -/

/-- The planar offset from ring point `i` to the emitted inner wall vertex
(vertex `4i` of the output of `create_wall_segment`). -/
def wall_inner_offset (points : List Vec3) (height width : ℚ)
    (lenO : ℕ → ℚ) (i : ℕ) : ℚ × ℚ :=
  (((create_wall_segment points height width lenO).1.getD (4 * i)
      ((0 : ℚ), (0 : ℚ), (0 : ℚ))).1 -
    (points.getD i ((0 : ℚ), (0 : ℚ), (0 : ℚ))).1,
   ((create_wall_segment points height width lenO).1.getD (4 * i)
      ((0 : ℚ), (0 : ℚ), (0 : ℚ))).2.1 -
    (points.getD i ((0 : ℚ), (0 : ℚ), (0 : ℚ))).2.1)

/-- Modelled from the spec (§4.4): `u` is the unit vector in the direction
of the planar vector `d` (`u` has norm 1 and `d` is a positive multiple). -/
def IsUnitDirOf (d u : ℚ × ℚ) : Prop :=
  u.1 ^ 2 + u.2 ^ 2 = 1 ∧ ∃ c : ℚ, 0 < c ∧ d = (c * u.1, c * u.2)

/-- Modelled from the spec (§4.4): the claim that the wall's offset at ring
vertex `i` is the smoothed outward perpendicular obtained by averaging the
unit directions of the incoming and the outgoing edges — i.e. some scalar
multiple of the perpendicular of `uIn + uOut`. -/
def smoothed_perp_claim_at (points : List Vec3) (height width : ℚ)
    (lenO : ℕ → ℚ) (i : ℕ) : Prop :=
  ∃ uIn uOut : ℚ × ℚ, ∃ c : ℚ,
    IsUnitDirOf (ring_prev_dir points i) uIn ∧
    IsUnitDirOf (ring_next_dir points i) uOut ∧
    wall_inner_offset points height width lenO i =
      (c * (-(uIn.2 + uOut.2)), c * (uIn.1 + uOut.1))

/-- A concrete 3-4-5 right-triangle ring (wall input points, `z = 0`): all
three edge lengths (4, 5, 3) are rational, so the exact `np.sqrt` values can
be supplied. -/
def wall_demo_ring : List Vec3 :=
  [((0 : ℚ), (0 : ℚ), (0 : ℚ)), (4, 0, 0), (0, 3, 0)]

/-- The exact outgoing-edge lengths of `wall_demo_ring`. -/
def wall_demo_len (i : ℕ) : ℚ := [(4 : ℚ), 5, 3].getD i 0

theorem wall_inner_offset_eq_pq (points : List Vec3) (height width : ℚ)
    (lenO : ℕ → ℚ) (i : ℕ) (h3 : 3 ≤ points.length)
    (hi : i < points.length) :
    wall_inner_offset points height width lenO i =
      wall_pq points width lenO i := by
  have hsz : ∀ t, (wall_vertex_block points height width lenO t).length = 4 :=
    fun _ => rfl
  have h1 : (create_wall_segment points height width lenO).1.getD (4 * i)
      ((0 : ℚ), (0 : ℚ), (0 : ℚ)) =
      (wall_vertex_block points height width lenO i).getD 0
        ((0 : ℚ), (0 : ℚ), (0 : ℚ)) := by
    unfold create_wall_segment
    rw [if_neg (by omega)]
    have := getD_flatMap_range_const points.length 4 _
      ((0 : ℚ), (0 : ℚ), (0 : ℚ)) hsz i 0 hi (by omega)
    simpa using this
  unfold wall_inner_offset
  rw [h1]
  show ((points.getD i ((0 : ℚ), (0 : ℚ), (0 : ℚ))).1 +
      (wall_pq points width lenO i).1 -
      (points.getD i ((0 : ℚ), (0 : ℚ), (0 : ℚ))).1,
    (points.getD i ((0 : ℚ), (0 : ℚ), (0 : ℚ))).2.1 +
      (wall_pq points width lenO i).2 -
      (points.getD i ((0 : ℚ), (0 : ℚ), (0 : ℚ))).2.1) = _
  simp

/-- C4 counterexample: on the 3-4-5 ring with the exact edge lengths, the
offset `create_wall_segment` emits at vertex 0 is `(0, 5/4)` (perpendicular
of the outgoing edge only), which is not a scalar multiple of the averaged
incoming/outgoing perpendicular (that average points along `(1, 1)`): the
claimed smoothed-perpendicular property fails at vertex 0. -/
theorem C4_counterexample :
    wall_demo_len 0 = 4 ∧ (4 : ℚ) ^ 2 = 4 ^ 2 + 0 ^ 2 ∧
    wall_demo_len 1 = 5 ∧ (5 : ℚ) ^ 2 = (0 - 4) ^ 2 + (3 - 0) ^ 2 ∧
    wall_demo_len 2 = 3 ∧ (3 : ℚ) ^ 2 = 0 ^ 2 + (0 - 3) ^ 2 ∧
    ¬ smoothed_perp_claim_at wall_demo_ring BOUNDARY_HEIGHT_MM
        BOUNDARY_WIDTH_MM wall_demo_len 0 := by
  refine ⟨by decide, by norm_num, by decide, by norm_num, by decide, by norm_num, ?_⟩
  rintro ⟨uIn, uOut, c, ⟨hn1, c1, hc1, he1⟩, ⟨hn2, c2, hc2, he2⟩, hoff⟩
  have hprev : ring_prev_dir wall_demo_ring 0 = ((0 : ℚ), (-3 : ℚ)) := by
    unfold ring_prev_dir wall_demo_ring
    norm_num [List.getD]
  have hnext : ring_next_dir wall_demo_ring 0 = ((4 : ℚ), (0 : ℚ)) := by
    unfold ring_next_dir wall_demo_ring
    norm_num [List.getD]
  have hoffv : wall_inner_offset wall_demo_ring BOUNDARY_HEIGHT_MM
      BOUNDARY_WIDTH_MM wall_demo_len 0 = ((0 : ℚ), (5 / 4 : ℚ)) := by
    rw [wall_inner_offset_eq_pq wall_demo_ring _ _ wall_demo_len 0
      (by decide) (by decide)]
    unfold wall_pq
    rw [hnext]
    norm_num [wall_demo_len, List.getD, BOUNDARY_WIDTH_MM]
  rw [hprev, Prod.ext_iff] at he1
  rw [hnext, Prod.ext_iff] at he2
  rw [hoffv, Prod.ext_iff] at hoff
  simp only at he1 he2 hoff
  -- uIn = (0, -1)
  have hu1x : uIn.1 = 0 := by
    rcases mul_eq_zero.mp he1.1.symm with h | h
    · exact absurd h (ne_of_gt hc1)
    · exact h
  have hu1y : uIn.2 = -1 := by
    rw [hu1x] at hn1
    have h2 : uIn.2 ^ 2 = 1 := by nlinarith [hn1]
    have : (uIn.2 - 1) * (uIn.2 + 1) = 0 := by nlinarith [h2]
    rcases mul_eq_zero.mp this with h | h
    · exfalso
      have hy : uIn.2 = 1 := by linarith
      rw [hy] at he1
      nlinarith [he1.2, hc1]
    · linarith
  -- uOut = (1, 0)
  have hu2y : uOut.2 = 0 := by
    rcases mul_eq_zero.mp he2.2.symm with h | h
    · exact absurd h (ne_of_gt hc2)
    · exact h
  have hu2x : uOut.1 = 1 := by
    rw [hu2y] at hn2
    have h2 : uOut.1 ^ 2 = 1 := by nlinarith [hn2]
    have : (uOut.1 - 1) * (uOut.1 + 1) = 0 := by nlinarith [h2]
    rcases mul_eq_zero.mp this with h | h
    · linarith
    · exfalso
      have hx : uOut.1 = -1 := by linarith
      rw [hx] at he2
      nlinarith [he2.1, hc2]
  rw [hu1x, hu1y, hu2x, hu2y] at hoff
  rcases hoff with ⟨h01, h02⟩
  -- (0, 5/4) = (c * 1, c * 1) is impossible
  nlinarith [h01, h02]

/-- C4 amended: at every ring vertex, `create_wall_segment` computes the
wall offset from the *outgoing* edge alone — it is the half-width
perpendicular `(-dy/length·width/2, dx/length·width/2)` of the direction to
the next ring point, with the fixed fallback `(0, width/2)` when that edge's
length is below the epsilon `0.01`; the incoming edge is never used (the
offset is unchanged under any modification of the other ring points or
length values). -/
theorem C4_wall_perp_outgoing (points : List Vec3) (height width : ℚ)
    (lenO : ℕ → ℚ) (i : ℕ) (h3 : 3 ≤ points.length)
    (hi : i < points.length) :
    (lenO i < 1 / 100 →
      wall_inner_offset points height width lenO i = (0, width / 2)) ∧
    (¬ lenO i < 1 / 100 →
      wall_inner_offset points height width lenO i =
        (-(ring_next_dir points i).2 / lenO i * (width / 2),
         (ring_next_dir points i).1 / lenO i * (width / 2))) ∧
    (∀ (points' : List Vec3) (lenO' : ℕ → ℚ),
      points'.length = points.length →
      points'.getD i ((0 : ℚ), (0 : ℚ), (0 : ℚ)) =
        points.getD i ((0 : ℚ), (0 : ℚ), (0 : ℚ)) →
      points'.getD ((i + 1) % points.length) ((0 : ℚ), (0 : ℚ), (0 : ℚ)) =
        points.getD ((i + 1) % points.length) ((0 : ℚ), (0 : ℚ), (0 : ℚ)) →
      lenO' i = lenO i →
      wall_inner_offset points' height width lenO' i =
        wall_inner_offset points height width lenO i) := by
  refine ⟨?_, ?_, ?_⟩
  · intro hc
    rw [wall_inner_offset_eq_pq points height width lenO i h3 hi]
    unfold wall_pq
    rw [if_pos hc]
  · intro hc
    rw [wall_inner_offset_eq_pq points height width lenO i h3 hi]
    unfold wall_pq
    rw [if_neg hc]
  · intro points' lenO' hlen hp hq hl
    rw [wall_inner_offset_eq_pq points height width lenO i h3 hi,
      wall_inner_offset_eq_pq points' height width lenO' i (by omega) (by omega)]
    unfold wall_pq ring_next_dir
    rw [hlen, hp, hq, hl]

theorem C4_wall_perp_outgoing_witness :
    wall_inner_offset wall_demo_ring BOUNDARY_HEIGHT_MM BOUNDARY_WIDTH_MM
        wall_demo_len 0 =
      (-(ring_next_dir wall_demo_ring 0).2 / wall_demo_len 0 *
        (BOUNDARY_WIDTH_MM / 2),
       (ring_next_dir wall_demo_ring 0).1 / wall_demo_len 0 *
        (BOUNDARY_WIDTH_MM / 2)) :=
  (C4_wall_perp_outgoing wall_demo_ring BOUNDARY_HEIGHT_MM BOUNDARY_WIDTH_MM
    wall_demo_len 0 (by decide) (by decide)).2.1 (by norm_num [wall_demo_len])

theorem C7_degenerate_grid_no_error_witness :
    (([[(0 : ℚ), 0]] : List (List ℚ)).length < 2 ∨
      rowLen ([[(0 : ℚ), 0]] : List (List ℚ)) 0 < 2) ∧
    (create_terrain_mesh [[0, 0]] [[0, 0]] [[0, 0]]).2.length =
      4 * ((1 - 1) + (2 - 1)) ∧
    create_flat_bottom_mesh [[0, 0]] [[0, 0]] [[0, 0]] 2 = none := by
  have h := C7_degenerate_grid_no_error [[0, 0]] [[0, 0]] [[0, 0]] 2
    (Or.inl (by decide))
  exact ⟨Or.inl (by decide), h.1, h.2.1 (Or.inr (by decide))⟩

/-! ## Marker & Text Mesher (`create_capitals_mesh`, src/core/generate.py 589-674)

The geometric payloads (hemisphere bumps built from `cos`/`sin` rings, the
extruded boxes of the seven-segment digits) are transcendental resp. need
square roots, so the sub-meshes appended to `all_verts`/`all_faces` are
recorded as tagged parts carrying their construction parameters, in exact
append order.  The shapely collision test `check_number_collision(x, y,
digit_str, gdf, all_land)` is threaded through as an oracle
`collide : ℕ → ℚ → ℚ → Bool` (candidate number, candidate position); every
theorem holds for every oracle. -/

/-- The python `min_lon <= lon <= max_lon and min_lat <= lat <= max_lat`
bounds check of `create_capitals_mesh` (src/core/generate.py line 609). -/
def within_map_bounds (lon lat : ℚ) : Prop :=
  MAP_BOUNDS.1 ≤ lon ∧ lon ≤ MAP_BOUNDS.2.2.1 ∧
    MAP_BOUNDS.2.1 ≤ lat ∧ lat ≤ MAP_BOUNDS.2.2.2

instance (lon lat : ℚ) : Decidable (within_map_bounds lon lat) := by
  unfold within_map_bounds
  infer_instance

/-- `len(str(n))`: number of decimal digits. -/
def digit_count (n : ℕ) : ℕ := (Nat.toDigits 10 n).length

/-- Horizontal candidate offset of `find_number_position`
(src/core/generate.py lines 432-433): `CAPITAL_DIAMETER_MM/2 +
total_width/2 + 1.5` with `total_width = len(digit_str)·(2.5+0.5) - 0.5`. -/
def number_offset (nDigits : ℕ) : ℚ :=
  CAPITAL_DIAMETER_MM / 2 + ((nDigits : ℚ) * (5/2 + 1/2) - 1/2) / 2 + 3/2

/-- Vertical candidate offset (line 434): `digit_height/2 +
CAPITAL_DIAMETER_MM/2 + 1.0` with the default `digit_height = 4`. -/
def number_v_offset : ℚ := (4 : ℚ) / 2 + CAPITAL_DIAMETER_MM / 2 + 1

/-- The candidate label positions in source order: right, top, bottom, left
(src/core/generate.py lines 437-442). -/
def number_candidates (x y : ℚ) (nDigits : ℕ) : List (ℚ × ℚ) :=
  [(x + number_offset nDigits, y),
   (x, y + number_v_offset),
   (x, y - number_v_offset),
   (x - number_offset nDigits, y)]

/-- `find_number_position(capital_x, capital_y, digit_str, gdf, all_land)`
(src/core/generate.py lines 427-448): the first non-colliding candidate, or
`None` when all four collide. -/
def find_number_position (collide : ℚ → ℚ → Bool) (x y : ℚ) (nDigits : ℕ) :
    Option (ℚ × ℚ) :=
  (number_candidates x y nDigits).find? (fun p => ! collide p.1 p.2)

/-- `DIGIT_SEGMENTS` (src/core/generate.py lines 363-374): which of the
seven segments are on for each digit character. -/
def DIGIT_SEGMENTS (c : Char) : Option (List Bool) :=
  if c = '0' then some [true, true, true, true, true, true, false]
  else if c = '1' then some [false, true, true, false, false, false, false]
  else if c = '2' then some [true, true, false, true, true, false, true]
  else if c = '3' then some [true, true, true, true, false, false, true]
  else if c = '4' then some [false, true, true, false, false, true, true]
  else if c = '5' then some [true, false, true, true, false, true, true]
  else if c = '6' then some [true, false, true, true, true, true, true]
  else if c = '7' then some [true, true, true, false, false, false, false]
  else if c = '8' then some [true, true, true, true, true, true, true]
  else if c = '9' then some [true, true, true, true, false, true, true]
  else none

/-- `seg_coords` (src/core/generate.py lines 472-480): segment endpoints
relative to the digit origin, `h = digit_height/2`, `w = digit_width`. -/
def seg_coords (digit_height digit_width : ℚ) : List (ℚ × ℚ × ℚ × ℚ) :=
  [(0, digit_height / 2, digit_width, digit_height / 2),
   (digit_width, digit_height / 2, digit_width, 0),
   (digit_width, 0, digit_width, -(digit_height / 2)),
   (0, -(digit_height / 2), digit_width, -(digit_height / 2)),
   (0, -(digit_height / 2), 0, 0),
   (0, 0, 0, digit_height / 2),
   (0, 0, digit_width, 0)]

/-- The segment boxes kept by `create_digit_mesh` (src/core/generate.py
lines 451-500): one absolute-coordinate box `(x1, y1, x2, y2)` per active
segment of each digit found in `DIGIT_SEGMENTS`, dropping boxes that
`create_segment_box` would return empty — it bails out when
`sqrt(dx²+dy²) < 0.01`, equivalently `dx² + dy² < 0.0001` (the box heights
`base_z`/`thickness`/`line_width` are geometric payload not needed by any
claim and are omitted from the record). -/
def create_digit_mesh_boxes (digit_str : List Char) (x_mm y_mm : ℚ)
    (digit_height digit_width spacing : ℚ) : List (ℚ × ℚ × ℚ × ℚ) :=
  let total_width := (digit_str.length : ℚ) * (digit_width + spacing) - spacing
  let start_x := x_mm - total_width / 2
  digit_str.enum.flatMap fun p =>
    match DIGIT_SEGMENTS p.2 with
    | none => []
    | some segments =>
      let dx := start_x + (p.1 : ℚ) * (digit_width + spacing)
      ((seg_coords digit_height digit_width).zip segments).filterMap
        fun sc_on =>
          if sc_on.2 = true then
            if (sc_on.1.2.2.1 - sc_on.1.1) ^ 2 +
                (sc_on.1.2.2.2 - sc_on.1.2.1) ^ 2 < 1 / 10000 then none
            else some (dx + sc_on.1.1, y_mm + sc_on.1.2.1,
                       dx + sc_on.1.2.2.1, y_mm + sc_on.1.2.2.2)
          else none

/-- The nearest-grid-point elevation sample of `create_capitals_mesh`
(src/core/generate.py lines 616-618 and 647-649). -/
def capital_base_z (X Y Z : List (List ℚ)) (x_mm y_mm : ℚ) : ℚ :=
  gridAt Z (argminAbs (Y.map fun row => row.getD 0 0) y_mm)
    (argminAbs (X.getD 0 []) x_mm)

/-- One sub-mesh appended to `all_verts`/`all_faces` by
`create_capitals_mesh`: a hemisphere bump or a seven-segment number, with
its placement parameters. -/
inductive CapPart where
  | bump (x y base_z : ℚ)
  | digits (n : ℕ) (x y base_z : ℚ)
deriving DecidableEq

/-- The loop state of `create_capitals_mesh`: appended sub-meshes,
`bump_count`, `current_number`, `skipped_names`, `number_legend`. -/
structure CapState where
  parts : List CapPart
  bump_count : ℕ
  current_number : ℕ
  skipped_names : List String
  number_legend : List (ℕ × String)
deriving DecidableEq

/-- The body of the capitals loop (src/core/generate.py lines 607-659) for
one marker `(name, lon, lat, area)`:
out-of-bounds markers are skipped entirely (`continue` before any output);
otherwise the bump is appended and, for `area ≥ MIN_AREA_FOR_NUMBER`, the
label is placed with `find_number_position` using the *candidate* number
`current_number + 1` — on failure the marker is recorded in
`skipped_names` and the counter is left unchanged, on success the counter
is advanced, the legend extended, and the digit mesh appended (when
non-empty, which `create_digit_mesh` decides via its segment boxes). -/
def capitals_step (collide : ℕ → ℚ → ℚ → Bool) (X Y Z : List (List ℚ))
    (s : CapState) (cap : String × ℚ × ℚ × ℚ) : CapState :=
  if within_map_bounds cap.2.1 cap.2.2.1 then
    let m := deg_to_mm cap.2.1 cap.2.2.1
    let base_z := capital_base_z X Y Z m.1 m.2
    let s1 : CapState :=
      { s with parts := s.parts ++ [CapPart.bump m.1 m.2 base_z],
               bump_count := s.bump_count + 1 }
    if MIN_AREA_FOR_NUMBER ≤ cap.2.2.2 then
      match find_number_position (collide (s.current_number + 1)) m.1 m.2
          (digit_count (s.current_number + 1)) with
      | none => { s1 with skipped_names := s1.skipped_names ++ [cap.1] }
      | some pos =>
          let num := s.current_number + 1
          let boxes := create_digit_mesh_boxes (Nat.toDigits 10 num)
            pos.1 pos.2 4 (5/2) (3/2)
          { s1 with
              current_number := num,
              number_legend := s1.number_legend ++ [(num, cap.1)],
              parts := if 0 < boxes.length then
                  s1.parts ++ [CapPart.digits num pos.1 pos.2
                    (capital_base_z X Y Z pos.1 pos.2)]
                else s1.parts }
    else s1
  else s

/-- `create_capitals_mesh(X, Y, Z, gdf)` (src/core/generate.py lines
589-674) at the emission level: fold the loop body over the marker list
starting from the empty state. -/
def create_capitals_mesh (collide : ℕ → ℚ → ℚ → Bool) (X Y Z : List (List ℚ))
    (capitals : List (String × ℚ × ℚ × ℚ)) : CapState :=
  capitals.foldl (capitals_step collide X Y Z) ⟨[], 0, 0, [], []⟩

theorem capitals_step_legend_cases (collide : ℕ → ℚ → ℚ → Bool)
    (X Y Z : List (List ℚ)) (s : CapState) (cap : String × ℚ × ℚ × ℚ) :
    ((capitals_step collide X Y Z s cap).number_legend = s.number_legend ∧
     (capitals_step collide X Y Z s cap).current_number = s.current_number) ∨
    ((capitals_step collide X Y Z s cap).number_legend =
        s.number_legend ++ [(s.current_number + 1, cap.1)] ∧
     (capitals_step collide X Y Z s cap).current_number =
        s.current_number + 1) := by
  unfold capitals_step
  by_cases hb : within_map_bounds cap.2.1 cap.2.2.1
  · rw [if_pos hb]
    by_cases ha : MIN_AREA_FOR_NUMBER ≤ cap.2.2.2
    · rw [if_pos ha]
      rcases hf : find_number_position (collide (s.current_number + 1))
          (deg_to_mm cap.2.1 cap.2.2.1).1 (deg_to_mm cap.2.1 cap.2.2.1).2
          (digit_count (s.current_number + 1)) with _ | pos
      · left
        constructor <;> rfl
      · right
        constructor <;> rfl
    · rw [if_neg ha]
      left
      constructor <;> rfl
  · rw [if_neg hb]
    left
    constructor <;> rfl

theorem legend_dense_invariant (collide : ℕ → ℚ → ℚ → Bool)
    (X Y Z : List (List ℚ)) (caps : List (String × ℚ × ℚ × ℚ))
    (s : CapState)
    (h1 : s.number_legend.map Prod.fst = List.range' 1 s.number_legend.length)
    (h2 : s.current_number = s.number_legend.length) :
    (caps.foldl (capitals_step collide X Y Z) s).number_legend.map Prod.fst =
      List.range' 1
        (caps.foldl (capitals_step collide X Y Z) s).number_legend.length ∧
    (caps.foldl (capitals_step collide X Y Z) s).current_number =
      (caps.foldl (capitals_step collide X Y Z) s).number_legend.length := by
  induction caps generalizing s with
  | nil => exact ⟨h1, h2⟩
  | cons cap caps ih =>
    simp only [List.foldl_cons]
    rcases capitals_step_legend_cases collide X Y Z s cap with ⟨hl, hc⟩ | ⟨hl, hc⟩
    · exact ih _ (by rw [hl]; exact h1) (by rw [hl, hc]; exact h2)
    · refine ih _ ?_ ?_
      · rw [hl, List.map_append, List.length_append, h1, h2]
        simp [List.range'_concat, Nat.add_comm]
      · rw [hl, hc, List.length_append, h2]
        simp

/-- C6: (a) `find_number_position` tries right, top, bottom, left in that
fixed order and returns the first non-colliding candidate, `None` when all
four collide; (b) when all four candidates collide for a marker above the
importance threshold, the step appends the marker's bump, adds its name to
the skip report, emits no digit geometry, and leaves the sequence counter
and the legend untouched; (c) the legend numbers produced by the whole loop
are dense: they are exactly `1, 2, …, k` in input order of the placed
markers. -/
theorem C6_label_placement :
    (∀ (collide : ℚ → ℚ → Bool) (x y : ℚ) (nd : ℕ),
      (collide (x + number_offset nd) y = false →
        find_number_position collide x y nd = some (x + number_offset nd, y)) ∧
      (collide (x + number_offset nd) y = true →
       collide x (y + number_v_offset) = false →
        find_number_position collide x y nd = some (x, y + number_v_offset)) ∧
      (collide (x + number_offset nd) y = true →
       collide x (y + number_v_offset) = true →
       collide x (y - number_v_offset) = false →
        find_number_position collide x y nd = some (x, y - number_v_offset)) ∧
      (collide (x + number_offset nd) y = true →
       collide x (y + number_v_offset) = true →
       collide x (y - number_v_offset) = true →
       collide (x - number_offset nd) y = false →
        find_number_position collide x y nd = some (x - number_offset nd, y)) ∧
      (collide (x + number_offset nd) y = true →
       collide x (y + number_v_offset) = true →
       collide x (y - number_v_offset) = true →
       collide (x - number_offset nd) y = true →
        find_number_position collide x y nd = none)) ∧
    (∀ (collide : ℕ → ℚ → ℚ → Bool) (X Y Z : List (List ℚ)) (s : CapState)
       (name : String) (lon lat area : ℚ),
      within_map_bounds lon lat →
      MIN_AREA_FOR_NUMBER ≤ area →
      find_number_position (collide (s.current_number + 1))
        (deg_to_mm lon lat).1 (deg_to_mm lon lat).2
        (digit_count (s.current_number + 1)) = none →
      capitals_step collide X Y Z s (name, lon, lat, area) =
        { s with
            parts := s.parts ++ [CapPart.bump (deg_to_mm lon lat).1
              (deg_to_mm lon lat).2
              (capital_base_z X Y Z (deg_to_mm lon lat).1
                (deg_to_mm lon lat).2)],
            bump_count := s.bump_count + 1,
            skipped_names := s.skipped_names ++ [name] }) ∧
    (∀ (collide : ℕ → ℚ → ℚ → Bool) (X Y Z : List (List ℚ))
       (capitals : List (String × ℚ × ℚ × ℚ)),
      (create_capitals_mesh collide X Y Z capitals).number_legend.map
          Prod.fst =
        List.range' 1
          (create_capitals_mesh collide X Y Z capitals).number_legend.length) := by
  refine ⟨?_, ?_, ?_⟩
  · intro collide x y nd
    refine ⟨?_, ?_, ?_, ?_, ?_⟩ <;> intros <;>
      simp_all [find_number_position, number_candidates]
  · intro collide X Y Z s name lon lat area hb ha hf
    unfold capitals_step
    rw [if_pos hb]
    simp only
    rw [if_pos ha, hf]
  · intro collide X Y Z capitals
    exact (legend_dense_invariant collide X Y Z capitals ⟨[], 0, 0, [], []⟩
      rfl rfl).1

theorem C6_label_placement_witness :
    find_number_position (fun _ _ => true) 0 0 1 = none ∧
    capitals_step (fun _ _ _ => true) [[0]] [[0]] [[0]] ⟨[], 0, 0, [], []⟩
        ("a", 30, 30, 2) =
      { parts := [] ++ [CapPart.bump (deg_to_mm 30 30).1 (deg_to_mm 30 30).2
          (capital_base_z [[0]] [[0]] [[0]] (deg_to_mm 30 30).1
            (deg_to_mm 30 30).2)],
        bump_count := 0 + 1, current_number := 0,
        skipped_names := [] ++ ["a"], number_legend := [] } ∧
    (create_capitals_mesh (fun _ _ _ => true) [[0]] [[0]] [[0]]
        [("a", 30, 30, 2), ("b", 31, 31, 2)]).number_legend.map Prod.fst =
      List.range' 1 (create_capitals_mesh (fun _ _ _ => true) [[0]] [[0]]
        [[0]] [("a", 30, 30, 2), ("b", 31, 31, 2)]).number_legend.length :=
  ⟨(C6_label_placement.1 (fun _ _ => true) 0 0 1).2.2.2.2 rfl rfl rfl rfl,
   C6_label_placement.2.1 (fun _ _ _ => true) [[0]] [[0]] [[0]]
     ⟨[], 0, 0, [], []⟩ "a" 30 30 2 (by decide) (by decide) rfl,
   C6_label_placement.2.2 (fun _ _ _ => true) [[0]] [[0]] [[0]]
     [("a", 30, 30, 2), ("b", 31, 31, 2)]⟩

/-- C10: a marker whose longitude/latitude lies outside `MAP_BOUNDS` is
silently omitted: its loop step is the identity on the whole state (no bump,
no digits, no sequence number, no skip-report entry), and the loop output on
any marker list containing it equals the output on the list without it. -/
theorem C10_out_of_bounds_marker (collide : ℕ → ℚ → ℚ → Bool)
    (X Y Z : List (List ℚ)) (name : String) (lon lat area : ℚ)
    (h : ¬ within_map_bounds lon lat) :
    (∀ s : CapState,
      capitals_step collide X Y Z s (name, lon, lat, area) = s) ∧
    (∀ pre post : List (String × ℚ × ℚ × ℚ),
      create_capitals_mesh collide X Y Z (pre ++ (name, lon, lat, area) :: post)
        = create_capitals_mesh collide X Y Z (pre ++ post)) := by
  have hstep : ∀ s : CapState,
      capitals_step collide X Y Z s (name, lon, lat, area) = s := by
    intro s
    unfold capitals_step
    rw [if_neg h]
  refine ⟨hstep, ?_⟩
  intro pre post
  unfold create_capitals_mesh
  rw [List.foldl_append, List.foldl_append, List.foldl_cons, hstep]

theorem C10_out_of_bounds_marker_witness :
    capitals_step (fun _ _ _ => true) [[0]] [[0]] [[0]] ⟨[], 0, 0, [], []⟩
        ("x", 100, 30, 2) = ⟨[], 0, 0, [], []⟩ ∧
    create_capitals_mesh (fun _ _ _ => true) [[0]] [[0]] [[0]]
        ([("a", 30, 30, 2)] ++ ("x", 100, 30, 2) :: []) =
      create_capitals_mesh (fun _ _ _ => true) [[0]] [[0]] [[0]]
        ([("a", 30, 30, 2)] ++ []) :=
  ⟨(C10_out_of_bounds_marker (fun _ _ _ => true) [[0]] [[0]] [[0]]
      "x" 100 30 2 (by decide)).1 ⟨[], 0, 0, [], []⟩,
   (C10_out_of_bounds_marker (fun _ _ _ => true) [[0]] [[0]] [[0]]
      "x" 100 30 2 (by decide)).2 [("a", 30, 30, 2)] []⟩

/-! ## Card Splitter (`split_mesh_to_cards`, src/core/generate.py 1401-1500)

The embedding covers the triangle-selection stage: which input triangles each
card keeps (`card_kept_faces`).  The later stages — remapping kept vertices
to dense local indices, translating to card-local origin, and
`add_connectors_to_card` appending tab/slot/wall joinery — operate on the
kept set and inject only new geometry, which claim C2 explicitly ignores. -/

/-- Slot edge directions accepted by `get_slot_bounds`
(src/core/generate.py lines 1042-1060). -/
inductive SlotDir where
  | left
  | bottom
  | right
  | top
deriving DecidableEq

/-- `get_slot_bounds(x, y, direction)` (src/core/generate.py lines
1042-1060): the `(x_min, x_max, y_min, y_max)` card-local rectangle of a
slot, enlarged by the clearance. -/
def get_slot_bounds (x y : ℚ) (dir : SlotDir) : ℚ × ℚ × ℚ × ℚ :=
  match dir with
  | .left => (0, TAB_DEPTH_MM + SLOT_CLEARANCE_MM,
      y - (TAB_WIDTH_MM + SLOT_CLEARANCE_MM) / 2,
      y + (TAB_WIDTH_MM + SLOT_CLEARANCE_MM) / 2)
  | .bottom => (x - (TAB_WIDTH_MM + SLOT_CLEARANCE_MM) / 2,
      x + (TAB_WIDTH_MM + SLOT_CLEARANCE_MM) / 2,
      0, TAB_DEPTH_MM + SLOT_CLEARANCE_MM)
  | .right => (200 - (TAB_DEPTH_MM + SLOT_CLEARANCE_MM), 200,
      y - (TAB_WIDTH_MM + SLOT_CLEARANCE_MM) / 2,
      y + (TAB_WIDTH_MM + SLOT_CLEARANCE_MM) / 2)
  | .top => (x - (TAB_WIDTH_MM + SLOT_CLEARANCE_MM) / 2,
      x + (TAB_WIDTH_MM + SLOT_CLEARANCE_MM) / 2,
      160 - (TAB_DEPTH_MM + SLOT_CLEARANCE_MM), 160)

/-- `get_slot_regions_for_card(card_idx, card_width, card_height)`
(src/core/generate.py lines 1063-1085): card 1 has a slot on its left edge,
card 2 on its bottom edge, card 3 on both; card 0 has none. -/
def get_slot_regions_for_card (card_idx : ℕ) (card_width card_height : ℚ) :
    List (ℚ × ℚ × ℚ × ℚ) :=
  if card_idx = 1 then [get_slot_bounds 0 (card_height / 2) .left]
  else if card_idx = 2 then [get_slot_bounds (card_width / 2) 0 .bottom]
  else if card_idx = 3 then
    [get_slot_bounds 0 (card_height / 2) .left,
     get_slot_bounds (card_width / 2) 0 .bottom]
  else []

/-- `point_in_slot(x, y, z, slots)` (src/core/generate.py lines 1183-1203):
inside some slot rectangle and at or below the slot's top height band. -/
def point_in_slot (p : Vec3) (slots : List (ℚ × ℚ × ℚ × ℚ)) : Bool :=
  if -BASE_THICKNESS_MM + TAB_HEIGHT_MM < p.2.2 then false
  else slots.any fun s =>
    decide (s.1 ≤ p.1 ∧ p.1 ≤ s.2.1 ∧ s.2.2.1 ≤ p.2.1 ∧ p.2.1 ≤ s.2.2.2)

/-- The four card regions `(x_min, y_min, x_max, y_max)` of
`split_mesh_to_cards` (src/core/generate.py lines 1414-1419). -/
def card_bounds : List (ℚ × ℚ × ℚ × ℚ) :=
  [(0, 0, CARD_WIDTH_MM, CARD_HEIGHT_MM),
   (CARD_WIDTH_MM, 0, CARD_WIDTH_MM * 2, CARD_HEIGHT_MM),
   (0, CARD_HEIGHT_MM, CARD_WIDTH_MM, CARD_HEIGHT_MM * 2),
   (CARD_WIDTH_MM, CARD_HEIGHT_MM, CARD_WIDTH_MM * 2, CARD_HEIGHT_MM * 2)]

/-- The per-vertex bounds test of `split_mesh_to_cards` (lines 1435-1437):
inside the card rectangle within the tolerance `tol = 0.1`. -/
def vertex_in_card (b : ℚ × ℚ × ℚ × ℚ) (v : Vec3) : Prop :=
  b.1 - 1/10 ≤ v.1 ∧ v.1 ≤ b.2.2.1 + 1/10 ∧
    b.2.1 - 1/10 ≤ v.2.1 ∧ v.2.1 ≤ b.2.2.2 + 1/10

instance (b : ℚ × ℚ × ℚ × ℚ) (v : Vec3) : Decidable (vertex_in_card b v) := by
  unfold vertex_in_card
  infer_instance

/-- Vertex lookup `vertices[face[k]]` (index out of range yields the origin;
`split_mesh_to_cards` assumes a valid mesh where all indices are in range). -/
def face_vertex (vertices : List Vec3) (idx : ℕ) : Vec3 :=
  vertices.getD idx ((0 : ℚ), (0 : ℚ), (0 : ℚ))

/-- Translation to card-local coordinates (lines 1443-1445). -/
def card_local (card_idx : ℕ) (v : Vec3) : Vec3 :=
  (v.1 - (card_bounds.getD card_idx (0, 0, 0, 0)).1,
   v.2.1 - (card_bounds.getD card_idx (0, 0, 0, 0)).2.1,
   v.2.2)

/-- The per-face keep test of `split_mesh_to_cards` (lines 1431-1468): all
three vertices inside the card's tolerance-expanded rectangle, and — when
the card has slots and the face is not a bottom face (all `z` within 0.1 of
`-BASE_THICKNESS_MM`) — no vertex inside a slot region (in card-local
coordinates). -/
def keep_face (vertices : List Vec3) (card_idx : ℕ) (face : Face) : Bool :=
  let b := card_bounds.getD card_idx (0, 0, 0, 0)
  let v0 := face_vertex vertices face.1
  let v1 := face_vertex vertices face.2.1
  let v2 := face_vertex vertices face.2.2
  if decide (vertex_in_card b v0) && decide (vertex_in_card b v1) &&
      decide (vertex_in_card b v2) then
    let slots := get_slot_regions_for_card card_idx CARD_WIDTH_MM CARD_HEIGHT_MM
    if slots.isEmpty then true
    else if decide (|v0.2.2 - -BASE_THICKNESS_MM| < 1/10) &&
        decide (|v1.2.2 - -BASE_THICKNESS_MM| < 1/10) &&
        decide (|v2.2.2 - -BASE_THICKNESS_MM| < 1/10) then true
    else
      ! (point_in_slot (card_local card_idx v0) slots ||
         point_in_slot (card_local card_idx v1) slots ||
         point_in_slot (card_local card_idx v2) slots)
  else false

/-- The set of input triangles card `card_idx` keeps, in input order
(`card_faces_list` of src/core/generate.py lines 1430-1468, before vertex
remapping and joinery injection). -/
def card_kept_faces (vertices : List Vec3) (faces : List Face)
    (card_idx : ℕ) : List Face :=
  faces.filter (keep_face vertices card_idx)

/-- A triangle straddling the cut `x = 200` between card 0 and card 1:
vertex 0 only fits card 0, vertex 1 only fits card 1. -/
def splitter_demo_verts : List Vec3 :=
  [((100 : ℚ), (50 : ℚ), (0 : ℚ)), (300, 50, 0), (200, 100, 0)]

/-- C2 counterexample: the input triangle spanning two card regions is kept
by none of the four cards, so the union of per-card triangles (joinery
ignored) misses it — the splitter is not an exact partition of the input
triangle set. -/
theorem C2_counterexample :
    card_kept_faces splitter_demo_verts [((0, 1, 2) : Face)] 0 = [] ∧
    card_kept_faces splitter_demo_verts [((0, 1, 2) : Face)] 1 = [] ∧
    card_kept_faces splitter_demo_verts [((0, 1, 2) : Face)] 2 = [] ∧
    card_kept_faces splitter_demo_verts [((0, 1, 2) : Face)] 3 = [] ∧
    ((0, 1, 2) : Face) ∈ [((0, 1, 2) : Face)] := by
  refine ⟨?_, ?_, ?_, ?_, by simp⟩ <;>
    norm_num [card_kept_faces, keep_face, card_bounds, vertex_in_card,
      splitter_demo_verts, face_vertex, List.getD, CARD_WIDTH_MM,
      CARD_HEIGHT_MM, List.filter]

/-- The strict interior of a card region: inside the rectangle by more than
the 0.1 tolerance in both coordinates (such vertices fit no other card's
tolerance-expanded rectangle). -/
def vertex_in_card_core (b : ℚ × ℚ × ℚ × ℚ) (v : Vec3) : Prop :=
  b.1 + 1/10 < v.1 ∧ v.1 < b.2.2.1 - 1/10 ∧
    b.2.1 + 1/10 < v.2.1 ∧ v.2.1 < b.2.2.2 - 1/10

theorem vertex_in_card_of_core (b : ℚ × ℚ × ℚ × ℚ) (v : Vec3)
    (h : vertex_in_card_core b v) : vertex_in_card b v := by
  obtain ⟨h1, h2, h3, h4⟩ := h
  exact ⟨by linarith, by linarith, by linarith, by linarith⟩

/-- C2 amended, part "kept faces lie in their card": every triangle a card
keeps is an input triangle whose three vertices lie within the card's
tolerance-expanded bounds. -/
theorem card_kept_faces_sound (vertices : List Vec3) (faces : List Face)
    (c : ℕ) (face : Face) (hmem : face ∈ card_kept_faces vertices faces c) :
    face ∈ faces ∧
    vertex_in_card (card_bounds.getD c (0, 0, 0, 0))
      (face_vertex vertices face.1) ∧
    vertex_in_card (card_bounds.getD c (0, 0, 0, 0))
      (face_vertex vertices face.2.1) ∧
    vertex_in_card (card_bounds.getD c (0, 0, 0, 0))
      (face_vertex vertices face.2.2) := by
  obtain ⟨hf, hkeep⟩ := List.mem_filter.mp hmem
  refine ⟨hf, ?_⟩
  simp only [keep_face] at hkeep
  by_cases hcond : (decide (vertex_in_card (card_bounds.getD c (0, 0, 0, 0))
        (face_vertex vertices face.1)) &&
      decide (vertex_in_card (card_bounds.getD c (0, 0, 0, 0))
        (face_vertex vertices face.2.1)) &&
      decide (vertex_in_card (card_bounds.getD c (0, 0, 0, 0))
        (face_vertex vertices face.2.2))) = true
  · simp only [Bool.and_eq_true, decide_eq_true_eq] at hcond
    exact ⟨hcond.1.1, hcond.1.2, hcond.2⟩
  · rw [if_neg hcond] at hkeep
    exact absurd hkeep (by simp)

theorem core_excludes_other (c c' : ℕ) (hc : c < 4) (hc' : c' < 4)
    (hne : c' ≠ c) (v : Vec3)
    (h : vertex_in_card_core (card_bounds.getD c (0, 0, 0, 0)) v) :
    ¬ vertex_in_card (card_bounds.getD c' (0, 0, 0, 0)) v := by
  intro hcon
  obtain ⟨h1, h2, h3, h4⟩ := h
  obtain ⟨k1, k2, k3, k4⟩ := hcon
  interval_cases c <;> interval_cases c' <;>
    first
      | exact hne rfl
      | (norm_num [card_bounds, CARD_WIDTH_MM, CARD_HEIGHT_MM,
          List.getD_cons_zero, List.getD_cons_succ] at h1 h2 h3 h4 k1 k2 k3 k4
         linarith)

theorem keep_face_true_of_core (vertices : List Vec3) (c : ℕ) (face : Face)
    (h0 : vertex_in_card_core (card_bounds.getD c (0, 0, 0, 0))
      (face_vertex vertices face.1))
    (h1 : vertex_in_card_core (card_bounds.getD c (0, 0, 0, 0))
      (face_vertex vertices face.2.1))
    (h2 : vertex_in_card_core (card_bounds.getD c (0, 0, 0, 0))
      (face_vertex vertices face.2.2))
    (hs0 : point_in_slot (card_local c (face_vertex vertices face.1))
      (get_slot_regions_for_card c CARD_WIDTH_MM CARD_HEIGHT_MM) = false)
    (hs1 : point_in_slot (card_local c (face_vertex vertices face.2.1))
      (get_slot_regions_for_card c CARD_WIDTH_MM CARD_HEIGHT_MM) = false)
    (hs2 : point_in_slot (card_local c (face_vertex vertices face.2.2))
      (get_slot_regions_for_card c CARD_WIDTH_MM CARD_HEIGHT_MM) = false) :
    keep_face vertices c face = true := by
  simp only [keep_face]
  rw [if_pos (by
    simp only [Bool.and_eq_true, decide_eq_true_eq]
    exact ⟨⟨vertex_in_card_of_core _ _ h0, vertex_in_card_of_core _ _ h1⟩,
      vertex_in_card_of_core _ _ h2⟩)]
  by_cases hemp :
      (get_slot_regions_for_card c CARD_WIDTH_MM CARD_HEIGHT_MM).isEmpty
  · rw [if_pos hemp]
  · rw [if_neg hemp]
    by_cases hbot : (decide (|(face_vertex vertices face.1).2.2 -
          -BASE_THICKNESS_MM| < 1/10) &&
        decide (|(face_vertex vertices face.2.1).2.2 -
          -BASE_THICKNESS_MM| < 1/10) &&
        decide (|(face_vertex vertices face.2.2).2.2 -
          -BASE_THICKNESS_MM| < 1/10)) = true
    · rw [if_pos hbot]
    · rw [if_neg hbot]
      rw [hs0, hs1, hs2]
      rfl

theorem keep_face_false_of_out (vertices : List Vec3) (c : ℕ) (face : Face)
    (hout : ¬ vertex_in_card (card_bounds.getD c (0, 0, 0, 0))
      (face_vertex vertices face.1)) :
    keep_face vertices c face = false := by
  have hd : decide (vertex_in_card (card_bounds.getD c (0, 0, 0, 0))
      (face_vertex vertices face.1)) = false := decide_eq_false hout
  simp only [keep_face, hd, Bool.false_and, Bool.false_eq_true, if_false]

/-- C2 amended: the Card Splitter is not an exact partition, but: (a) every
triangle a card keeps is an input triangle (the union of per-card triangle
sets, joinery ignored, is a subset of the input triangle set); and (b) every
input triangle whose three vertices lie strictly inside a single card's
region (by more than the 0.1 mm tolerance) and outside that card's slot
regions is kept by exactly that one card.  Triangles straddling a cut are
dropped (see the counterexample), and triangles within the ±0.1 tolerance
band of a cut can be kept by both adjacent cards. -/
theorem C2_split_partial_partition (vertices : List Vec3) (faces : List Face)
    (c : ℕ) (hc : c < 4) (face : Face) (hf : face ∈ faces)
    (h0 : vertex_in_card_core (card_bounds.getD c (0, 0, 0, 0))
      (face_vertex vertices face.1))
    (h1 : vertex_in_card_core (card_bounds.getD c (0, 0, 0, 0))
      (face_vertex vertices face.2.1))
    (h2 : vertex_in_card_core (card_bounds.getD c (0, 0, 0, 0))
      (face_vertex vertices face.2.2))
    (hs0 : point_in_slot (card_local c (face_vertex vertices face.1))
      (get_slot_regions_for_card c CARD_WIDTH_MM CARD_HEIGHT_MM) = false)
    (hs1 : point_in_slot (card_local c (face_vertex vertices face.2.1))
      (get_slot_regions_for_card c CARD_WIDTH_MM CARD_HEIGHT_MM) = false)
    (hs2 : point_in_slot (card_local c (face_vertex vertices face.2.2))
      (get_slot_regions_for_card c CARD_WIDTH_MM CARD_HEIGHT_MM) = false) :
    (∀ c', ∀ f' ∈ card_kept_faces vertices faces c', f' ∈ faces) ∧
    (∀ c', c' < 4 →
      (card_kept_faces vertices faces c').count face =
        if c' = c then faces.count face else 0) := by
  constructor
  · intro c' f' hm
    exact (List.mem_filter.mp hm).1
  · intro c' hc'
    by_cases he : c' = c
    · subst he
      rw [if_pos rfl]
      exact List.count_filter
        (keep_face_true_of_core vertices c' face h0 h1 h2 hs0 hs1 hs2)
    · rw [if_neg he]
      have hkf : keep_face vertices c' face = false :=
        keep_face_false_of_out vertices c' face
          (core_excludes_other c c' hc hc' he _ h0)
      refine List.count_eq_zero.mpr (fun hm => ?_)
      have h2' := (List.mem_filter.mp hm).2
      rw [hkf] at h2'
      exact absurd h2' (by simp)

theorem C2_split_partial_partition_witness :
    (card_kept_faces [((50 : ℚ), (50 : ℚ), (0 : ℚ)), (60, 50, 0), (50, 60, 0)]
        [((0, 1, 2) : Face)] 0).count ((0, 1, 2) : Face) =
      if 0 = 0 then ([((0, 1, 2) : Face)]).count ((0, 1, 2) : Face) else 0 :=
  (C2_split_partial_partition
    [((50 : ℚ), (50 : ℚ), (0 : ℚ)), (60, 50, 0), (50, 60, 0)]
    [((0, 1, 2) : Face)] 0 (by decide) ((0, 1, 2) : Face) (by simp)
    (by norm_num [vertex_in_card_core, card_bounds, CARD_WIDTH_MM,
      CARD_HEIGHT_MM, face_vertex, List.getD])
    (by norm_num [vertex_in_card_core, card_bounds, CARD_WIDTH_MM,
      CARD_HEIGHT_MM, face_vertex, List.getD])
    (by norm_num [vertex_in_card_core, card_bounds, CARD_WIDTH_MM,
      CARD_HEIGHT_MM, face_vertex, List.getD])
    (by simp [point_in_slot, get_slot_regions_for_card])
    (by simp [point_in_slot, get_slot_regions_for_card])
    (by simp [point_in_slot, get_slot_regions_for_card])).2 0 (by decide)

/-! ## C1: the terrain meshes are closed

Machinery: the number of occurrences of an undirected edge in the edge-slot
list of a face family is decomposed into indicator sums over the loop
ranges, which are then evaluated pointwise. -/

theorem count_flatMap_sum {α β : Type} [BEq β] (l : List α) (f : α → List β)
    (e : β) :
    ((l.flatMap f).count e) = (l.map fun a => (f a).count e).sum := by
  induction l with
  | nil => rfl
  | cons a l ih => simp [List.flatMap_cons, List.count_append, ih]

theorem sum_range_map_zero (n : ℕ) (g : ℕ → ℕ) (h : ∀ i, i < n → g i = 0) :
    ((List.range n).map g).sum = 0 := by
  induction n with
  | zero => rfl
  | succ n ih =>
    rw [List.range_succ, List.map_append, List.sum_append,
      ih (fun i hi => h i (by omega))]
    simp [h n (by omega)]

theorem sum_range_map_single (n : ℕ) (g : ℕ → ℕ) (i0 : ℕ) :
    i0 < n → (∀ i, i < n → i ≠ i0 → g i = 0) →
    ((List.range n).map g).sum = g i0 := by
  induction n with
  | zero => omega
  | succ n ih =>
    intro hi h0
    rw [List.range_succ, List.map_append, List.sum_append]
    by_cases hlast : i0 = n
    · subst hlast
      rw [sum_range_map_zero i0 g (fun i hilt => h0 i (by omega) (by omega))]
      simp
    · rw [ih (by omega) (fun i hilt hne => h0 i (by omega) hne),
        List.map_singleton, List.sum_singleton, h0 n (by omega) (by omega)]
      omega

/-- Number of `i < n` with `f i = e`. -/
def icount (n : ℕ) (f : ℕ → ℕ × ℕ) (e : ℕ × ℕ) : ℕ :=
  ((List.range n).map fun i => if f i = e then 1 else 0).sum

/-- Number of `(i, j)` with `i < n`, `j < m`, `f i j = e`. -/
def icount2 (n m : ℕ) (f : ℕ → ℕ → ℕ × ℕ) (e : ℕ × ℕ) : ℕ :=
  ((List.range n).map fun i => icount m (f i) e).sum

theorem icount_zero (n : ℕ) (f : ℕ → ℕ × ℕ) (e : ℕ × ℕ)
    (h : ∀ i, i < n → f i ≠ e) : icount n f e = 0 :=
  sum_range_map_zero n _ (fun i hi => by simp [h i hi])

theorem icount_one (n : ℕ) (f : ℕ → ℕ × ℕ) (e : ℕ × ℕ) (i0 : ℕ)
    (hi : i0 < n) (he : f i0 = e) (hu : ∀ i, i < n → f i = e → i = i0) :
    icount n f e = 1 := by
  unfold icount
  rw [sum_range_map_single n _ i0 hi (fun i hilt hne => by
    have hne' : f i ≠ e := fun hfe => hne (hu i hilt hfe)
    simp [hne'])]
  simp [he]

theorem icount2_zero (n m : ℕ) (f : ℕ → ℕ → ℕ × ℕ) (e : ℕ × ℕ)
    (h : ∀ i, i < n → ∀ j, j < m → f i j ≠ e) : icount2 n m f e = 0 :=
  sum_range_map_zero n _ (fun i hi => icount_zero m (f i) e (h i hi))

theorem icount2_one (n m : ℕ) (f : ℕ → ℕ → ℕ × ℕ) (e : ℕ × ℕ) (i0 j0 : ℕ)
    (hi : i0 < n) (hj : j0 < m) (he : f i0 j0 = e)
    (hu : ∀ i, i < n → ∀ j, j < m → f i j = e → i = i0 ∧ j = j0) :
    icount2 n m f e = 1 := by
  unfold icount2
  rw [sum_range_map_single n _ i0 hi (fun i hilt hne =>
    icount_zero m (f i) e (fun j hjlt hfe => hne (hu i hilt j hjlt hfe).1))]
  exact icount_one m (f i0) e j0 hj he
    (fun j hjlt hfe => (hu i0 hi j hjlt hfe).2)

theorem sum_map_add_distrib (l : List ℕ) (f g : ℕ → ℕ) :
    (l.map fun a => f a + g a).sum = (l.map f).sum + (l.map g).sum := by
  induction l with
  | nil => rfl
  | cons a l ih =>
    simp only [List.map_cons, List.sum_cons, ih]
    ring

theorem count6 (e a b c d f g : ℕ × ℕ) :
    List.count e [a, b, c, d, f, g] =
      (if a = e then 1 else 0) + (if b = e then 1 else 0) +
      (if c = e then 1 else 0) + (if d = e then 1 else 0) +
      (if f = e then 1 else 0) + (if g = e then 1 else 0) := by
  simp only [List.count_cons, List.count_nil, beq_iff_eq]
  split_ifs <;> omega

theorem ekey_of_lt {a b : ℕ} (h : a < b) : ekey a b = (a, b) := by
  unfold ekey
  rw [Nat.min_eq_left (Nat.le_of_lt h), Nat.max_eq_right (Nat.le_of_lt h)]

theorem ekey_of_gt {a b : ℕ} (h : b < a) : ekey a b = (b, a) := by
  unfold ekey
  rw [Nat.min_eq_right (Nat.le_of_lt h), Nat.max_eq_left (Nat.le_of_lt h)]

theorem count_family1 (n : ℕ) (F1 F2 : ℕ → Face)
    (E1 E2 E3 E4 E5 E6 : ℕ → ℕ × ℕ) (e : ℕ × ℕ)
    (h : ∀ j, j < n → faceEdges (F1 j) ++ faceEdges (F2 j) =
      [E1 j, E2 j, E3 j, E4 j, E5 j, E6 j]) :
    (edgeList ((List.range n).flatMap fun j => [F1 j, F2 j])).count e =
      icount n E1 e + icount n E2 e + icount n E3 e +
      icount n E4 e + icount n E5 e + icount n E6 e := by
  unfold edgeList
  rw [List.flatMap_assoc, count_flatMap_sum]
  have hcong : ∀ j ∈ List.range n,
      (([F1 j, F2 j].flatMap faceEdges).count e) =
        (if E1 j = e then 1 else 0) + (if E2 j = e then 1 else 0) +
        (if E3 j = e then 1 else 0) + (if E4 j = e then 1 else 0) +
        (if E5 j = e then 1 else 0) + (if E6 j = e then 1 else 0) := by
    intro j hj
    have hl : [F1 j, F2 j].flatMap faceEdges =
        [E1 j, E2 j, E3 j, E4 j, E5 j, E6 j] := by
      simp only [List.flatMap_cons, List.flatMap_nil, List.append_nil]
      exact h j (List.mem_range.mp hj)
    rw [hl, count6]
  rw [List.map_congr_left hcong, sum_map_add_distrib, sum_map_add_distrib,
    sum_map_add_distrib, sum_map_add_distrib, sum_map_add_distrib]
  rfl

theorem count_family2 (n m : ℕ) (F1 F2 : ℕ → ℕ → Face)
    (E1 E2 E3 E4 E5 E6 : ℕ → ℕ → ℕ × ℕ) (e : ℕ × ℕ)
    (h : ∀ i, i < n → ∀ j, j < m →
      faceEdges (F1 i j) ++ faceEdges (F2 i j) =
        [E1 i j, E2 i j, E3 i j, E4 i j, E5 i j, E6 i j]) :
    (edgeList ((List.range n).flatMap fun i =>
        (List.range m).flatMap fun j => [F1 i j, F2 i j])).count e =
      icount2 n m E1 e + icount2 n m E2 e + icount2 n m E3 e +
      icount2 n m E4 e + icount2 n m E5 e + icount2 n m E6 e := by
  unfold edgeList
  rw [List.flatMap_assoc, count_flatMap_sum]
  have hcong : ∀ i ∈ List.range n,
      ((((List.range m).flatMap fun j => [F1 i j, F2 i j]).flatMap
          faceEdges).count e) =
        icount m (E1 i) e + icount m (E2 i) e + icount m (E3 i) e +
        icount m (E4 i) e + icount m (E5 i) e + icount m (E6 i) e := by
    intro i hi
    exact count_family1 m (F1 i) (F2 i) (E1 i) (E2 i) (E3 i) (E4 i) (E5 i)
      (E6 i) e (fun j hj => h i (List.mem_range.mp hi) j hj)
  rw [List.map_congr_left hcong, sum_map_add_distrib, sum_map_add_distrib,
    sum_map_add_distrib, sum_map_add_distrib, sum_map_add_distrib]
  rfl

theorem mem_family1 (n : ℕ) (F1 F2 : ℕ → Face)
    (E1 E2 E3 E4 E5 E6 : ℕ → ℕ × ℕ) (e : ℕ × ℕ)
    (h : ∀ j, j < n → faceEdges (F1 j) ++ faceEdges (F2 j) =
      [E1 j, E2 j, E3 j, E4 j, E5 j, E6 j])
    (hmem : e ∈ edgeList ((List.range n).flatMap fun j => [F1 j, F2 j])) :
    ∃ j, j < n ∧ (e = E1 j ∨ e = E2 j ∨ e = E3 j ∨ e = E4 j ∨ e = E5 j ∨
      e = E6 j) := by
  unfold edgeList at hmem
  rw [List.flatMap_assoc] at hmem
  obtain ⟨j, hj, hmem2⟩ := List.mem_flatMap.mp hmem
  have hl : [F1 j, F2 j].flatMap faceEdges =
      [E1 j, E2 j, E3 j, E4 j, E5 j, E6 j] := by
    simp only [List.flatMap_cons, List.flatMap_nil, List.append_nil]
    exact h j (List.mem_range.mp hj)
  rw [hl] at hmem2
  refine ⟨j, List.mem_range.mp hj, ?_⟩
  simpa using hmem2

theorem mem_family2 (n m : ℕ) (F1 F2 : ℕ → ℕ → Face)
    (E1 E2 E3 E4 E5 E6 : ℕ → ℕ → ℕ × ℕ) (e : ℕ × ℕ)
    (h : ∀ i, i < n → ∀ j, j < m →
      faceEdges (F1 i j) ++ faceEdges (F2 i j) =
        [E1 i j, E2 i j, E3 i j, E4 i j, E5 i j, E6 i j])
    (hmem : e ∈ edgeList ((List.range n).flatMap fun i =>
      (List.range m).flatMap fun j => [F1 i j, F2 i j])) :
    ∃ i, i < n ∧ ∃ j, j < m ∧ (e = E1 i j ∨ e = E2 i j ∨ e = E3 i j ∨
      e = E4 i j ∨ e = E5 i j ∨ e = E6 i j) := by
  unfold edgeList at hmem
  rw [List.flatMap_assoc] at hmem
  obtain ⟨i, hi, hmem2⟩ := List.mem_flatMap.mp hmem
  rw [List.flatMap_assoc] at hmem2
  obtain ⟨j, hj, hmem3⟩ := List.mem_flatMap.mp hmem2
  have hl : [F1 i j, F2 i j].flatMap faceEdges =
      [E1 i j, E2 i j, E3 i j, E4 i j, E5 i j, E6 i j] := by
    simp only [List.flatMap_cons, List.flatMap_nil, List.append_nil]
    exact h i (List.mem_range.mp hi) j (List.mem_range.mp hj)
  rw [hl] at hmem3
  refine ⟨i, List.mem_range.mp hi, j, List.mem_range.mp hj, ?_⟩
  simpa using hmem3

theorem encode_inj {nx i j i' j' : ℕ} (hj : j < nx) (hj' : j' < nx)
    (h : i * nx + j = i' * nx + j') : i = i' ∧ j = j' := by
  have h0 : 0 < nx := by omega
  have hm : (i * nx + j) % nx = j := by
    rw [Nat.mul_comm, Nat.mul_add_mod, Nat.mod_eq_of_lt hj]
  have hm' : (i' * nx + j') % nx = j' := by
    rw [Nat.mul_comm, Nat.mul_add_mod, Nat.mod_eq_of_lt hj']
  have hd : (i * nx + j) / nx = i := by
    rw [Nat.mul_comm, Nat.mul_add_div h0, Nat.div_eq_of_lt hj, Nat.add_zero]
  have hd' : (i' * nx + j') / nx = i' := by
    rw [Nat.mul_comm, Nat.mul_add_div h0, Nat.div_eq_of_lt hj', Nat.add_zero]
  constructor
  · rw [← hd, ← hd', h]
  · rw [← hm, ← hm', h]

theorem mul_succ_le {i k : ℕ} (nx : ℕ) (h : i < k) : i * nx + nx ≤ k * nx := by
  have h2 : (i + 1) * nx ≤ k * nx := Nat.mul_le_mul_right nx (by omega)
  rw [Nat.succ_mul] at h2
  exact h2

theorem mul_le_mul_nx {i k : ℕ} (nx : ℕ) (h : i ≤ k) : i * nx ≤ k * nx :=
  Nat.mul_le_mul_right nx h

theorem edges_top (ny nx : ℕ) (hnx : 2 ≤ nx) (i j : ℕ) :
    faceEdges (i * nx + j, i * nx + j + 1, (i + 1) * nx + j + 1) ++
      faceEdges (i * nx + j, (i + 1) * nx + j + 1, (i + 1) * nx + j) =
    [(i * nx + j, i * nx + j + 1), (i * nx + j + 1, i * nx + j + nx + 1),
     (i * nx + j, i * nx + j + nx + 1), (i * nx + j, i * nx + j + nx + 1),
     (i * nx + j + nx, i * nx + j + nx + 1), (i * nx + j, i * nx + j + nx)] := by
  have hs : (i + 1) * nx = i * nx + nx := Nat.succ_mul i nx
  simp only [faceEdges, List.cons_append, List.nil_append]
  rw [ekey_of_lt (show i * nx + j < i * nx + j + 1 by omega),
    ekey_of_lt (show i * nx + j + 1 < (i + 1) * nx + j + 1 by omega),
    ekey_of_gt (show i * nx + j < (i + 1) * nx + j + 1 by omega),
    ekey_of_lt (show i * nx + j < (i + 1) * nx + j + 1 by omega),
    ekey_of_gt (show (i + 1) * nx + j < (i + 1) * nx + j + 1 by omega),
    ekey_of_gt (show i * nx + j < (i + 1) * nx + j by omega)]
  simp only [hs, List.cons.injEq, Prod.mk.injEq, and_true, true_and]
  omega

theorem edges_bottom (ny nx : ℕ) (hnx : 2 ≤ nx) (i j : ℕ) :
    faceEdges (ny * nx + i * nx + j, ny * nx + (i + 1) * nx + j + 1,
        ny * nx + i * nx + j + 1) ++
      faceEdges (ny * nx + i * nx + j, ny * nx + (i + 1) * nx + j,
        ny * nx + (i + 1) * nx + j + 1) =
    [(ny * nx + i * nx + j, ny * nx + i * nx + j + nx + 1),
     (ny * nx + i * nx + j + 1, ny * nx + i * nx + j + nx + 1),
     (ny * nx + i * nx + j, ny * nx + i * nx + j + 1),
     (ny * nx + i * nx + j, ny * nx + i * nx + j + nx),
     (ny * nx + i * nx + j + nx, ny * nx + i * nx + j + nx + 1),
     (ny * nx + i * nx + j, ny * nx + i * nx + j + nx + 1)] := by
  have hs : (i + 1) * nx = i * nx + nx := Nat.succ_mul i nx
  simp only [faceEdges, List.cons_append, List.nil_append]
  rw [ekey_of_lt (show ny * nx + i * nx + j < ny * nx + (i + 1) * nx + j + 1
      by omega),
    ekey_of_gt (show ny * nx + i * nx + j + 1 < ny * nx + (i + 1) * nx + j + 1
      by omega),
    ekey_of_gt (show ny * nx + i * nx + j < ny * nx + i * nx + j + 1 by omega),
    ekey_of_lt (show ny * nx + i * nx + j < ny * nx + (i + 1) * nx + j
      by omega),
    ekey_of_lt (show ny * nx + (i + 1) * nx + j < ny * nx + (i + 1) * nx + j + 1
      by omega),
    ekey_of_gt (show ny * nx + i * nx + j < ny * nx + (i + 1) * nx + j + 1
      by omega)]
  simp only [hs, List.cons.injEq, Prod.mk.injEq, and_true, true_and]
  omega

theorem edges_front (ny nx : ℕ) (hny : 2 ≤ ny) (hnx : 2 ≤ nx) (j : ℕ) :
    faceEdges (j, ny * nx + j, j + 1) ++
      faceEdges (j + 1, ny * nx + j, ny * nx + j + 1) =
    [(j, ny * nx + j), (j + 1, ny * nx + j), (j, j + 1), (j + 1, ny * nx + j),
     (ny * nx + j, ny * nx + j + 1), (j + 1, ny * nx + j + 1)] := by
  have hnn : 2 * nx ≤ ny * nx := Nat.mul_le_mul_right nx hny
  simp only [faceEdges, List.cons_append, List.nil_append]
  rw [ekey_of_lt (show j < ny * nx + j by omega),
    ekey_of_gt (show j + 1 < ny * nx + j by omega),
    ekey_of_gt (show j < j + 1 by omega),
    ekey_of_lt (show j + 1 < ny * nx + j by omega),
    ekey_of_lt (show ny * nx + j < ny * nx + j + 1 by omega),
    ekey_of_gt (show j + 1 < ny * nx + j + 1 by omega)]

theorem edges_back (ny nx : ℕ) (hny : 2 ≤ ny) (hnx : 2 ≤ nx) (j : ℕ) :
    faceEdges ((ny - 1) * nx + j, (ny - 1) * nx + j + 1,
        ny * nx + (ny - 1) * nx + j) ++
      faceEdges ((ny - 1) * nx + j + 1, ny * nx + (ny - 1) * nx + j + 1,
        ny * nx + (ny - 1) * nx + j) =
    [((ny - 1) * nx + j, (ny - 1) * nx + j + 1),
     ((ny - 1) * nx + j + 1, ny * nx + (ny - 1) * nx + j),
     ((ny - 1) * nx + j, ny * nx + (ny - 1) * nx + j),
     ((ny - 1) * nx + j + 1, ny * nx + (ny - 1) * nx + j + 1),
     (ny * nx + (ny - 1) * nx + j, ny * nx + (ny - 1) * nx + j + 1),
     ((ny - 1) * nx + j + 1, ny * nx + (ny - 1) * nx + j)] := by
  have hnn : 2 * nx ≤ ny * nx := Nat.mul_le_mul_right nx hny
  simp only [faceEdges, List.cons_append, List.nil_append]
  rw [ekey_of_lt (show (ny - 1) * nx + j < (ny - 1) * nx + j + 1 by omega),
    ekey_of_lt (show (ny - 1) * nx + j + 1 < ny * nx + (ny - 1) * nx + j
      by omega),
    ekey_of_gt (show (ny - 1) * nx + j < ny * nx + (ny - 1) * nx + j by omega),
    ekey_of_lt (show (ny - 1) * nx + j + 1 < ny * nx + (ny - 1) * nx + j + 1
      by omega),
    ekey_of_gt (show ny * nx + (ny - 1) * nx + j <
      ny * nx + (ny - 1) * nx + j + 1 by omega),
    ekey_of_gt (show (ny - 1) * nx + j + 1 < ny * nx + (ny - 1) * nx + j
      by omega)]

theorem edges_left (ny nx : ℕ) (hny : 2 ≤ ny) (hnx : 2 ≤ nx) (i : ℕ) :
    faceEdges (i * nx, (i + 1) * nx, ny * nx + i * nx) ++
      faceEdges ((i + 1) * nx, ny * nx + (i + 1) * nx, ny * nx + i * nx) =
    [(i * nx, i * nx + nx), (i * nx + nx, ny * nx + i * nx),
     (i * nx, ny * nx + i * nx), (i * nx + nx, ny * nx + i * nx + nx),
     (ny * nx + i * nx, ny * nx + i * nx + nx),
     (i * nx + nx, ny * nx + i * nx)] := by
  have hs : (i + 1) * nx = i * nx + nx := Nat.succ_mul i nx
  have hnn : 2 * nx ≤ ny * nx := Nat.mul_le_mul_right nx hny
  simp only [faceEdges, List.cons_append, List.nil_append]
  rw [ekey_of_lt (show i * nx < (i + 1) * nx by omega),
    ekey_of_lt (show (i + 1) * nx < ny * nx + i * nx by omega),
    ekey_of_gt (show i * nx < ny * nx + i * nx by omega),
    ekey_of_lt (show (i + 1) * nx < ny * nx + (i + 1) * nx by omega),
    ekey_of_gt (show ny * nx + i * nx < ny * nx + (i + 1) * nx by omega),
    ekey_of_gt (show (i + 1) * nx < ny * nx + i * nx by omega)]
  simp only [hs, List.cons.injEq, Prod.mk.injEq, and_true, true_and]
  omega

theorem edges_right (ny nx : ℕ) (hny : 2 ≤ ny) (hnx : 2 ≤ nx) (i : ℕ) :
    faceEdges (i * nx + nx - 1, ny * nx + i * nx + nx - 1,
        (i + 1) * nx + nx - 1) ++
      faceEdges ((i + 1) * nx + nx - 1, ny * nx + i * nx + nx - 1,
        ny * nx + (i + 1) * nx + nx - 1) =
    [(i * nx + nx - 1, ny * nx + i * nx + nx - 1),
     (i * nx + nx + nx - 1, ny * nx + i * nx + nx - 1),
     (i * nx + nx - 1, i * nx + nx + nx - 1),
     (i * nx + nx + nx - 1, ny * nx + i * nx + nx - 1),
     (ny * nx + i * nx + nx - 1, ny * nx + i * nx + nx + nx - 1),
     (i * nx + nx + nx - 1, ny * nx + i * nx + nx + nx - 1)] := by
  have hs : (i + 1) * nx = i * nx + nx := Nat.succ_mul i nx
  have hnn : 2 * nx ≤ ny * nx := Nat.mul_le_mul_right nx hny
  simp only [faceEdges, List.cons_append, List.nil_append]
  rw [ekey_of_lt (show i * nx + nx - 1 < ny * nx + i * nx + nx - 1 by omega),
    ekey_of_gt (show (i + 1) * nx + nx - 1 < ny * nx + i * nx + nx - 1
      by omega),
    ekey_of_gt (show i * nx + nx - 1 < (i + 1) * nx + nx - 1 by omega),
    ekey_of_lt (show (i + 1) * nx + nx - 1 < ny * nx + i * nx + nx - 1
      by omega),
    ekey_of_lt (show ny * nx + i * nx + nx - 1 < ny * nx + (i + 1) * nx + nx - 1
      by omega),
    ekey_of_gt (show (i + 1) * nx + nx - 1 < ny * nx + (i + 1) * nx + nx - 1
      by omega)]
  simp only [hs, List.cons.injEq, Prod.mk.injEq, and_true, true_and]
  omega

theorem edges_fbtop (ny nx : ℕ) (hnx : 2 ≤ nx) (i j : ℕ) :
    faceEdges (i * nx + j, i * nx + j + 1, (i + 1) * nx + j) ++
      faceEdges (i * nx + j + 1, (i + 1) * nx + j + 1, (i + 1) * nx + j) =
    [(i * nx + j, i * nx + j + 1), (i * nx + j + 1, i * nx + j + nx),
     (i * nx + j, i * nx + j + nx), (i * nx + j + 1, i * nx + j + nx + 1),
     (i * nx + j + nx, i * nx + j + nx + 1),
     (i * nx + j + 1, i * nx + j + nx)] := by
  have hs : (i + 1) * nx = i * nx + nx := Nat.succ_mul i nx
  simp only [faceEdges, List.cons_append, List.nil_append]
  rw [ekey_of_lt (show i * nx + j < i * nx + j + 1 by omega),
    ekey_of_lt (show i * nx + j + 1 < (i + 1) * nx + j by omega),
    ekey_of_gt (show i * nx + j < (i + 1) * nx + j by omega),
    ekey_of_lt (show i * nx + j + 1 < (i + 1) * nx + j + 1 by omega),
    ekey_of_gt (show (i + 1) * nx + j < (i + 1) * nx + j + 1 by omega),
    ekey_of_gt (show i * nx + j + 1 < (i + 1) * nx + j by omega)]
  simp only [hs, List.cons.injEq, Prod.mk.injEq, and_true, true_and]
  omega

theorem edges_fbbot (ny nx : ℕ) (hnx : 2 ≤ nx) (i j : ℕ) :
    faceEdges (ny * nx + i * nx + j, ny * nx + (i + 1) * nx + j,
        ny * nx + i * nx + j + 1) ++
      faceEdges (ny * nx + i * nx + j + 1, ny * nx + (i + 1) * nx + j,
        ny * nx + (i + 1) * nx + j + 1) =
    [(ny * nx + i * nx + j, ny * nx + i * nx + j + nx),
     (ny * nx + i * nx + j + 1, ny * nx + i * nx + j + nx),
     (ny * nx + i * nx + j, ny * nx + i * nx + j + 1),
     (ny * nx + i * nx + j + 1, ny * nx + i * nx + j + nx),
     (ny * nx + i * nx + j + nx, ny * nx + i * nx + j + nx + 1),
     (ny * nx + i * nx + j + 1, ny * nx + i * nx + j + nx + 1)] := by
  have hs : (i + 1) * nx = i * nx + nx := Nat.succ_mul i nx
  simp only [faceEdges, List.cons_append, List.nil_append]
  rw [ekey_of_lt (show ny * nx + i * nx + j < ny * nx + (i + 1) * nx + j
      by omega),
    ekey_of_gt (show ny * nx + i * nx + j + 1 < ny * nx + (i + 1) * nx + j
      by omega),
    ekey_of_gt (show ny * nx + i * nx + j < ny * nx + i * nx + j + 1 by omega),
    ekey_of_lt (show ny * nx + i * nx + j + 1 < ny * nx + (i + 1) * nx + j
      by omega),
    ekey_of_lt (show ny * nx + (i + 1) * nx + j <
      ny * nx + (i + 1) * nx + j + 1 by omega),
    ekey_of_gt (show ny * nx + i * nx + j + 1 < ny * nx + (i + 1) * nx + j + 1
      by omega)]
  simp only [hs, List.cons.injEq, Prod.mk.injEq, and_true, true_and]
  omega

theorem cnt_top (ny nx : ℕ) (hnx : 2 ≤ nx) (e : ℕ × ℕ) :
    (edgeList (terrain_top_faces ny nx)).count e =
      icount2 (ny - 1) (nx - 1) (fun i j => (i * nx + j, i * nx + j + 1)) e +
      icount2 (ny - 1) (nx - 1)
        (fun i j => (i * nx + j + 1, i * nx + j + nx + 1)) e +
      icount2 (ny - 1) (nx - 1)
        (fun i j => (i * nx + j, i * nx + j + nx + 1)) e +
      icount2 (ny - 1) (nx - 1)
        (fun i j => (i * nx + j, i * nx + j + nx + 1)) e +
      icount2 (ny - 1) (nx - 1)
        (fun i j => (i * nx + j + nx, i * nx + j + nx + 1)) e +
      icount2 (ny - 1) (nx - 1) (fun i j => (i * nx + j, i * nx + j + nx)) e
    := by
  unfold terrain_top_faces
  exact count_family2 _ _ _ _ _ _ _ _ _ _ e
    (fun i _ j _ => edges_top ny nx hnx i j)

theorem cnt_bot (ny nx : ℕ) (hnx : 2 ≤ nx) (e : ℕ × ℕ) :
    (edgeList (terrain_bottom_faces ny nx)).count e =
      icount2 (ny - 1) (nx - 1)
        (fun i j => (ny * nx + i * nx + j, ny * nx + i * nx + j + nx + 1)) e +
      icount2 (ny - 1) (nx - 1)
        (fun i j => (ny * nx + i * nx + j + 1, ny * nx + i * nx + j + nx + 1))
        e +
      icount2 (ny - 1) (nx - 1)
        (fun i j => (ny * nx + i * nx + j, ny * nx + i * nx + j + 1)) e +
      icount2 (ny - 1) (nx - 1)
        (fun i j => (ny * nx + i * nx + j, ny * nx + i * nx + j + nx)) e +
      icount2 (ny - 1) (nx - 1)
        (fun i j => (ny * nx + i * nx + j + nx, ny * nx + i * nx + j + nx + 1))
        e +
      icount2 (ny - 1) (nx - 1)
        (fun i j => (ny * nx + i * nx + j, ny * nx + i * nx + j + nx + 1)) e
    := by
  unfold terrain_bottom_faces
  exact count_family2 _ _ _ _ _ _ _ _ _ _ e
    (fun i _ j _ => edges_bottom ny nx hnx i j)

theorem cnt_front (ny nx : ℕ) (hny : 2 ≤ ny) (hnx : 2 ≤ nx) (e : ℕ × ℕ) :
    (edgeList (terrain_front_faces ny nx)).count e =
      icount (nx - 1) (fun j => (j, ny * nx + j)) e +
      icount (nx - 1) (fun j => (j + 1, ny * nx + j)) e +
      icount (nx - 1) (fun j => (j, j + 1)) e +
      icount (nx - 1) (fun j => (j + 1, ny * nx + j)) e +
      icount (nx - 1) (fun j => (ny * nx + j, ny * nx + j + 1)) e +
      icount (nx - 1) (fun j => (j + 1, ny * nx + j + 1)) e := by
  unfold terrain_front_faces
  exact count_family1 _ _ _ _ _ _ _ _ _ e
    (fun j _ => edges_front ny nx hny hnx j)

theorem cnt_back (ny nx : ℕ) (hny : 2 ≤ ny) (hnx : 2 ≤ nx) (e : ℕ × ℕ) :
    (edgeList (terrain_back_faces ny nx)).count e =
      icount (nx - 1)
        (fun j => ((ny - 1) * nx + j, (ny - 1) * nx + j + 1)) e +
      icount (nx - 1)
        (fun j => ((ny - 1) * nx + j + 1, ny * nx + (ny - 1) * nx + j)) e +
      icount (nx - 1)
        (fun j => ((ny - 1) * nx + j, ny * nx + (ny - 1) * nx + j)) e +
      icount (nx - 1)
        (fun j => ((ny - 1) * nx + j + 1, ny * nx + (ny - 1) * nx + j + 1)) e +
      icount (nx - 1)
        (fun j => (ny * nx + (ny - 1) * nx + j, ny * nx + (ny - 1) * nx + j + 1))
        e +
      icount (nx - 1)
        (fun j => ((ny - 1) * nx + j + 1, ny * nx + (ny - 1) * nx + j)) e := by
  unfold terrain_back_faces
  exact count_family1 _ _ _ _ _ _ _ _ _ e
    (fun j _ => edges_back ny nx hny hnx j)

theorem cnt_left (ny nx : ℕ) (hny : 2 ≤ ny) (hnx : 2 ≤ nx) (e : ℕ × ℕ) :
    (edgeList (terrain_left_faces ny nx)).count e =
      icount (ny - 1) (fun i => (i * nx, i * nx + nx)) e +
      icount (ny - 1) (fun i => (i * nx + nx, ny * nx + i * nx)) e +
      icount (ny - 1) (fun i => (i * nx, ny * nx + i * nx)) e +
      icount (ny - 1) (fun i => (i * nx + nx, ny * nx + i * nx + nx)) e +
      icount (ny - 1) (fun i => (ny * nx + i * nx, ny * nx + i * nx + nx)) e +
      icount (ny - 1) (fun i => (i * nx + nx, ny * nx + i * nx)) e := by
  unfold terrain_left_faces
  exact count_family1 _ _ _ _ _ _ _ _ _ e
    (fun i _ => edges_left ny nx hny hnx i)

theorem cnt_right (ny nx : ℕ) (hny : 2 ≤ ny) (hnx : 2 ≤ nx) (e : ℕ × ℕ) :
    (edgeList (terrain_right_faces ny nx)).count e =
      icount (ny - 1)
        (fun i => (i * nx + nx - 1, ny * nx + i * nx + nx - 1)) e +
      icount (ny - 1)
        (fun i => (i * nx + nx + nx - 1, ny * nx + i * nx + nx - 1)) e +
      icount (ny - 1)
        (fun i => (i * nx + nx - 1, i * nx + nx + nx - 1)) e +
      icount (ny - 1)
        (fun i => (i * nx + nx + nx - 1, ny * nx + i * nx + nx - 1)) e +
      icount (ny - 1)
        (fun i => (ny * nx + i * nx + nx - 1, ny * nx + i * nx + nx + nx - 1))
        e +
      icount (ny - 1)
        (fun i => (i * nx + nx + nx - 1, ny * nx + i * nx + nx + nx - 1)) e
    := by
  unfold terrain_right_faces
  exact count_family1 _ _ _ _ _ _ _ _ _ e
    (fun i _ => edges_right ny nx hny hnx i)

theorem cnt_fbtop (ny nx : ℕ) (hnx : 2 ≤ nx) (e : ℕ × ℕ) :
    (edgeList (flat_bottom_top_faces ny nx)).count e =
      icount2 (ny - 1) (nx - 1) (fun i j => (i * nx + j, i * nx + j + 1)) e +
      icount2 (ny - 1) (nx - 1)
        (fun i j => (i * nx + j + 1, i * nx + j + nx)) e +
      icount2 (ny - 1) (nx - 1) (fun i j => (i * nx + j, i * nx + j + nx)) e +
      icount2 (ny - 1) (nx - 1)
        (fun i j => (i * nx + j + 1, i * nx + j + nx + 1)) e +
      icount2 (ny - 1) (nx - 1)
        (fun i j => (i * nx + j + nx, i * nx + j + nx + 1)) e +
      icount2 (ny - 1) (nx - 1)
        (fun i j => (i * nx + j + 1, i * nx + j + nx)) e := by
  unfold flat_bottom_top_faces
  exact count_family2 _ _ _ _ _ _ _ _ _ _ e
    (fun i _ j _ => edges_fbtop ny nx hnx i j)

theorem cnt_fbbot (ny nx : ℕ) (hnx : 2 ≤ nx) (e : ℕ × ℕ) :
    (edgeList (flat_bottom_bottom_faces ny nx)).count e =
      icount2 (ny - 1) (nx - 1)
        (fun i j => (ny * nx + i * nx + j, ny * nx + i * nx + j + nx)) e +
      icount2 (ny - 1) (nx - 1)
        (fun i j => (ny * nx + i * nx + j + 1, ny * nx + i * nx + j + nx)) e +
      icount2 (ny - 1) (nx - 1)
        (fun i j => (ny * nx + i * nx + j, ny * nx + i * nx + j + 1)) e +
      icount2 (ny - 1) (nx - 1)
        (fun i j => (ny * nx + i * nx + j + 1, ny * nx + i * nx + j + nx)) e +
      icount2 (ny - 1) (nx - 1)
        (fun i j => (ny * nx + i * nx + j + nx, ny * nx + i * nx + j + nx + 1))
        e +
      icount2 (ny - 1) (nx - 1)
        (fun i j => (ny * nx + i * nx + j + 1, ny * nx + i * nx + j + nx + 1))
        e := by
  unfold flat_bottom_bottom_faces
  exact count_family2 _ _ _ _ _ _ _ _ _ _ e
    (fun i _ j _ => edges_fbbot ny nx hnx i j)

theorem pair_eq_fst {a b : ℕ} {e : ℕ × ℕ} (h : (a, b) = e) : e.1 = a := by
  rw [← h]

theorem pair_eq_snd {a b : ℕ} {e : ℕ × ℕ} (h : (a, b) = e) : e.2 = b := by
  rw [← h]

theorem htN_eq (ny nx : ℕ) (hny : 1 ≤ ny) : (ny - 1) * nx + nx = ny * nx := by
  have h1 : ny - 1 + 1 = ny := by omega
  calc (ny - 1) * nx + nx = ((ny - 1) + 1) * nx := (Nat.succ_mul _ _).symm
    _ = ny * nx := by rw [h1]

theorem cnt_front_top (ny nx : ℕ) (hny : 2 ≤ ny) (hnx : 2 ≤ nx) (e : ℕ × ℕ)
    (he : e.2 < ny * nx) :
    (edgeList (terrain_front_faces ny nx)).count e =
      icount (nx - 1) (fun j => (j, j + 1)) e := by
  rw [cnt_front ny nx hny hnx e]
  have z1 : icount (nx - 1) (fun j => (j, ny * nx + j)) e = 0 :=
    icount_zero _ _ _ (fun j hj heq => by
      have h2 := pair_eq_snd heq; omega)
  have z2 : icount (nx - 1) (fun j => (j + 1, ny * nx + j)) e = 0 :=
    icount_zero _ _ _ (fun j hj heq => by
      have h2 := pair_eq_snd heq; omega)
  have z5 : icount (nx - 1) (fun j => (ny * nx + j, ny * nx + j + 1)) e = 0 :=
    icount_zero _ _ _ (fun j hj heq => by
      have h2 := pair_eq_snd heq; omega)
  have z6 : icount (nx - 1) (fun j => (j + 1, ny * nx + j + 1)) e = 0 :=
    icount_zero _ _ _ (fun j hj heq => by
      have h2 := pair_eq_snd heq; omega)
  omega

theorem cnt_front_bot (ny nx : ℕ) (hny : 2 ≤ ny) (hnx : 2 ≤ nx) (e : ℕ × ℕ)
    (he : ny * nx ≤ e.1) :
    (edgeList (terrain_front_faces ny nx)).count e =
      icount (nx - 1) (fun j => (ny * nx + j, ny * nx + j + 1)) e := by
  have hnn : 2 * nx ≤ ny * nx := Nat.mul_le_mul_right nx hny
  rw [cnt_front ny nx hny hnx e]
  have z1 : icount (nx - 1) (fun j => (j, ny * nx + j)) e = 0 :=
    icount_zero _ _ _ (fun j hj heq => by
      have h1 := pair_eq_fst heq; omega)
  have z2 : icount (nx - 1) (fun j => (j + 1, ny * nx + j)) e = 0 :=
    icount_zero _ _ _ (fun j hj heq => by
      have h1 := pair_eq_fst heq; omega)
  have z3 : icount (nx - 1) (fun j => (j, j + 1)) e = 0 :=
    icount_zero _ _ _ (fun j hj heq => by
      have h1 := pair_eq_fst heq; omega)
  have z6 : icount (nx - 1) (fun j => (j + 1, ny * nx + j + 1)) e = 0 :=
    icount_zero _ _ _ (fun j hj heq => by
      have h1 := pair_eq_fst heq; omega)
  omega

theorem cnt_front_mid (ny nx : ℕ) (hny : 2 ≤ ny) (hnx : 2 ≤ nx) (e : ℕ × ℕ)
    (he1 : e.1 < ny * nx) (he2 : ny * nx ≤ e.2) :
    (edgeList (terrain_front_faces ny nx)).count e =
      icount (nx - 1) (fun j => (j, ny * nx + j)) e +
      icount (nx - 1) (fun j => (j + 1, ny * nx + j)) e +
      icount (nx - 1) (fun j => (j + 1, ny * nx + j)) e +
      icount (nx - 1) (fun j => (j + 1, ny * nx + j + 1)) e := by
  have hnn : 2 * nx ≤ ny * nx := Nat.mul_le_mul_right nx hny
  rw [cnt_front ny nx hny hnx e]
  have z3 : icount (nx - 1) (fun j => (j, j + 1)) e = 0 :=
    icount_zero _ _ _ (fun j hj heq => by
      have h2 := pair_eq_snd heq; omega)
  have z5 : icount (nx - 1) (fun j => (ny * nx + j, ny * nx + j + 1)) e = 0 :=
    icount_zero _ _ _ (fun j hj heq => by
      have h1 := pair_eq_fst heq; omega)
  omega

theorem cnt_back_top (ny nx : ℕ) (hny : 2 ≤ ny) (hnx : 2 ≤ nx) (e : ℕ × ℕ)
    (he : e.2 < ny * nx) :
    (edgeList (terrain_back_faces ny nx)).count e =
      icount (nx - 1)
        (fun j => ((ny - 1) * nx + j, (ny - 1) * nx + j + 1)) e := by
  rw [cnt_back ny nx hny hnx e]
  have z2 : icount (nx - 1)
      (fun j => ((ny - 1) * nx + j + 1, ny * nx + (ny - 1) * nx + j)) e = 0 :=
    icount_zero _ _ _ (fun j hj heq => by
      have h2 := pair_eq_snd heq; omega)
  have z3 : icount (nx - 1)
      (fun j => ((ny - 1) * nx + j, ny * nx + (ny - 1) * nx + j)) e = 0 :=
    icount_zero _ _ _ (fun j hj heq => by
      have h2 := pair_eq_snd heq; omega)
  have z4 : icount (nx - 1)
      (fun j => ((ny - 1) * nx + j + 1, ny * nx + (ny - 1) * nx + j + 1)) e
      = 0 :=
    icount_zero _ _ _ (fun j hj heq => by
      have h2 := pair_eq_snd heq; omega)
  have z5 : icount (nx - 1)
      (fun j => (ny * nx + (ny - 1) * nx + j, ny * nx + (ny - 1) * nx + j + 1))
      e = 0 :=
    icount_zero _ _ _ (fun j hj heq => by
      have h2 := pair_eq_snd heq; omega)
  omega

theorem cnt_back_bot (ny nx : ℕ) (hny : 2 ≤ ny) (hnx : 2 ≤ nx) (e : ℕ × ℕ)
    (he : ny * nx ≤ e.1) :
    (edgeList (terrain_back_faces ny nx)).count e =
      icount (nx - 1)
        (fun j => (ny * nx + (ny - 1) * nx + j, ny * nx + (ny - 1) * nx + j + 1))
        e := by
  have htN : (ny - 1) * nx + nx = ny * nx := htN_eq ny nx (by omega)
  rw [cnt_back ny nx hny hnx e]
  have z1 : icount (nx - 1)
      (fun j => ((ny - 1) * nx + j, (ny - 1) * nx + j + 1)) e = 0 :=
    icount_zero _ _ _ (fun j hj heq => by
      have h1 := pair_eq_fst heq; omega)
  have z2 : icount (nx - 1)
      (fun j => ((ny - 1) * nx + j + 1, ny * nx + (ny - 1) * nx + j)) e = 0 :=
    icount_zero _ _ _ (fun j hj heq => by
      have h1 := pair_eq_fst heq; omega)
  have z3 : icount (nx - 1)
      (fun j => ((ny - 1) * nx + j, ny * nx + (ny - 1) * nx + j)) e = 0 :=
    icount_zero _ _ _ (fun j hj heq => by
      have h1 := pair_eq_fst heq; omega)
  have z4 : icount (nx - 1)
      (fun j => ((ny - 1) * nx + j + 1, ny * nx + (ny - 1) * nx + j + 1)) e
      = 0 :=
    icount_zero _ _ _ (fun j hj heq => by
      have h1 := pair_eq_fst heq; omega)
  omega

theorem cnt_back_mid (ny nx : ℕ) (hny : 2 ≤ ny) (hnx : 2 ≤ nx) (e : ℕ × ℕ)
    (he1 : e.1 < ny * nx) (he2 : ny * nx ≤ e.2) :
    (edgeList (terrain_back_faces ny nx)).count e =
      icount (nx - 1)
        (fun j => ((ny - 1) * nx + j + 1, ny * nx + (ny - 1) * nx + j)) e +
      icount (nx - 1)
        (fun j => ((ny - 1) * nx + j, ny * nx + (ny - 1) * nx + j)) e +
      icount (nx - 1)
        (fun j => ((ny - 1) * nx + j + 1, ny * nx + (ny - 1) * nx + j + 1)) e +
      icount (nx - 1)
        (fun j => ((ny - 1) * nx + j + 1, ny * nx + (ny - 1) * nx + j)) e := by
  have htN : (ny - 1) * nx + nx = ny * nx := htN_eq ny nx (by omega)
  rw [cnt_back ny nx hny hnx e]
  have z1 : icount (nx - 1)
      (fun j => ((ny - 1) * nx + j, (ny - 1) * nx + j + 1)) e = 0 :=
    icount_zero _ _ _ (fun j hj heq => by
      have h2 := pair_eq_snd heq; omega)
  have z5 : icount (nx - 1)
      (fun j => (ny * nx + (ny - 1) * nx + j, ny * nx + (ny - 1) * nx + j + 1))
      e = 0 :=
    icount_zero _ _ _ (fun j hj heq => by
      have h1 := pair_eq_fst heq; omega)
  omega

theorem cnt_left_top (ny nx : ℕ) (hny : 2 ≤ ny) (hnx : 2 ≤ nx) (e : ℕ × ℕ)
    (he : e.2 < ny * nx) :
    (edgeList (terrain_left_faces ny nx)).count e =
      icount (ny - 1) (fun i => (i * nx, i * nx + nx)) e := by
  rw [cnt_left ny nx hny hnx e]
  have z2 : icount (ny - 1) (fun i => (i * nx + nx, ny * nx + i * nx)) e = 0 :=
    icount_zero _ _ _ (fun i hi heq => by
      have h2 := pair_eq_snd heq; omega)
  have z3 : icount (ny - 1) (fun i => (i * nx, ny * nx + i * nx)) e = 0 :=
    icount_zero _ _ _ (fun i hi heq => by
      have h2 := pair_eq_snd heq; omega)
  have z4 : icount (ny - 1)
      (fun i => (i * nx + nx, ny * nx + i * nx + nx)) e = 0 :=
    icount_zero _ _ _ (fun i hi heq => by
      have h2 := pair_eq_snd heq; omega)
  have z5 : icount (ny - 1)
      (fun i => (ny * nx + i * nx, ny * nx + i * nx + nx)) e = 0 :=
    icount_zero _ _ _ (fun i hi heq => by
      have h2 := pair_eq_snd heq; omega)
  omega

theorem cnt_left_bot (ny nx : ℕ) (hny : 2 ≤ ny) (hnx : 2 ≤ nx) (e : ℕ × ℕ)
    (he : ny * nx ≤ e.1) :
    (edgeList (terrain_left_faces ny nx)).count e =
      icount (ny - 1) (fun i => (ny * nx + i * nx, ny * nx + i * nx + nx)) e
    := by
  have htN : (ny - 1) * nx + nx = ny * nx := htN_eq ny nx (by omega)
  rw [cnt_left ny nx hny hnx e]
  have z1 : icount (ny - 1) (fun i => (i * nx, i * nx + nx)) e = 0 :=
    icount_zero _ _ _ (fun i hi heq => by
      have h1 := pair_eq_fst heq; have hm := mul_succ_le nx hi; omega)
  have z2 : icount (ny - 1) (fun i => (i * nx + nx, ny * nx + i * nx)) e = 0 :=
    icount_zero _ _ _ (fun i hi heq => by
      have h1 := pair_eq_fst heq; have hm := mul_succ_le nx hi; omega)
  have z3 : icount (ny - 1) (fun i => (i * nx, ny * nx + i * nx)) e = 0 :=
    icount_zero _ _ _ (fun i hi heq => by
      have h1 := pair_eq_fst heq; have hm := mul_succ_le nx hi; omega)
  have z4 : icount (ny - 1)
      (fun i => (i * nx + nx, ny * nx + i * nx + nx)) e = 0 :=
    icount_zero _ _ _ (fun i hi heq => by
      have h1 := pair_eq_fst heq; have hm := mul_succ_le nx hi; omega)
  omega

theorem cnt_left_mid (ny nx : ℕ) (hny : 2 ≤ ny) (hnx : 2 ≤ nx) (e : ℕ × ℕ)
    (he1 : e.1 < ny * nx) (he2 : ny * nx ≤ e.2) :
    (edgeList (terrain_left_faces ny nx)).count e =
      icount (ny - 1) (fun i => (i * nx + nx, ny * nx + i * nx)) e +
      icount (ny - 1) (fun i => (i * nx, ny * nx + i * nx)) e +
      icount (ny - 1) (fun i => (i * nx + nx, ny * nx + i * nx + nx)) e +
      icount (ny - 1) (fun i => (i * nx + nx, ny * nx + i * nx)) e := by
  have htN : (ny - 1) * nx + nx = ny * nx := htN_eq ny nx (by omega)
  rw [cnt_left ny nx hny hnx e]
  have z1 : icount (ny - 1) (fun i => (i * nx, i * nx + nx)) e = 0 :=
    icount_zero _ _ _ (fun i hi heq => by
      have h2 := pair_eq_snd heq; have hm := mul_succ_le nx hi; omega)
  have z5 : icount (ny - 1)
      (fun i => (ny * nx + i * nx, ny * nx + i * nx + nx)) e = 0 :=
    icount_zero _ _ _ (fun i hi heq => by
      have h1 := pair_eq_fst heq; omega)
  omega

theorem cnt_right_top (ny nx : ℕ) (hny : 2 ≤ ny) (hnx : 2 ≤ nx) (e : ℕ × ℕ)
    (he : e.2 < ny * nx) :
    (edgeList (terrain_right_faces ny nx)).count e =
      icount (ny - 1) (fun i => (i * nx + nx - 1, i * nx + nx + nx - 1)) e
    := by
  rw [cnt_right ny nx hny hnx e]
  have z1 : icount (ny - 1)
      (fun i => (i * nx + nx - 1, ny * nx + i * nx + nx - 1)) e = 0 :=
    icount_zero _ _ _ (fun i hi heq => by
      have h2 := pair_eq_snd heq; omega)
  have z2 : icount (ny - 1)
      (fun i => (i * nx + nx + nx - 1, ny * nx + i * nx + nx - 1)) e = 0 :=
    icount_zero _ _ _ (fun i hi heq => by
      have h2 := pair_eq_snd heq; omega)
  have z5 : icount (ny - 1)
      (fun i => (ny * nx + i * nx + nx - 1, ny * nx + i * nx + nx + nx - 1)) e
      = 0 :=
    icount_zero _ _ _ (fun i hi heq => by
      have h2 := pair_eq_snd heq; omega)
  have z6 : icount (ny - 1)
      (fun i => (i * nx + nx + nx - 1, ny * nx + i * nx + nx + nx - 1)) e = 0 :=
    icount_zero _ _ _ (fun i hi heq => by
      have h2 := pair_eq_snd heq; omega)
  omega

theorem cnt_right_bot (ny nx : ℕ) (hny : 2 ≤ ny) (hnx : 2 ≤ nx) (e : ℕ × ℕ)
    (he : ny * nx ≤ e.1) :
    (edgeList (terrain_right_faces ny nx)).count e =
      icount (ny - 1)
        (fun i => (ny * nx + i * nx + nx - 1, ny * nx + i * nx + nx + nx - 1))
        e := by
  have htN : (ny - 1) * nx + nx = ny * nx := htN_eq ny nx (by omega)
  rw [cnt_right ny nx hny hnx e]
  have z1 : icount (ny - 1)
      (fun i => (i * nx + nx - 1, ny * nx + i * nx + nx - 1)) e = 0 :=
    icount_zero _ _ _ (fun i hi heq => by
      have h1 := pair_eq_fst heq; have hm := mul_succ_le nx hi; omega)
  have z2 : icount (ny - 1)
      (fun i => (i * nx + nx + nx - 1, ny * nx + i * nx + nx - 1)) e = 0 :=
    icount_zero _ _ _ (fun i hi heq => by
      have h1 := pair_eq_fst heq; have hm := mul_succ_le nx hi; omega)
  have z3 : icount (ny - 1)
      (fun i => (i * nx + nx - 1, i * nx + nx + nx - 1)) e = 0 :=
    icount_zero _ _ _ (fun i hi heq => by
      have h1 := pair_eq_fst heq; have hm := mul_succ_le nx hi; omega)
  have z6 : icount (ny - 1)
      (fun i => (i * nx + nx + nx - 1, ny * nx + i * nx + nx + nx - 1)) e = 0 :=
    icount_zero _ _ _ (fun i hi heq => by
      have h1 := pair_eq_fst heq; have hm := mul_succ_le nx hi; omega)
  omega

theorem cnt_right_mid (ny nx : ℕ) (hny : 2 ≤ ny) (hnx : 2 ≤ nx) (e : ℕ × ℕ)
    (he1 : e.1 < ny * nx) (he2 : ny * nx ≤ e.2) :
    (edgeList (terrain_right_faces ny nx)).count e =
      icount (ny - 1)
        (fun i => (i * nx + nx - 1, ny * nx + i * nx + nx - 1)) e +
      icount (ny - 1)
        (fun i => (i * nx + nx + nx - 1, ny * nx + i * nx + nx - 1)) e +
      icount (ny - 1)
        (fun i => (i * nx + nx + nx - 1, ny * nx + i * nx + nx - 1)) e +
      icount (ny - 1)
        (fun i => (i * nx + nx + nx - 1, ny * nx + i * nx + nx + nx - 1)) e
    := by
  have htN : (ny - 1) * nx + nx = ny * nx := htN_eq ny nx (by omega)
  rw [cnt_right ny nx hny hnx e]
  have z3 : icount (ny - 1)
      (fun i => (i * nx + nx - 1, i * nx + nx + nx - 1)) e = 0 :=
    icount_zero _ _ _ (fun i hi heq => by
      have h2 := pair_eq_snd heq; have hm := mul_succ_le nx hi; omega)
  have z5 : icount (ny - 1)
      (fun i => (ny * nx + i * nx + nx - 1, ny * nx + i * nx + nx + nx - 1)) e
      = 0 :=
    icount_zero _ _ _ (fun i hi heq => by
      have h1 := pair_eq_fst heq; omega)
  omega

theorem cnt_top_zero (ny nx : ℕ) (hnx : 2 ≤ nx) (e : ℕ × ℕ)
    (he : ny * nx ≤ e.2) :
    (edgeList (terrain_top_faces ny nx)).count e = 0 := by
  rw [List.count_eq_zero]
  intro hmem
  unfold terrain_top_faces at hmem
  have hdec := mem_family2 _ _ _ _ _ _ _ _ _ _ e
    (fun i _ j _ => edges_top ny nx hnx i j) hmem
  obtain ⟨i, hi, j, hj, hc⟩ := hdec
  have hm := mul_succ_le nx hi
  have htN : (ny - 1) * nx + nx = ny * nx := htN_eq ny nx (by omega)
  rcases hc with h | h | h | h | h | h <;>
    (have h2 := pair_eq_snd h.symm; omega)

theorem cnt_bot_zero (ny nx : ℕ) (hnx : 2 ≤ nx) (e : ℕ × ℕ)
    (he : e.1 < ny * nx) :
    (edgeList (terrain_bottom_faces ny nx)).count e = 0 := by
  rw [List.count_eq_zero]
  intro hmem
  unfold terrain_bottom_faces at hmem
  have hdec := mem_family2 _ _ _ _ _ _ _ _ _ _ e
    (fun i _ j _ => edges_bottom ny nx hnx i j) hmem
  obtain ⟨i, hi, j, hj, hc⟩ := hdec
  rcases hc with h | h | h | h | h | h <;>
    (have h1 := pair_eq_fst h.symm; omega)

theorem cnt_fbtop_zero (ny nx : ℕ) (hnx : 2 ≤ nx) (e : ℕ × ℕ)
    (he : ny * nx ≤ e.2) :
    (edgeList (flat_bottom_top_faces ny nx)).count e = 0 := by
  rw [List.count_eq_zero]
  intro hmem
  unfold flat_bottom_top_faces at hmem
  have hdec := mem_family2 _ _ _ _ _ _ _ _ _ _ e
    (fun i _ j _ => edges_fbtop ny nx hnx i j) hmem
  obtain ⟨i, hi, j, hj, hc⟩ := hdec
  have hm := mul_succ_le nx hi
  have htN : (ny - 1) * nx + nx = ny * nx := htN_eq ny nx (by omega)
  rcases hc with h | h | h | h | h | h <;>
    (have h2 := pair_eq_snd h.symm; omega)

theorem cnt_fbbot_zero (ny nx : ℕ) (hnx : 2 ≤ nx) (e : ℕ × ℕ)
    (he : e.1 < ny * nx) :
    (edgeList (flat_bottom_bottom_faces ny nx)).count e = 0 := by
  rw [List.count_eq_zero]
  intro hmem
  unfold flat_bottom_bottom_faces at hmem
  have hdec := mem_family2 _ _ _ _ _ _ _ _ _ _ e
    (fun i _ j _ => edges_fbbot ny nx hnx i j) hmem
  obtain ⟨i, hi, j, hj, hc⟩ := hdec
  rcases hc with h | h | h | h | h | h <;>
    (have h1 := pair_eq_fst h.symm; omega)

theorem ekey_eq_cases {a b c d : ℕ} (h : ekey a b = ekey c d) :
    (a = c ∧ b = d) ∨ (a = d ∧ b = c) := by
  unfold ekey at h
  rw [Prod.mk.injEq] at h
  obtain ⟨h1, h2⟩ := h
  rw [Nat.min_def] at h1
  rw [Nat.max_def] at h2
  split_ifs at h1 h2 <;> omega

theorem count_faceEdges_nondeg (f : Face)
    (hne : f.1 ≠ f.2.1 ∧ f.2.1 ≠ f.2.2 ∧ f.2.2 ≠ f.1) (e : ℕ × ℕ) :
    (faceEdges f).count e = if e ∈ faceEdges f then 1 else 0 := by
  obtain ⟨h1, h2, h3⟩ := hne
  have d12 : ekey f.1 f.2.1 ≠ ekey f.2.1 f.2.2 := fun h => by
    rcases ekey_eq_cases h with ⟨ha, hb⟩ | ⟨ha, hb⟩
    · exact h1 ha
    · exact h3 ha.symm
  have d23 : ekey f.2.1 f.2.2 ≠ ekey f.2.2 f.1 := fun h => by
    rcases ekey_eq_cases h with ⟨ha, hb⟩ | ⟨ha, hb⟩
    · exact h2 ha
    · exact h1 ha.symm
  have d13 : ekey f.1 f.2.1 ≠ ekey f.2.2 f.1 := fun h => by
    rcases ekey_eq_cases h with ⟨ha, hb⟩ | ⟨ha, hb⟩
    · exact h3 ha.symm
    · exact h2 hb
  unfold faceEdges
  rw [List.count_cons, List.count_cons, List.count_cons, List.count_nil]
  simp only [beq_iff_eq, List.mem_cons, List.not_mem_nil, or_false]
  by_cases c1 : ekey f.1 f.2.1 = e <;> by_cases c2 : ekey f.2.1 f.2.2 = e <;>
    by_cases c3 : ekey f.2.2 f.1 = e
  · exact absurd (c1.trans c2.symm) d12
  · exact absurd (c1.trans c2.symm) d12
  · exact absurd (c1.trans c3.symm) d13
  · rw [if_pos c1, if_neg c2, if_neg c3, if_pos (Or.inl c1.symm)]
  · exact absurd (c2.trans c3.symm) d23
  · rw [if_neg c1, if_pos c2, if_neg c3, if_pos (Or.inr (Or.inl c2.symm))]
  · rw [if_neg c1, if_neg c2, if_pos c3, if_pos (Or.inr (Or.inr c3.symm))]
  · rw [if_neg c1, if_neg c2, if_neg c3,
      if_neg (show ¬(e = ekey f.1 f.2.1 ∨ e = ekey f.2.1 f.2.2 ∨
        e = ekey f.2.2 f.1) from fun h => by
          rcases h with h | h | h
          exacts [c1 h.symm, c2 h.symm, c3 h.symm])]

theorem sharedCount_eq_count (fs : List Face)
    (hnd : ∀ f ∈ fs, f.1 ≠ f.2.1 ∧ f.2.1 ≠ f.2.2 ∧ f.2.2 ≠ f.1) (e : ℕ × ℕ) :
    sharedCount fs e = (edgeList fs).count e := by
  induction fs with
  | nil => rfl
  | cons f fs ih =>
    have hf := hnd f (List.mem_cons_self f fs)
    have hfs := fun g hg => hnd g (List.mem_cons_of_mem f hg)
    have ih' := ih hfs
    unfold sharedCount edgeList
    unfold sharedCount edgeList at ih'
    have hc := count_faceEdges_nondeg f hf e
    simp only [List.countP_cons, List.flatMap_cons, List.count_append, ih',
      hc, decide_eq_true_eq]
    omega

theorem terrain_faces_nondeg (ny nx : ℕ) (hny : 2 ≤ ny) (hnx : 2 ≤ nx) :
    ∀ f ∈ terrain_faces ny nx, f.1 ≠ f.2.1 ∧ f.2.1 ≠ f.2.2 ∧ f.2.2 ≠ f.1 := by
  have hnn : 2 * nx ≤ ny * nx := Nat.mul_le_mul_right nx hny
  intro f hf
  obtain ⟨u, v, w⟩ := f
  show u ≠ v ∧ v ≠ w ∧ w ≠ u
  unfold terrain_faces terrain_top_faces terrain_bottom_faces
    terrain_front_faces terrain_back_faces terrain_left_faces
    terrain_right_faces at hf
  simp only [List.mem_append, List.mem_flatMap, List.mem_range,
    List.mem_cons, List.not_mem_nil, or_false] at hf
  rcases hf with ((((⟨i, hi, j, hj, hc | hc⟩ | ⟨i, hi, j, hj, hc | hc⟩) |
      ⟨j, hj, hc | hc⟩) | ⟨j, hj, hc | hc⟩) | ⟨i, hi, hc | hc⟩) |
      ⟨i, hi, hc | hc⟩ <;>
    (rw [Prod.mk.injEq, Prod.mk.injEq] at hc
     obtain ⟨e1, e2, e3⟩ := hc
     subst e1; subst e2; subst e3)
  · have hs : (i + 1) * nx = i * nx + nx := Nat.succ_mul i nx
    exact ⟨by omega, by omega, by omega⟩
  · have hs : (i + 1) * nx = i * nx + nx := Nat.succ_mul i nx
    exact ⟨by omega, by omega, by omega⟩
  · have hs : (i + 1) * nx = i * nx + nx := Nat.succ_mul i nx
    exact ⟨by omega, by omega, by omega⟩
  · have hs : (i + 1) * nx = i * nx + nx := Nat.succ_mul i nx
    exact ⟨by omega, by omega, by omega⟩
  · exact ⟨by omega, by omega, by omega⟩
  · exact ⟨by omega, by omega, by omega⟩
  · exact ⟨by omega, by omega, by omega⟩
  · exact ⟨by omega, by omega, by omega⟩
  · have hs : (i + 1) * nx = i * nx + nx := Nat.succ_mul i nx
    exact ⟨by omega, by omega, by omega⟩
  · have hs : (i + 1) * nx = i * nx + nx := Nat.succ_mul i nx
    exact ⟨by omega, by omega, by omega⟩
  · have hs : (i + 1) * nx = i * nx + nx := Nat.succ_mul i nx
    exact ⟨by omega, by omega, by omega⟩
  · have hs : (i + 1) * nx = i * nx + nx := Nat.succ_mul i nx
    exact ⟨by omega, by omega, by omega⟩

theorem flat_bottom_faces_nondeg (ny nx : ℕ) (hny : 2 ≤ ny) (hnx : 2 ≤ nx) :
    ∀ f ∈ flat_bottom_faces ny nx,
      f.1 ≠ f.2.1 ∧ f.2.1 ≠ f.2.2 ∧ f.2.2 ≠ f.1 := by
  have hnn : 2 * nx ≤ ny * nx := Nat.mul_le_mul_right nx hny
  intro f hf
  obtain ⟨u, v, w⟩ := f
  show u ≠ v ∧ v ≠ w ∧ w ≠ u
  unfold flat_bottom_faces flat_bottom_top_faces flat_bottom_bottom_faces
    terrain_front_faces terrain_back_faces terrain_left_faces
    terrain_right_faces at hf
  simp only [List.mem_append, List.mem_flatMap, List.mem_range,
    List.mem_cons, List.not_mem_nil, or_false] at hf
  rcases hf with ((((⟨i, hi, j, hj, hc | hc⟩ | ⟨i, hi, j, hj, hc | hc⟩) |
      ⟨j, hj, hc | hc⟩) | ⟨j, hj, hc | hc⟩) | ⟨i, hi, hc | hc⟩) |
      ⟨i, hi, hc | hc⟩ <;>
    (rw [Prod.mk.injEq, Prod.mk.injEq] at hc
     obtain ⟨e1, e2, e3⟩ := hc
     subst e1; subst e2; subst e3)
  · have hs : (i + 1) * nx = i * nx + nx := Nat.succ_mul i nx
    exact ⟨by omega, by omega, by omega⟩
  · have hs : (i + 1) * nx = i * nx + nx := Nat.succ_mul i nx
    exact ⟨by omega, by omega, by omega⟩
  · have hs : (i + 1) * nx = i * nx + nx := Nat.succ_mul i nx
    exact ⟨by omega, by omega, by omega⟩
  · have hs : (i + 1) * nx = i * nx + nx := Nat.succ_mul i nx
    exact ⟨by omega, by omega, by omega⟩
  · exact ⟨by omega, by omega, by omega⟩
  · exact ⟨by omega, by omega, by omega⟩
  · exact ⟨by omega, by omega, by omega⟩
  · exact ⟨by omega, by omega, by omega⟩
  · have hs : (i + 1) * nx = i * nx + nx := Nat.succ_mul i nx
    exact ⟨by omega, by omega, by omega⟩
  · have hs : (i + 1) * nx = i * nx + nx := Nat.succ_mul i nx
    exact ⟨by omega, by omega, by omega⟩
  · have hs : (i + 1) * nx = i * nx + nx := Nat.succ_mul i nx
    exact ⟨by omega, by omega, by omega⟩
  · have hs : (i + 1) * nx = i * nx + nx := Nat.succ_mul i nx
    exact ⟨by omega, by omega, by omega⟩

theorem sS_front_one (ny nx a b : ℕ) (hny : 2 ≤ ny) (hnx : 2 ≤ nx)
    (ha : a < ny) (hb : b < nx) (hc : a = 0 ∧ b < nx - 1) :
    icount (nx - 1) (fun j => (j, ny * nx + j))
      (a * nx + b, ny * nx + a * nx + b) = 1 := by
  obtain ⟨ha0, hbb⟩ := hc
  subst ha0
  refine icount_one _ _ _ b hbb ?_ ?_
  · simp only [Prod.mk.injEq]
    constructor <;> omega
  · intro j hj heq
    rw [Prod.mk.injEq] at heq
    obtain ⟨h1, h2⟩ := heq
    omega

theorem sS_front_zero (ny nx a b : ℕ) (hny : 2 ≤ ny) (hnx : 2 ≤ nx)
    (ha : a < ny) (hb : b < nx) (hc : ¬(a = 0 ∧ b < nx - 1)) :
    icount (nx - 1) (fun j => (j, ny * nx + j))
      (a * nx + b, ny * nx + a * nx + b) = 0 := by
  refine icount_zero _ _ _ (fun j hj heq => ?_)
  rw [Prod.mk.injEq] at heq
  obtain ⟨h1, h2⟩ := heq
  rcases Nat.eq_zero_or_pos a with h0 | h0
  · subst h0; omega
  · have hm1 : 1 * nx ≤ a * nx := Nat.mul_le_mul_right nx h0
    omega

theorem sS_front1_one (ny nx a b : ℕ) (hny : 2 ≤ ny) (hnx : 2 ≤ nx)
    (ha : a < ny) (hb : b < nx) (hc : a = 0 ∧ 1 ≤ b) :
    icount (nx - 1) (fun j => (j + 1, ny * nx + j + 1))
      (a * nx + b, ny * nx + a * nx + b) = 1 := by
  obtain ⟨ha0, hb1⟩ := hc
  subst ha0
  refine icount_one _ _ _ (b - 1) (by omega) ?_ ?_
  · simp only [Prod.mk.injEq]
    constructor <;> omega
  · intro j hj heq
    rw [Prod.mk.injEq] at heq
    obtain ⟨h1, h2⟩ := heq
    omega

theorem sS_front1_zero (ny nx a b : ℕ) (hny : 2 ≤ ny) (hnx : 2 ≤ nx)
    (ha : a < ny) (hb : b < nx) (hc : ¬(a = 0 ∧ 1 ≤ b)) :
    icount (nx - 1) (fun j => (j + 1, ny * nx + j + 1))
      (a * nx + b, ny * nx + a * nx + b) = 0 := by
  refine icount_zero _ _ _ (fun j hj heq => ?_)
  rw [Prod.mk.injEq] at heq
  obtain ⟨h1, h2⟩ := heq
  rcases Nat.eq_zero_or_pos a with h0 | h0
  · subst h0; omega
  · have hm1 : 1 * nx ≤ a * nx := Nat.mul_le_mul_right nx h0
    omega

theorem sS_back_one (ny nx a b : ℕ) (hny : 2 ≤ ny) (hnx : 2 ≤ nx)
    (ha : a < ny) (hb : b < nx) (hc : a = ny - 1 ∧ b < nx - 1) :
    icount (nx - 1)
      (fun j => ((ny - 1) * nx + j, ny * nx + (ny - 1) * nx + j))
      (a * nx + b, ny * nx + a * nx + b) = 1 := by
  obtain ⟨haT, hbb⟩ := hc
  subst haT
  exact icount_one _ _ _ b hbb rfl (fun j hj heq => by
    rw [Prod.mk.injEq] at heq
    obtain ⟨h1, h2⟩ := heq
    omega)

theorem sS_back_zero (ny nx a b : ℕ) (hny : 2 ≤ ny) (hnx : 2 ≤ nx)
    (ha : a < ny) (hb : b < nx) (hc : ¬(a = ny - 1 ∧ b < nx - 1)) :
    icount (nx - 1)
      (fun j => ((ny - 1) * nx + j, ny * nx + (ny - 1) * nx + j))
      (a * nx + b, ny * nx + a * nx + b) = 0 := by
  refine icount_zero _ _ _ (fun j hj heq => ?_)
  rw [Prod.mk.injEq] at heq
  obtain ⟨h1, h2⟩ := heq
  obtain ⟨hh1, hh2⟩ := encode_inj (show j < nx by omega) hb h1
  omega

theorem sS_back1_one (ny nx a b : ℕ) (hny : 2 ≤ ny) (hnx : 2 ≤ nx)
    (ha : a < ny) (hb : b < nx) (hc : a = ny - 1 ∧ 1 ≤ b) :
    icount (nx - 1)
      (fun j => ((ny - 1) * nx + j + 1, ny * nx + (ny - 1) * nx + j + 1))
      (a * nx + b, ny * nx + a * nx + b) = 1 := by
  obtain ⟨haT, hb1⟩ := hc
  subst haT
  refine icount_one _ _ _ (b - 1) (by omega) ?_ ?_
  · simp only [Prod.mk.injEq]
    constructor <;> omega
  · intro j hj heq
    rw [Prod.mk.injEq] at heq
    obtain ⟨h1, h2⟩ := heq
    omega

theorem sS_back1_zero (ny nx a b : ℕ) (hny : 2 ≤ ny) (hnx : 2 ≤ nx)
    (ha : a < ny) (hb : b < nx) (hc : ¬(a = ny - 1 ∧ 1 ≤ b)) :
    icount (nx - 1)
      (fun j => ((ny - 1) * nx + j + 1, ny * nx + (ny - 1) * nx + j + 1))
      (a * nx + b, ny * nx + a * nx + b) = 0 := by
  refine icount_zero _ _ _ (fun j hj heq => ?_)
  rw [Prod.mk.injEq] at heq
  obtain ⟨h1, h2⟩ := heq
  have h3 : (ny - 1) * nx + (j + 1) = a * nx + b := by omega
  obtain ⟨hh1, hh2⟩ := encode_inj (show j + 1 < nx by omega) hb h3
  omega

theorem sS_left_one (ny nx a b : ℕ) (hny : 2 ≤ ny) (hnx : 2 ≤ nx)
    (ha : a < ny) (hb : b < nx) (hc : b = 0 ∧ a < ny - 1) :
    icount (ny - 1) (fun i => (i * nx, ny * nx + i * nx))
      (a * nx + b, ny * nx + a * nx + b) = 1 := by
  obtain ⟨hb0, haa⟩ := hc
  subst hb0
  refine icount_one _ _ _ a haa ?_ ?_
  · simp only [Prod.mk.injEq]
    constructor <;> omega
  · intro i hi heq
    rw [Prod.mk.injEq] at heq
    obtain ⟨h1, h2⟩ := heq
    have h3 : i * nx + 0 = a * nx + 0 := by omega
    obtain ⟨hh1, hh2⟩ := encode_inj (show 0 < nx by omega)
      (show 0 < nx by omega) h3
    omega

theorem sS_left_zero (ny nx a b : ℕ) (hny : 2 ≤ ny) (hnx : 2 ≤ nx)
    (ha : a < ny) (hb : b < nx) (hc : ¬(b = 0 ∧ a < ny - 1)) :
    icount (ny - 1) (fun i => (i * nx, ny * nx + i * nx))
      (a * nx + b, ny * nx + a * nx + b) = 0 := by
  refine icount_zero _ _ _ (fun i hi heq => ?_)
  rw [Prod.mk.injEq] at heq
  obtain ⟨h1, h2⟩ := heq
  have h3 : i * nx + 0 = a * nx + b := by omega
  obtain ⟨hh1, hh2⟩ := encode_inj (show 0 < nx by omega) hb h3
  omega

theorem sS_left1_one (ny nx a b : ℕ) (hny : 2 ≤ ny) (hnx : 2 ≤ nx)
    (ha : a < ny) (hb : b < nx) (hc : b = 0 ∧ 1 ≤ a) :
    icount (ny - 1) (fun i => (i * nx + nx, ny * nx + i * nx + nx))
      (a * nx + b, ny * nx + a * nx + b) = 1 := by
  obtain ⟨hb0, ha1⟩ := hc
  subst hb0
  have hsa : (a - 1) * nx + nx = a * nx := htN_eq a nx ha1
  refine icount_one _ _ _ (a - 1) (by omega) ?_ ?_
  · simp only [Prod.mk.injEq]
    constructor <;> omega
  · intro i hi heq
    rw [Prod.mk.injEq] at heq
    obtain ⟨h1, h2⟩ := heq
    have hs : (i + 1) * nx = i * nx + nx := Nat.succ_mul i nx
    have h3 : (i + 1) * nx + 0 = a * nx + 0 := by omega
    obtain ⟨hh1, hh2⟩ := encode_inj (show 0 < nx by omega)
      (show 0 < nx by omega) h3
    omega

theorem sS_left1_zero (ny nx a b : ℕ) (hny : 2 ≤ ny) (hnx : 2 ≤ nx)
    (ha : a < ny) (hb : b < nx) (hc : ¬(b = 0 ∧ 1 ≤ a)) :
    icount (ny - 1) (fun i => (i * nx + nx, ny * nx + i * nx + nx))
      (a * nx + b, ny * nx + a * nx + b) = 0 := by
  refine icount_zero _ _ _ (fun i hi heq => ?_)
  rw [Prod.mk.injEq] at heq
  obtain ⟨h1, h2⟩ := heq
  have hs : (i + 1) * nx = i * nx + nx := Nat.succ_mul i nx
  have h3 : (i + 1) * nx + 0 = a * nx + b := by omega
  obtain ⟨hh1, hh2⟩ := encode_inj (show 0 < nx by omega) hb h3
  omega

theorem sS_right_one (ny nx a b : ℕ) (hny : 2 ≤ ny) (hnx : 2 ≤ nx)
    (ha : a < ny) (hb : b < nx) (hc : b = nx - 1 ∧ a < ny - 1) :
    icount (ny - 1)
      (fun i => (i * nx + nx - 1, ny * nx + i * nx + nx - 1))
      (a * nx + b, ny * nx + a * nx + b) = 1 := by
  obtain ⟨hbR, haa⟩ := hc
  subst hbR
  refine icount_one _ _ _ a haa ?_ ?_
  · simp only [Prod.mk.injEq]
    constructor <;> omega
  · intro i hi heq
    rw [Prod.mk.injEq] at heq
    obtain ⟨h1, h2⟩ := heq
    have h3 : i * nx + (nx - 1) = a * nx + (nx - 1) := by omega
    obtain ⟨hh1, hh2⟩ := encode_inj (show nx - 1 < nx by omega)
      (show nx - 1 < nx by omega) h3
    omega

theorem sS_right_zero (ny nx a b : ℕ) (hny : 2 ≤ ny) (hnx : 2 ≤ nx)
    (ha : a < ny) (hb : b < nx) (hc : ¬(b = nx - 1 ∧ a < ny - 1)) :
    icount (ny - 1)
      (fun i => (i * nx + nx - 1, ny * nx + i * nx + nx - 1))
      (a * nx + b, ny * nx + a * nx + b) = 0 := by
  refine icount_zero _ _ _ (fun i hi heq => ?_)
  rw [Prod.mk.injEq] at heq
  obtain ⟨h1, h2⟩ := heq
  have h3 : i * nx + (nx - 1) = a * nx + b := by omega
  obtain ⟨hh1, hh2⟩ := encode_inj (show nx - 1 < nx by omega) hb h3
  omega

theorem sS_right1_one (ny nx a b : ℕ) (hny : 2 ≤ ny) (hnx : 2 ≤ nx)
    (ha : a < ny) (hb : b < nx) (hc : b = nx - 1 ∧ 1 ≤ a) :
    icount (ny - 1)
      (fun i => (i * nx + nx + nx - 1, ny * nx + i * nx + nx + nx - 1))
      (a * nx + b, ny * nx + a * nx + b) = 1 := by
  obtain ⟨hbR, ha1⟩ := hc
  subst hbR
  have hsa : (a - 1) * nx + nx = a * nx := htN_eq a nx ha1
  refine icount_one _ _ _ (a - 1) (by omega) ?_ ?_
  · simp only [Prod.mk.injEq]
    constructor <;> omega
  · intro i hi heq
    rw [Prod.mk.injEq] at heq
    obtain ⟨h1, h2⟩ := heq
    have hs : (i + 1) * nx = i * nx + nx := Nat.succ_mul i nx
    have h3 : (i + 1) * nx + (nx - 1) = a * nx + (nx - 1) := by omega
    obtain ⟨hh1, hh2⟩ := encode_inj (show nx - 1 < nx by omega)
      (show nx - 1 < nx by omega) h3
    omega

theorem sS_right1_zero (ny nx a b : ℕ) (hny : 2 ≤ ny) (hnx : 2 ≤ nx)
    (ha : a < ny) (hb : b < nx) (hc : ¬(b = nx - 1 ∧ 1 ≤ a)) :
    icount (ny - 1)
      (fun i => (i * nx + nx + nx - 1, ny * nx + i * nx + nx + nx - 1))
      (a * nx + b, ny * nx + a * nx + b) = 0 := by
  refine icount_zero _ _ _ (fun i hi heq => ?_)
  rw [Prod.mk.injEq] at heq
  obtain ⟨h1, h2⟩ := heq
  have hs : (i + 1) * nx = i * nx + nx := Nat.succ_mul i nx
  have h3 : (i + 1) * nx + (nx - 1) = a * nx + b := by omega
  obtain ⟨hh1, hh2⟩ := encode_inj (show nx - 1 < nx by omega) hb h3
  omega

theorem sS_frontFD_zero (ny nx a b : ℕ) (hnx : 2 ≤ nx) :
    icount (nx - 1) (fun j => (j + 1, ny * nx + j))
      (a * nx + b, ny * nx + a * nx + b) = 0 := by
  refine icount_zero _ _ _ (fun j hj heq => ?_)
  rw [Prod.mk.injEq] at heq
  obtain ⟨h1, h2⟩ := heq
  omega

theorem sS_backBD_zero (ny nx a b : ℕ) (hnx : 2 ≤ nx) :
    icount (nx - 1)
      (fun j => ((ny - 1) * nx + j + 1, ny * nx + (ny - 1) * nx + j))
      (a * nx + b, ny * nx + a * nx + b) = 0 := by
  refine icount_zero _ _ _ (fun j hj heq => ?_)
  rw [Prod.mk.injEq] at heq
  obtain ⟨h1, h2⟩ := heq
  omega

theorem sS_leftLD_zero (ny nx a b : ℕ) (hnx : 2 ≤ nx) :
    icount (ny - 1) (fun i => (i * nx + nx, ny * nx + i * nx))
      (a * nx + b, ny * nx + a * nx + b) = 0 := by
  refine icount_zero _ _ _ (fun i hi heq => ?_)
  rw [Prod.mk.injEq] at heq
  obtain ⟨h1, h2⟩ := heq
  omega

theorem sS_rightRD_zero (ny nx a b : ℕ) (hnx : 2 ≤ nx) :
    icount (ny - 1)
      (fun i => (i * nx + nx + nx - 1, ny * nx + i * nx + nx - 1))
      (a * nx + b, ny * nx + a * nx + b) = 0 := by
  refine icount_zero _ _ _ (fun i hi heq => ?_)
  rw [Prod.mk.injEq] at heq
  obtain ⟨h1, h2⟩ := heq
  omega

theorem skirt_count_S (ny nx a b : ℕ) (hny : 2 ≤ ny) (hnx : 2 ≤ nx)
    (ha : a < ny) (hb : b < nx)
    (hbd : a = 0 ∨ a = ny - 1 ∨ b = 0 ∨ b = nx - 1) :
    (edgeList (terrain_front_faces ny nx)).count
        (a * nx + b, ny * nx + a * nx + b) +
      (edgeList (terrain_back_faces ny nx)).count
        (a * nx + b, ny * nx + a * nx + b) +
      (edgeList (terrain_left_faces ny nx)).count
        (a * nx + b, ny * nx + a * nx + b) +
      (edgeList (terrain_right_faces ny nx)).count
        (a * nx + b, ny * nx + a * nx + b) = 2 := by
  have hmA := mul_succ_le nx ha
  rw [cnt_front_mid ny nx hny hnx (a * nx + b, ny * nx + a * nx + b)
      (by show a * nx + b < ny * nx; omega)
      (by show ny * nx ≤ ny * nx + a * nx + b; omega),
    cnt_back_mid ny nx hny hnx (a * nx + b, ny * nx + a * nx + b)
      (by show a * nx + b < ny * nx; omega)
      (by show ny * nx ≤ ny * nx + a * nx + b; omega),
    cnt_left_mid ny nx hny hnx (a * nx + b, ny * nx + a * nx + b)
      (by show a * nx + b < ny * nx; omega)
      (by show ny * nx ≤ ny * nx + a * nx + b; omega),
    cnt_right_mid ny nx hny hnx (a * nx + b, ny * nx + a * nx + b)
      (by show a * nx + b < ny * nx; omega)
      (by show ny * nx ≤ ny * nx + a * nx + b; omega)]
  have z1 := sS_frontFD_zero ny nx a b hnx
  have z2 := sS_backBD_zero ny nx a b hnx
  have z3 := sS_leftLD_zero ny nx a b hnx
  have z4 := sS_rightRD_zero ny nx a b hnx
  by_cases ha0 : a = 0
  · by_cases hb0 : b = 0
    · have v1 := sS_front_one ny nx a b hny hnx ha hb (by omega)
      have v2 := sS_front1_zero ny nx a b hny hnx ha hb (by omega)
      have v3 := sS_back_zero ny nx a b hny hnx ha hb (by omega)
      have v4 := sS_back1_zero ny nx a b hny hnx ha hb (by omega)
      have v5 := sS_left_one ny nx a b hny hnx ha hb (by omega)
      have v6 := sS_left1_zero ny nx a b hny hnx ha hb (by omega)
      have v7 := sS_right_zero ny nx a b hny hnx ha hb (by omega)
      have v8 := sS_right1_zero ny nx a b hny hnx ha hb (by omega)
      omega
    · by_cases hbR : b = nx - 1
      · have v1 := sS_front_zero ny nx a b hny hnx ha hb (by omega)
        have v2 := sS_front1_one ny nx a b hny hnx ha hb (by omega)
        have v3 := sS_back_zero ny nx a b hny hnx ha hb (by omega)
        have v4 := sS_back1_zero ny nx a b hny hnx ha hb (by omega)
        have v5 := sS_left_zero ny nx a b hny hnx ha hb (by omega)
        have v6 := sS_left1_zero ny nx a b hny hnx ha hb (by omega)
        have v7 := sS_right_one ny nx a b hny hnx ha hb (by omega)
        have v8 := sS_right1_zero ny nx a b hny hnx ha hb (by omega)
        omega
      · have v1 := sS_front_one ny nx a b hny hnx ha hb (by omega)
        have v2 := sS_front1_one ny nx a b hny hnx ha hb (by omega)
        have v3 := sS_back_zero ny nx a b hny hnx ha hb (by omega)
        have v4 := sS_back1_zero ny nx a b hny hnx ha hb (by omega)
        have v5 := sS_left_zero ny nx a b hny hnx ha hb (by omega)
        have v6 := sS_left1_zero ny nx a b hny hnx ha hb (by omega)
        have v7 := sS_right_zero ny nx a b hny hnx ha hb (by omega)
        have v8 := sS_right1_zero ny nx a b hny hnx ha hb (by omega)
        omega
  · by_cases haT : a = ny - 1
    · by_cases hb0 : b = 0
      · have v1 := sS_front_zero ny nx a b hny hnx ha hb (by omega)
        have v2 := sS_front1_zero ny nx a b hny hnx ha hb (by omega)
        have v3 := sS_back_one ny nx a b hny hnx ha hb (by omega)
        have v4 := sS_back1_zero ny nx a b hny hnx ha hb (by omega)
        have v5 := sS_left_zero ny nx a b hny hnx ha hb (by omega)
        have v6 := sS_left1_one ny nx a b hny hnx ha hb (by omega)
        have v7 := sS_right_zero ny nx a b hny hnx ha hb (by omega)
        have v8 := sS_right1_zero ny nx a b hny hnx ha hb (by omega)
        omega
      · by_cases hbR : b = nx - 1
        · have v1 := sS_front_zero ny nx a b hny hnx ha hb (by omega)
          have v2 := sS_front1_zero ny nx a b hny hnx ha hb (by omega)
          have v3 := sS_back_zero ny nx a b hny hnx ha hb (by omega)
          have v4 := sS_back1_one ny nx a b hny hnx ha hb (by omega)
          have v5 := sS_left_zero ny nx a b hny hnx ha hb (by omega)
          have v6 := sS_left1_zero ny nx a b hny hnx ha hb (by omega)
          have v7 := sS_right_zero ny nx a b hny hnx ha hb (by omega)
          have v8 := sS_right1_one ny nx a b hny hnx ha hb (by omega)
          omega
        · have v1 := sS_front_zero ny nx a b hny hnx ha hb (by omega)
          have v2 := sS_front1_zero ny nx a b hny hnx ha hb (by omega)
          have v3 := sS_back_one ny nx a b hny hnx ha hb (by omega)
          have v4 := sS_back1_one ny nx a b hny hnx ha hb (by omega)
          have v5 := sS_left_zero ny nx a b hny hnx ha hb (by omega)
          have v6 := sS_left1_zero ny nx a b hny hnx ha hb (by omega)
          have v7 := sS_right_zero ny nx a b hny hnx ha hb (by omega)
          have v8 := sS_right1_zero ny nx a b hny hnx ha hb (by omega)
          omega
    · have hb' : b = 0 ∨ b = nx - 1 := by omega
      rcases hb' with hb0 | hbR
      · have v1 := sS_front_zero ny nx a b hny hnx ha hb (by omega)
        have v2 := sS_front1_zero ny nx a b hny hnx ha hb (by omega)
        have v3 := sS_back_zero ny nx a b hny hnx ha hb (by omega)
        have v4 := sS_back1_zero ny nx a b hny hnx ha hb (by omega)
        have v5 := sS_left_one ny nx a b hny hnx ha hb (by omega)
        have v6 := sS_left1_one ny nx a b hny hnx ha hb (by omega)
        have v7 := sS_right_zero ny nx a b hny hnx ha hb (by omega)
        have v8 := sS_right1_zero ny nx a b hny hnx ha hb (by omega)
        omega
      · have v1 := sS_front_zero ny nx a b hny hnx ha hb (by omega)
        have v2 := sS_front1_zero ny nx a b hny hnx ha hb (by omega)
        have v3 := sS_back_zero ny nx a b hny hnx ha hb (by omega)
        have v4 := sS_back1_zero ny nx a b hny hnx ha hb (by omega)
        have v5 := sS_left_zero ny nx a b hny hnx ha hb (by omega)
        have v6 := sS_left1_zero ny nx a b hny hnx ha hb (by omega)
        have v7 := sS_right_one ny nx a b hny hnx ha hb (by omega)
        have v8 := sS_right1_one ny nx a b hny hnx ha hb (by omega)
        omega

theorem skirt_count_FD (ny nx b : ℕ) (hny : 2 ≤ ny) (hnx : 2 ≤ nx)
    (hb : b < nx - 1) :
    (edgeList (terrain_front_faces ny nx)).count (b + 1, ny * nx + b) +
      (edgeList (terrain_back_faces ny nx)).count (b + 1, ny * nx + b) +
      (edgeList (terrain_left_faces ny nx)).count (b + 1, ny * nx + b) +
      (edgeList (terrain_right_faces ny nx)).count (b + 1, ny * nx + b) = 2
    := by
  have hnn : 2 * nx ≤ ny * nx := Nat.mul_le_mul_right nx hny
  have hm1 : 1 * nx ≤ (ny - 1) * nx := Nat.mul_le_mul_right nx (by omega)
  rw [cnt_front_mid ny nx hny hnx (b + 1, ny * nx + b)
      (by show b + 1 < ny * nx; omega)
      (by show ny * nx ≤ ny * nx + b; omega),
    cnt_back_mid ny nx hny hnx (b + 1, ny * nx + b)
      (by show b + 1 < ny * nx; omega)
      (by show ny * nx ≤ ny * nx + b; omega),
    cnt_left_mid ny nx hny hnx (b + 1, ny * nx + b)
      (by show b + 1 < ny * nx; omega)
      (by show ny * nx ≤ ny * nx + b; omega),
    cnt_right_mid ny nx hny hnx (b + 1, ny * nx + b)
      (by show b + 1 < ny * nx; omega)
      (by show ny * nx ≤ ny * nx + b; omega)]
  have v1 : icount (nx - 1) (fun j => (j, ny * nx + j))
      (b + 1, ny * nx + b) = 0 :=
    icount_zero _ _ _ (fun j hj heq => by
      rw [Prod.mk.injEq] at heq; obtain ⟨h1, h2⟩ := heq; omega)
  have v2 : icount (nx - 1) (fun j => (j + 1, ny * nx + j))
      (b + 1, ny * nx + b) = 1 :=
    icount_one _ _ _ b hb rfl (fun j hj heq => by
      rw [Prod.mk.injEq] at heq; obtain ⟨h1, h2⟩ := heq; omega)
  have v3 : icount (nx - 1) (fun j => (j + 1, ny * nx + j + 1))
      (b + 1, ny * nx + b) = 0 :=
    icount_zero _ _ _ (fun j hj heq => by
      rw [Prod.mk.injEq] at heq; obtain ⟨h1, h2⟩ := heq; omega)
  have v4 : icount (nx - 1)
      (fun j => ((ny - 1) * nx + j + 1, ny * nx + (ny - 1) * nx + j))
      (b + 1, ny * nx + b) = 0 :=
    icount_zero _ _ _ (fun j hj heq => by
      rw [Prod.mk.injEq] at heq; obtain ⟨h1, h2⟩ := heq; omega)
  have v5 : icount (nx - 1)
      (fun j => ((ny - 1) * nx + j, ny * nx + (ny - 1) * nx + j))
      (b + 1, ny * nx + b) = 0 :=
    icount_zero _ _ _ (fun j hj heq => by
      rw [Prod.mk.injEq] at heq; obtain ⟨h1, h2⟩ := heq; omega)
  have v6 : icount (nx - 1)
      (fun j => ((ny - 1) * nx + j + 1, ny * nx + (ny - 1) * nx + j + 1))
      (b + 1, ny * nx + b) = 0 :=
    icount_zero _ _ _ (fun j hj heq => by
      rw [Prod.mk.injEq] at heq; obtain ⟨h1, h2⟩ := heq; omega)
  have v7 : icount (ny - 1) (fun i => (i * nx + nx, ny * nx + i * nx))
      (b + 1, ny * nx + b) = 0 :=
    icount_zero _ _ _ (fun i hi heq => by
      rw [Prod.mk.injEq] at heq; obtain ⟨h1, h2⟩ := heq; omega)
  have v8 : icount (ny - 1) (fun i => (i * nx, ny * nx + i * nx))
      (b + 1, ny * nx + b) = 0 :=
    icount_zero _ _ _ (fun i hi heq => by
      rw [Prod.mk.injEq] at heq; obtain ⟨h1, h2⟩ := heq; omega)
  have v9 : icount (ny - 1)
      (fun i => (i * nx + nx, ny * nx + i * nx + nx)) (b + 1, ny * nx + b)
      = 0 :=
    icount_zero _ _ _ (fun i hi heq => by
      rw [Prod.mk.injEq] at heq; obtain ⟨h1, h2⟩ := heq; omega)
  have v10 : icount (ny - 1)
      (fun i => (i * nx + nx - 1, ny * nx + i * nx + nx - 1))
      (b + 1, ny * nx + b) = 0 :=
    icount_zero _ _ _ (fun i hi heq => by
      rw [Prod.mk.injEq] at heq; obtain ⟨h1, h2⟩ := heq; omega)
  have v11 : icount (ny - 1)
      (fun i => (i * nx + nx + nx - 1, ny * nx + i * nx + nx - 1))
      (b + 1, ny * nx + b) = 0 :=
    icount_zero _ _ _ (fun i hi heq => by
      rw [Prod.mk.injEq] at heq; obtain ⟨h1, h2⟩ := heq; omega)
  have v12 : icount (ny - 1)
      (fun i => (i * nx + nx + nx - 1, ny * nx + i * nx + nx + nx - 1))
      (b + 1, ny * nx + b) = 0 :=
    icount_zero _ _ _ (fun i hi heq => by
      rw [Prod.mk.injEq] at heq; obtain ⟨h1, h2⟩ := heq; omega)
  omega

theorem skirt_count_BD (ny nx b : ℕ) (hny : 2 ≤ ny) (hnx : 2 ≤ nx)
    (hb : b < nx - 1) :
    (edgeList (terrain_front_faces ny nx)).count
        ((ny - 1) * nx + b + 1, ny * nx + (ny - 1) * nx + b) +
      (edgeList (terrain_back_faces ny nx)).count
        ((ny - 1) * nx + b + 1, ny * nx + (ny - 1) * nx + b) +
      (edgeList (terrain_left_faces ny nx)).count
        ((ny - 1) * nx + b + 1, ny * nx + (ny - 1) * nx + b) +
      (edgeList (terrain_right_faces ny nx)).count
        ((ny - 1) * nx + b + 1, ny * nx + (ny - 1) * nx + b) = 2 := by
  have hnn : 2 * nx ≤ ny * nx := Nat.mul_le_mul_right nx hny
  have hm1 : 1 * nx ≤ (ny - 1) * nx := Nat.mul_le_mul_right nx (by omega)
  have htN : (ny - 1) * nx + nx = ny * nx := htN_eq ny nx (by omega)
  rw [cnt_front_mid ny nx hny hnx
      ((ny - 1) * nx + b + 1, ny * nx + (ny - 1) * nx + b)
      (by show (ny - 1) * nx + b + 1 < ny * nx; omega)
      (by show ny * nx ≤ ny * nx + (ny - 1) * nx + b; omega),
    cnt_back_mid ny nx hny hnx
      ((ny - 1) * nx + b + 1, ny * nx + (ny - 1) * nx + b)
      (by show (ny - 1) * nx + b + 1 < ny * nx; omega)
      (by show ny * nx ≤ ny * nx + (ny - 1) * nx + b; omega),
    cnt_left_mid ny nx hny hnx
      ((ny - 1) * nx + b + 1, ny * nx + (ny - 1) * nx + b)
      (by show (ny - 1) * nx + b + 1 < ny * nx; omega)
      (by show ny * nx ≤ ny * nx + (ny - 1) * nx + b; omega),
    cnt_right_mid ny nx hny hnx
      ((ny - 1) * nx + b + 1, ny * nx + (ny - 1) * nx + b)
      (by show (ny - 1) * nx + b + 1 < ny * nx; omega)
      (by show ny * nx ≤ ny * nx + (ny - 1) * nx + b; omega)]
  have v1 : icount (nx - 1) (fun j => (j, ny * nx + j))
      ((ny - 1) * nx + b + 1, ny * nx + (ny - 1) * nx + b) = 0 :=
    icount_zero _ _ _ (fun j hj heq => by
      rw [Prod.mk.injEq] at heq; obtain ⟨h1, h2⟩ := heq; omega)
  have v2 : icount (nx - 1) (fun j => (j + 1, ny * nx + j))
      ((ny - 1) * nx + b + 1, ny * nx + (ny - 1) * nx + b) = 0 :=
    icount_zero _ _ _ (fun j hj heq => by
      rw [Prod.mk.injEq] at heq; obtain ⟨h1, h2⟩ := heq; omega)
  have v3 : icount (nx - 1) (fun j => (j + 1, ny * nx + j + 1))
      ((ny - 1) * nx + b + 1, ny * nx + (ny - 1) * nx + b) = 0 :=
    icount_zero _ _ _ (fun j hj heq => by
      rw [Prod.mk.injEq] at heq; obtain ⟨h1, h2⟩ := heq; omega)
  have v4 : icount (nx - 1)
      (fun j => ((ny - 1) * nx + j + 1, ny * nx + (ny - 1) * nx + j))
      ((ny - 1) * nx + b + 1, ny * nx + (ny - 1) * nx + b) = 1 :=
    icount_one _ _ _ b hb rfl (fun j hj heq => by
      rw [Prod.mk.injEq] at heq; obtain ⟨h1, h2⟩ := heq; omega)
  have v5 : icount (nx - 1)
      (fun j => ((ny - 1) * nx + j, ny * nx + (ny - 1) * nx + j))
      ((ny - 1) * nx + b + 1, ny * nx + (ny - 1) * nx + b) = 0 :=
    icount_zero _ _ _ (fun j hj heq => by
      rw [Prod.mk.injEq] at heq; obtain ⟨h1, h2⟩ := heq; omega)
  have v6 : icount (nx - 1)
      (fun j => ((ny - 1) * nx + j + 1, ny * nx + (ny - 1) * nx + j + 1))
      ((ny - 1) * nx + b + 1, ny * nx + (ny - 1) * nx + b) = 0 :=
    icount_zero _ _ _ (fun j hj heq => by
      rw [Prod.mk.injEq] at heq; obtain ⟨h1, h2⟩ := heq; omega)
  have v7 : icount (ny - 1) (fun i => (i * nx + nx, ny * nx + i * nx))
      ((ny - 1) * nx + b + 1, ny * nx + (ny - 1) * nx + b) = 0 :=
    icount_zero _ _ _ (fun i hi heq => by
      rw [Prod.mk.injEq] at heq; obtain ⟨h1, h2⟩ := heq; omega)
  have v8 : icount (ny - 1) (fun i => (i * nx, ny * nx + i * nx))
      ((ny - 1) * nx + b + 1, ny * nx + (ny - 1) * nx + b) = 0 :=
    icount_zero _ _ _ (fun i hi heq => by
      rw [Prod.mk.injEq] at heq; obtain ⟨h1, h2⟩ := heq; omega)
  have v9 : icount (ny - 1)
      (fun i => (i * nx + nx, ny * nx + i * nx + nx))
      ((ny - 1) * nx + b + 1, ny * nx + (ny - 1) * nx + b) = 0 :=
    icount_zero _ _ _ (fun i hi heq => by
      rw [Prod.mk.injEq] at heq; obtain ⟨h1, h2⟩ := heq; omega)
  have v10 : icount (ny - 1)
      (fun i => (i * nx + nx - 1, ny * nx + i * nx + nx - 1))
      ((ny - 1) * nx + b + 1, ny * nx + (ny - 1) * nx + b) = 0 :=
    icount_zero _ _ _ (fun i hi heq => by
      rw [Prod.mk.injEq] at heq; obtain ⟨h1, h2⟩ := heq; omega)
  have v11 : icount (ny - 1)
      (fun i => (i * nx + nx + nx - 1, ny * nx + i * nx + nx - 1))
      ((ny - 1) * nx + b + 1, ny * nx + (ny - 1) * nx + b) = 0 :=
    icount_zero _ _ _ (fun i hi heq => by
      rw [Prod.mk.injEq] at heq; obtain ⟨h1, h2⟩ := heq; omega)
  have v12 : icount (ny - 1)
      (fun i => (i * nx + nx + nx - 1, ny * nx + i * nx + nx + nx - 1))
      ((ny - 1) * nx + b + 1, ny * nx + (ny - 1) * nx + b) = 0 :=
    icount_zero _ _ _ (fun i hi heq => by
      rw [Prod.mk.injEq] at heq; obtain ⟨h1, h2⟩ := heq; omega)
  omega

theorem skirt_count_LD (ny nx a : ℕ) (hny : 2 ≤ ny) (hnx : 2 ≤ nx)
    (haa : a < ny - 1) :
    (edgeList (terrain_front_faces ny nx)).count
        (a * nx + nx, ny * nx + a * nx) +
      (edgeList (terrain_back_faces ny nx)).count
        (a * nx + nx, ny * nx + a * nx) +
      (edgeList (terrain_left_faces ny nx)).count
        (a * nx + nx, ny * nx + a * nx) +
      (edgeList (terrain_right_faces ny nx)).count
        (a * nx + nx, ny * nx + a * nx) = 2 := by
  have hnn : 2 * nx ≤ ny * nx := Nat.mul_le_mul_right nx hny
  have hmA := mul_succ_le nx haa
  have htN : (ny - 1) * nx + nx = ny * nx := htN_eq ny nx (by omega)
  rw [cnt_front_mid ny nx hny hnx (a * nx + nx, ny * nx + a * nx)
      (by show a * nx + nx < ny * nx; omega)
      (by show ny * nx ≤ ny * nx + a * nx; omega),
    cnt_back_mid ny nx hny hnx (a * nx + nx, ny * nx + a * nx)
      (by show a * nx + nx < ny * nx; omega)
      (by show ny * nx ≤ ny * nx + a * nx; omega),
    cnt_left_mid ny nx hny hnx (a * nx + nx, ny * nx + a * nx)
      (by show a * nx + nx < ny * nx; omega)
      (by show ny * nx ≤ ny * nx + a * nx; omega),
    cnt_right_mid ny nx hny hnx (a * nx + nx, ny * nx + a * nx)
      (by show a * nx + nx < ny * nx; omega)
      (by show ny * nx ≤ ny * nx + a * nx; omega)]
  have v1 : icount (nx - 1) (fun j => (j, ny * nx + j))
      (a * nx + nx, ny * nx + a * nx) = 0 :=
    icount_zero _ _ _ (fun j hj heq => by
      rw [Prod.mk.injEq] at heq; obtain ⟨h1, h2⟩ := heq; omega)
  have v2 : icount (nx - 1) (fun j => (j + 1, ny * nx + j))
      (a * nx + nx, ny * nx + a * nx) = 0 :=
    icount_zero _ _ _ (fun j hj heq => by
      rw [Prod.mk.injEq] at heq; obtain ⟨h1, h2⟩ := heq; omega)
  have v3 : icount (nx - 1) (fun j => (j + 1, ny * nx + j + 1))
      (a * nx + nx, ny * nx + a * nx) = 0 :=
    icount_zero _ _ _ (fun j hj heq => by
      rw [Prod.mk.injEq] at heq; obtain ⟨h1, h2⟩ := heq; omega)
  have v4 : icount (nx - 1)
      (fun j => ((ny - 1) * nx + j + 1, ny * nx + (ny - 1) * nx + j))
      (a * nx + nx, ny * nx + a * nx) = 0 :=
    icount_zero _ _ _ (fun j hj heq => by
      rw [Prod.mk.injEq] at heq; obtain ⟨h1, h2⟩ := heq; omega)
  have v5 : icount (nx - 1)
      (fun j => ((ny - 1) * nx + j, ny * nx + (ny - 1) * nx + j))
      (a * nx + nx, ny * nx + a * nx) = 0 :=
    icount_zero _ _ _ (fun j hj heq => by
      rw [Prod.mk.injEq] at heq; obtain ⟨h1, h2⟩ := heq; omega)
  have v6 : icount (nx - 1)
      (fun j => ((ny - 1) * nx + j + 1, ny * nx + (ny - 1) * nx + j + 1))
      (a * nx + nx, ny * nx + a * nx) = 0 :=
    icount_zero _ _ _ (fun j hj heq => by
      rw [Prod.mk.injEq] at heq; obtain ⟨h1, h2⟩ := heq; omega)
  have v7 : icount (ny - 1) (fun i => (i * nx + nx, ny * nx + i * nx))
      (a * nx + nx, ny * nx + a * nx) = 1 :=
    icount_one _ _ _ a haa rfl (fun i hi heq => by
      rw [Prod.mk.injEq] at heq
      obtain ⟨h1, h2⟩ := heq
      have h3 : i * nx + 0 = a * nx + 0 := by omega
      obtain ⟨hh1, hh2⟩ := encode_inj (show 0 < nx by omega)
        (show 0 < nx by omega) h3
      omega)
  have v8 : icount (ny - 1) (fun i => (i * nx, ny * nx + i * nx))
      (a * nx + nx, ny * nx + a * nx) = 0 :=
    icount_zero _ _ _ (fun i hi heq => by
      rw [Prod.mk.injEq] at heq; obtain ⟨h1, h2⟩ := heq; omega)
  have v9 : icount (ny - 1)
      (fun i => (i * nx + nx, ny * nx + i * nx + nx))
      (a * nx + nx, ny * nx + a * nx) = 0 :=
    icount_zero _ _ _ (fun i hi heq => by
      rw [Prod.mk.injEq] at heq; obtain ⟨h1, h2⟩ := heq; omega)
  have v10 : icount (ny - 1)
      (fun i => (i * nx + nx - 1, ny * nx + i * nx + nx - 1))
      (a * nx + nx, ny * nx + a * nx) = 0 :=
    icount_zero _ _ _ (fun i hi heq => by
      rw [Prod.mk.injEq] at heq; obtain ⟨h1, h2⟩ := heq; omega)
  have v11 : icount (ny - 1)
      (fun i => (i * nx + nx + nx - 1, ny * nx + i * nx + nx - 1))
      (a * nx + nx, ny * nx + a * nx) = 0 :=
    icount_zero _ _ _ (fun i hi heq => by
      rw [Prod.mk.injEq] at heq
      obtain ⟨h1, h2⟩ := heq
      have h3 : a * nx + 0 = i * nx + (nx - 1) := by omega
      obtain ⟨hh1, hh2⟩ := encode_inj (show 0 < nx by omega)
        (show nx - 1 < nx by omega) h3
      omega)
  have v12 : icount (ny - 1)
      (fun i => (i * nx + nx + nx - 1, ny * nx + i * nx + nx + nx - 1))
      (a * nx + nx, ny * nx + a * nx) = 0 :=
    icount_zero _ _ _ (fun i hi heq => by
      rw [Prod.mk.injEq] at heq; obtain ⟨h1, h2⟩ := heq; omega)
  omega

theorem skirt_count_RD (ny nx a : ℕ) (hny : 2 ≤ ny) (hnx : 2 ≤ nx)
    (haa : a < ny - 1) :
    (edgeList (terrain_front_faces ny nx)).count
        (a * nx + nx + nx - 1, ny * nx + a * nx + nx - 1) +
      (edgeList (terrain_back_faces ny nx)).count
        (a * nx + nx + nx - 1, ny * nx + a * nx + nx - 1) +
      (edgeList (terrain_left_faces ny nx)).count
        (a * nx + nx + nx - 1, ny * nx + a * nx + nx - 1) +
      (edgeList (terrain_right_faces ny nx)).count
        (a * nx + nx + nx - 1, ny * nx + a * nx + nx - 1) = 2 := by
  have hnn : 2 * nx ≤ ny * nx := Nat.mul_le_mul_right nx hny
  have hmA := mul_succ_le nx haa
  have htN : (ny - 1) * nx + nx = ny * nx := htN_eq ny nx (by omega)
  rw [cnt_front_mid ny nx hny hnx
      (a * nx + nx + nx - 1, ny * nx + a * nx + nx - 1)
      (by show a * nx + nx + nx - 1 < ny * nx; omega)
      (by show ny * nx ≤ ny * nx + a * nx + nx - 1; omega),
    cnt_back_mid ny nx hny hnx
      (a * nx + nx + nx - 1, ny * nx + a * nx + nx - 1)
      (by show a * nx + nx + nx - 1 < ny * nx; omega)
      (by show ny * nx ≤ ny * nx + a * nx + nx - 1; omega),
    cnt_left_mid ny nx hny hnx
      (a * nx + nx + nx - 1, ny * nx + a * nx + nx - 1)
      (by show a * nx + nx + nx - 1 < ny * nx; omega)
      (by show ny * nx ≤ ny * nx + a * nx + nx - 1; omega),
    cnt_right_mid ny nx hny hnx
      (a * nx + nx + nx - 1, ny * nx + a * nx + nx - 1)
      (by show a * nx + nx + nx - 1 < ny * nx; omega)
      (by show ny * nx ≤ ny * nx + a * nx + nx - 1; omega)]
  have v1 : icount (nx - 1) (fun j => (j, ny * nx + j))
      (a * nx + nx + nx - 1, ny * nx + a * nx + nx - 1) = 0 :=
    icount_zero _ _ _ (fun j hj heq => by
      rw [Prod.mk.injEq] at heq; obtain ⟨h1, h2⟩ := heq; omega)
  have v2 : icount (nx - 1) (fun j => (j + 1, ny * nx + j))
      (a * nx + nx + nx - 1, ny * nx + a * nx + nx - 1) = 0 :=
    icount_zero _ _ _ (fun j hj heq => by
      rw [Prod.mk.injEq] at heq; obtain ⟨h1, h2⟩ := heq; omega)
  have v3 : icount (nx - 1) (fun j => (j + 1, ny * nx + j + 1))
      (a * nx + nx + nx - 1, ny * nx + a * nx + nx - 1) = 0 :=
    icount_zero _ _ _ (fun j hj heq => by
      rw [Prod.mk.injEq] at heq; obtain ⟨h1, h2⟩ := heq; omega)
  have v4 : icount (nx - 1)
      (fun j => ((ny - 1) * nx + j + 1, ny * nx + (ny - 1) * nx + j))
      (a * nx + nx + nx - 1, ny * nx + a * nx + nx - 1) = 0 :=
    icount_zero _ _ _ (fun j hj heq => by
      rw [Prod.mk.injEq] at heq; obtain ⟨h1, h2⟩ := heq; omega)
  have v5 : icount (nx - 1)
      (fun j => ((ny - 1) * nx + j, ny * nx + (ny - 1) * nx + j))
      (a * nx + nx + nx - 1, ny * nx + a * nx + nx - 1) = 0 :=
    icount_zero _ _ _ (fun j hj heq => by
      rw [Prod.mk.injEq] at heq; obtain ⟨h1, h2⟩ := heq; omega)
  have v6 : icount (nx - 1)
      (fun j => ((ny - 1) * nx + j + 1, ny * nx + (ny - 1) * nx + j + 1))
      (a * nx + nx + nx - 1, ny * nx + a * nx + nx - 1) = 0 :=
    icount_zero _ _ _ (fun j hj heq => by
      rw [Prod.mk.injEq] at heq; obtain ⟨h1, h2⟩ := heq; omega)
  have v7 : icount (ny - 1) (fun i => (i * nx + nx, ny * nx + i * nx))
      (a * nx + nx + nx - 1, ny * nx + a * nx + nx - 1) = 0 :=
    icount_zero _ _ _ (fun i hi heq => by
      rw [Prod.mk.injEq] at heq
      obtain ⟨h1, h2⟩ := heq
      have h3 : i * nx + 0 = a * nx + (nx - 1) := by omega
      obtain ⟨hh1, hh2⟩ := encode_inj (show 0 < nx by omega)
        (show nx - 1 < nx by omega) h3
      omega)
  have v8 : icount (ny - 1) (fun i => (i * nx, ny * nx + i * nx))
      (a * nx + nx + nx - 1, ny * nx + a * nx + nx - 1) = 0 :=
    icount_zero _ _ _ (fun i hi heq => by
      rw [Prod.mk.injEq] at heq; obtain ⟨h1, h2⟩ := heq; omega)
  have v9 : icount (ny - 1)
      (fun i => (i * nx + nx, ny * nx + i * nx + nx))
      (a * nx + nx + nx - 1, ny * nx + a * nx + nx - 1) = 0 :=
    icount_zero _ _ _ (fun i hi heq => by
      rw [Prod.mk.injEq] at heq; obtain ⟨h1, h2⟩ := heq; omega)
  have v10 : icount (ny - 1)
      (fun i => (i * nx + nx - 1, ny * nx + i * nx + nx - 1))
      (a * nx + nx + nx - 1, ny * nx + a * nx + nx - 1) = 0 :=
    icount_zero _ _ _ (fun i hi heq => by
      rw [Prod.mk.injEq] at heq; obtain ⟨h1, h2⟩ := heq; omega)
  have v11 : icount (ny - 1)
      (fun i => (i * nx + nx + nx - 1, ny * nx + i * nx + nx - 1))
      (a * nx + nx + nx - 1, ny * nx + a * nx + nx - 1) = 1 :=
    icount_one _ _ _ a haa rfl (fun i hi heq => by
      rw [Prod.mk.injEq] at heq
      obtain ⟨h1, h2⟩ := heq
      have h3 : i * nx + 0 = a * nx + 0 := by omega
      obtain ⟨hh1, hh2⟩ := encode_inj (show 0 < nx by omega)
        (show 0 < nx by omega) h3
      omega)
  have v12 : icount (ny - 1)
      (fun i => (i * nx + nx + nx - 1, ny * nx + i * nx + nx + nx - 1))
      (a * nx + nx + nx - 1, ny * nx + a * nx + nx - 1) = 0 :=
    icount_zero _ _ _ (fun i hi heq => by
      rw [Prod.mk.injEq] at heq; obtain ⟨h1, h2⟩ := heq; omega)
  omega

theorem surf_count_D (ny nx a b : ℕ) (hny : 2 ≤ ny) (hnx : 2 ≤ nx)
    (haa : a < ny - 1) (hbb : b < nx - 1) :
    (edgeList (terrain_top_faces ny nx)).count
        (a * nx + b, a * nx + b + nx + 1) +
      (edgeList (terrain_front_faces ny nx)).count
        (a * nx + b, a * nx + b + nx + 1) +
      (edgeList (terrain_back_faces ny nx)).count
        (a * nx + b, a * nx + b + nx + 1) +
      (edgeList (terrain_left_faces ny nx)).count
        (a * nx + b, a * nx + b + nx + 1) +
      (edgeList (terrain_right_faces ny nx)).count
        (a * nx + b, a * nx + b + nx + 1) = 2 := by
  have hnn : 2 * nx ≤ ny * nx := Nat.mul_le_mul_right nx hny
  have hmA := mul_succ_le nx haa
  have htN : (ny - 1) * nx + nx = ny * nx := htN_eq ny nx (by omega)
  rw [cnt_top ny nx hnx (a * nx + b, a * nx + b + nx + 1),
    cnt_front_top ny nx hny hnx (a * nx + b, a * nx + b + nx + 1)
      (by show a * nx + b + nx + 1 < ny * nx; omega),
    cnt_back_top ny nx hny hnx (a * nx + b, a * nx + b + nx + 1)
      (by show a * nx + b + nx + 1 < ny * nx; omega),
    cnt_left_top ny nx hny hnx (a * nx + b, a * nx + b + nx + 1)
      (by show a * nx + b + nx + 1 < ny * nx; omega),
    cnt_right_top ny nx hny hnx (a * nx + b, a * nx + b + nx + 1)
      (by show a * nx + b + nx + 1 < ny * nx; omega)]
  have v1 : icount2 (ny - 1) (nx - 1)
      (fun i j => (i * nx + j, i * nx + j + 1))
      (a * nx + b, a * nx + b + nx + 1) = 0 :=
    icount2_zero _ _ _ _ (fun i hi j hj heq => by
      rw [Prod.mk.injEq] at heq; obtain ⟨h1, h2⟩ := heq; omega)
  have v2 : icount2 (ny - 1) (nx - 1)
      (fun i j => (i * nx + j + 1, i * nx + j + nx + 1))
      (a * nx + b, a * nx + b + nx + 1) = 0 :=
    icount2_zero _ _ _ _ (fun i hi j hj heq => by
      rw [Prod.mk.injEq] at heq; obtain ⟨h1, h2⟩ := heq; omega)
  have v3 : icount2 (ny - 1) (nx - 1)
      (fun i j => (i * nx + j, i * nx + j + nx + 1))
      (a * nx + b, a * nx + b + nx + 1) = 1 :=
    icount2_one _ _ _ _ a b haa hbb rfl (fun i hi j hj heq => by
      rw [Prod.mk.injEq] at heq
      obtain ⟨h1, h2⟩ := heq
      exact encode_inj (show j < nx by omega) (show b < nx by omega) h1)
  have v4 : icount2 (ny - 1) (nx - 1)
      (fun i j => (i * nx + j + nx, i * nx + j + nx + 1))
      (a * nx + b, a * nx + b + nx + 1) = 0 :=
    icount2_zero _ _ _ _ (fun i hi j hj heq => by
      rw [Prod.mk.injEq] at heq; obtain ⟨h1, h2⟩ := heq; omega)
  have v5 : icount2 (ny - 1) (nx - 1)
      (fun i j => (i * nx + j, i * nx + j + nx))
      (a * nx + b, a * nx + b + nx + 1) = 0 :=
    icount2_zero _ _ _ _ (fun i hi j hj heq => by
      rw [Prod.mk.injEq] at heq; obtain ⟨h1, h2⟩ := heq; omega)
  have v6 : icount (nx - 1) (fun j => (j, j + 1))
      (a * nx + b, a * nx + b + nx + 1) = 0 :=
    icount_zero _ _ _ (fun j hj heq => by
      rw [Prod.mk.injEq] at heq; obtain ⟨h1, h2⟩ := heq; omega)
  have v7 : icount (nx - 1)
      (fun j => ((ny - 1) * nx + j, (ny - 1) * nx + j + 1))
      (a * nx + b, a * nx + b + nx + 1) = 0 :=
    icount_zero _ _ _ (fun j hj heq => by
      rw [Prod.mk.injEq] at heq; obtain ⟨h1, h2⟩ := heq; omega)
  have v8 : icount (ny - 1) (fun i => (i * nx, i * nx + nx))
      (a * nx + b, a * nx + b + nx + 1) = 0 :=
    icount_zero _ _ _ (fun i hi heq => by
      rw [Prod.mk.injEq] at heq; obtain ⟨h1, h2⟩ := heq; omega)
  have v9 : icount (ny - 1)
      (fun i => (i * nx + nx - 1, i * nx + nx + nx - 1))
      (a * nx + b, a * nx + b + nx + 1) = 0 :=
    icount_zero _ _ _ (fun i hi heq => by
      rw [Prod.mk.injEq] at heq; obtain ⟨h1, h2⟩ := heq; omega)
  omega

theorem surf_count_H (ny nx a b : ℕ) (hny : 2 ≤ ny) (hnx : 2 ≤ nx)
    (ha : a < ny) (hbb : b < nx - 1) :
    (edgeList (terrain_top_faces ny nx)).count
        (a * nx + b, a * nx + b + 1) +
      (edgeList (terrain_front_faces ny nx)).count
        (a * nx + b, a * nx + b + 1) +
      (edgeList (terrain_back_faces ny nx)).count
        (a * nx + b, a * nx + b + 1) +
      (edgeList (terrain_left_faces ny nx)).count
        (a * nx + b, a * nx + b + 1) +
      (edgeList (terrain_right_faces ny nx)).count
        (a * nx + b, a * nx + b + 1) = 2 := by
  have hnn : 2 * nx ≤ ny * nx := Nat.mul_le_mul_right nx hny
  have hmA := mul_succ_le nx ha
  have hm1 : 1 * nx ≤ (ny - 1) * nx := Nat.mul_le_mul_right nx (by omega)
  have htN : (ny - 1) * nx + nx = ny * nx := htN_eq ny nx (by omega)
  rw [cnt_top ny nx hnx (a * nx + b, a * nx + b + 1),
    cnt_front_top ny nx hny hnx (a * nx + b, a * nx + b + 1)
      (by show a * nx + b + 1 < ny * nx; omega),
    cnt_back_top ny nx hny hnx (a * nx + b, a * nx + b + 1)
      (by show a * nx + b + 1 < ny * nx; omega),
    cnt_left_top ny nx hny hnx (a * nx + b, a * nx + b + 1)
      (by show a * nx + b + 1 < ny * nx; omega),
    cnt_right_top ny nx hny hnx (a * nx + b, a * nx + b + 1)
      (by show a * nx + b + 1 < ny * nx; omega)]
  have v2 : icount2 (ny - 1) (nx - 1)
      (fun i j => (i * nx + j + 1, i * nx + j + nx + 1))
      (a * nx + b, a * nx + b + 1) = 0 :=
    icount2_zero _ _ _ _ (fun i hi j hj heq => by
      rw [Prod.mk.injEq] at heq; obtain ⟨h1, h2⟩ := heq; omega)
  have v3 : icount2 (ny - 1) (nx - 1)
      (fun i j => (i * nx + j, i * nx + j + nx + 1))
      (a * nx + b, a * nx + b + 1) = 0 :=
    icount2_zero _ _ _ _ (fun i hi j hj heq => by
      rw [Prod.mk.injEq] at heq; obtain ⟨h1, h2⟩ := heq; omega)
  have v5 : icount2 (ny - 1) (nx - 1)
      (fun i j => (i * nx + j, i * nx + j + nx))
      (a * nx + b, a * nx + b + 1) = 0 :=
    icount2_zero _ _ _ _ (fun i hi j hj heq => by
      rw [Prod.mk.injEq] at heq; obtain ⟨h1, h2⟩ := heq; omega)
  have v8 : icount (ny - 1) (fun i => (i * nx, i * nx + nx))
      (a * nx + b, a * nx + b + 1) = 0 :=
    icount_zero _ _ _ (fun i hi heq => by
      rw [Prod.mk.injEq] at heq; obtain ⟨h1, h2⟩ := heq; omega)
  have v9 : icount (ny - 1)
      (fun i => (i * nx + nx - 1, i * nx + nx + nx - 1))
      (a * nx + b, a * nx + b + 1) = 0 :=
    icount_zero _ _ _ (fun i hi heq => by
      rw [Prod.mk.injEq] at heq; obtain ⟨h1, h2⟩ := heq; omega)
  by_cases ha0 : a = 0
  · subst ha0
    have v1 : icount2 (ny - 1) (nx - 1)
        (fun i j => (i * nx + j, i * nx + j + 1))
        (0 * nx + b, 0 * nx + b + 1) = 1 :=
      icount2_one _ _ _ _ 0 b (by omega) hbb rfl
        (fun i hi j hj heq => by
          rw [Prod.mk.injEq] at heq
          obtain ⟨h1, h2⟩ := heq
          have h3 : i * nx + j = 0 * nx + b := by omega
          exact encode_inj (show j < nx by omega) (show b < nx by omega) h3)
    have v4 : icount2 (ny - 1) (nx - 1)
        (fun i j => (i * nx + j + nx, i * nx + j + nx + 1))
        (0 * nx + b, 0 * nx + b + 1) = 0 :=
      icount2_zero _ _ _ _ (fun i hi j hj heq => by
        rw [Prod.mk.injEq] at heq; obtain ⟨h1, h2⟩ := heq; omega)
    have v6 : icount (nx - 1) (fun j => (j, j + 1))
        (0 * nx + b, 0 * nx + b + 1) = 1 :=
      icount_one _ _ _ b hbb
        (by simp only [Prod.mk.injEq]; constructor <;> omega)
        (fun j hj heq => by
          rw [Prod.mk.injEq] at heq; obtain ⟨h1, h2⟩ := heq; omega)
    have v7 : icount (nx - 1)
        (fun j => ((ny - 1) * nx + j, (ny - 1) * nx + j + 1))
        (0 * nx + b, 0 * nx + b + 1) = 0 :=
      icount_zero _ _ _ (fun j hj heq => by
        rw [Prod.mk.injEq] at heq; obtain ⟨h1, h2⟩ := heq; omega)
    omega
  · by_cases haT : a = ny - 1
    · subst haT
      have v1 : icount2 (ny - 1) (nx - 1)
          (fun i j => (i * nx + j, i * nx + j + 1))
          ((ny - 1) * nx + b, (ny - 1) * nx + b + 1) = 0 :=
        icount2_zero _ _ _ _ (fun i hi j hj heq => by
          rw [Prod.mk.injEq] at heq
          obtain ⟨h1, h2⟩ := heq
          obtain ⟨hh1, hh2⟩ := encode_inj (show j < nx by omega)
            (show b < nx by omega) h1
          omega)
      have v4 : icount2 (ny - 1) (nx - 1)
          (fun i j => (i * nx + j + nx, i * nx + j + nx + 1))
          ((ny - 1) * nx + b, (ny - 1) * nx + b + 1) = 1 :=
        icount2_one _ _ _ _ (ny - 1 - 1) b (by omega) hbb
          (by
            have hsa : (ny - 1 - 1) * nx + nx = (ny - 1) * nx :=
              htN_eq (ny - 1) nx (by omega)
            simp only [Prod.mk.injEq]
            constructor <;> omega)
          (fun i hi j hj heq => by
            rw [Prod.mk.injEq] at heq
            obtain ⟨h1, h2⟩ := heq
            have hs : (i + 1) * nx = i * nx + nx := Nat.succ_mul i nx
            have h3 : (i + 1) * nx + j = (ny - 1) * nx + b := by omega
            obtain ⟨hh1, hh2⟩ := encode_inj (show j < nx by omega)
              (show b < nx by omega) h3
            exact ⟨by omega, by omega⟩)
      have v6 : icount (nx - 1) (fun j => (j, j + 1))
          ((ny - 1) * nx + b, (ny - 1) * nx + b + 1) = 0 :=
        icount_zero _ _ _ (fun j hj heq => by
          rw [Prod.mk.injEq] at heq; obtain ⟨h1, h2⟩ := heq; omega)
      have v7 : icount (nx - 1)
          (fun j => ((ny - 1) * nx + j, (ny - 1) * nx + j + 1))
          ((ny - 1) * nx + b, (ny - 1) * nx + b + 1) = 1 :=
        icount_one _ _ _ b hbb rfl (fun j hj heq => by
          rw [Prod.mk.injEq] at heq; obtain ⟨h1, h2⟩ := heq; omega)
      omega
    · have hm1a : 1 * nx ≤ a * nx := Nat.mul_le_mul_right nx (by omega)
      have v1 : icount2 (ny - 1) (nx - 1)
          (fun i j => (i * nx + j, i * nx + j + 1))
          (a * nx + b, a * nx + b + 1) = 1 :=
        icount2_one _ _ _ _ a b (by omega) hbb rfl
          (fun i hi j hj heq => by
            rw [Prod.mk.injEq] at heq
            obtain ⟨h1, h2⟩ := heq
            exact encode_inj (show j < nx by omega) (show b < nx by omega) h1)
      have v4 : icount2 (ny - 1) (nx - 1)
          (fun i j => (i * nx + j + nx, i * nx + j + nx + 1))
          (a * nx + b, a * nx + b + 1) = 1 :=
        icount2_one _ _ _ _ (a - 1) b (by omega) hbb
          (by
            have hsa : (a - 1) * nx + nx = a * nx := htN_eq a nx (by omega)
            simp only [Prod.mk.injEq]
            constructor <;> omega)
          (fun i hi j hj heq => by
            rw [Prod.mk.injEq] at heq
            obtain ⟨h1, h2⟩ := heq
            have hs : (i + 1) * nx = i * nx + nx := Nat.succ_mul i nx
            have h3 : (i + 1) * nx + j = a * nx + b := by omega
            obtain ⟨hh1, hh2⟩ := encode_inj (show j < nx by omega)
              (show b < nx by omega) h3
            exact ⟨by omega, by omega⟩)
      have v6 : icount (nx - 1) (fun j => (j, j + 1))
          (a * nx + b, a * nx + b + 1) = 0 :=
        icount_zero _ _ _ (fun j hj heq => by
          rw [Prod.mk.injEq] at heq; obtain ⟨h1, h2⟩ := heq; omega)
      have v7 : icount (nx - 1)
          (fun j => ((ny - 1) * nx + j, (ny - 1) * nx + j + 1))
          (a * nx + b, a * nx + b + 1) = 0 :=
        icount_zero _ _ _ (fun j hj heq => by
          rw [Prod.mk.injEq] at heq
          obtain ⟨h1, h2⟩ := heq
          obtain ⟨hh1, hh2⟩ := encode_inj (show j < nx by omega)
            (show b < nx by omega) h1
          omega)
      omega

theorem surf_count_V (ny nx a b : ℕ) (hny : 2 ≤ ny) (hnx : 2 ≤ nx)
    (haa : a < ny - 1) (hb : b < nx) :
    (edgeList (terrain_top_faces ny nx)).count
        (a * nx + b, a * nx + b + nx) +
      (edgeList (terrain_front_faces ny nx)).count
        (a * nx + b, a * nx + b + nx) +
      (edgeList (terrain_back_faces ny nx)).count
        (a * nx + b, a * nx + b + nx) +
      (edgeList (terrain_left_faces ny nx)).count
        (a * nx + b, a * nx + b + nx) +
      (edgeList (terrain_right_faces ny nx)).count
        (a * nx + b, a * nx + b + nx) = 2 := by
  have hnn : 2 * nx ≤ ny * nx := Nat.mul_le_mul_right nx hny
  have hmA := mul_succ_le nx haa
  have hm1 : 1 * nx ≤ (ny - 1) * nx := Nat.mul_le_mul_right nx (by omega)
  have htN : (ny - 1) * nx + nx = ny * nx := htN_eq ny nx (by omega)
  rw [cnt_top ny nx hnx (a * nx + b, a * nx + b + nx),
    cnt_front_top ny nx hny hnx (a * nx + b, a * nx + b + nx)
      (by show a * nx + b + nx < ny * nx; omega),
    cnt_back_top ny nx hny hnx (a * nx + b, a * nx + b + nx)
      (by show a * nx + b + nx < ny * nx; omega),
    cnt_left_top ny nx hny hnx (a * nx + b, a * nx + b + nx)
      (by show a * nx + b + nx < ny * nx; omega),
    cnt_right_top ny nx hny hnx (a * nx + b, a * nx + b + nx)
      (by show a * nx + b + nx < ny * nx; omega)]
  have v1 : icount2 (ny - 1) (nx - 1)
      (fun i j => (i * nx + j, i * nx + j + 1))
      (a * nx + b, a * nx + b + nx) = 0 :=
    icount2_zero _ _ _ _ (fun i hi j hj heq => by
      rw [Prod.mk.injEq] at heq; obtain ⟨h1, h2⟩ := heq; omega)
  have v3 : icount2 (ny - 1) (nx - 1)
      (fun i j => (i * nx + j, i * nx + j + nx + 1))
      (a * nx + b, a * nx + b + nx) = 0 :=
    icount2_zero _ _ _ _ (fun i hi j hj heq => by
      rw [Prod.mk.injEq] at heq; obtain ⟨h1, h2⟩ := heq; omega)
  have v4 : icount2 (ny - 1) (nx - 1)
      (fun i j => (i * nx + j + nx, i * nx + j + nx + 1))
      (a * nx + b, a * nx + b + nx) = 0 :=
    icount2_zero _ _ _ _ (fun i hi j hj heq => by
      rw [Prod.mk.injEq] at heq; obtain ⟨h1, h2⟩ := heq; omega)
  have v6 : icount (nx - 1) (fun j => (j, j + 1))
      (a * nx + b, a * nx + b + nx) = 0 :=
    icount_zero _ _ _ (fun j hj heq => by
      rw [Prod.mk.injEq] at heq; obtain ⟨h1, h2⟩ := heq; omega)
  have v7 : icount (nx - 1)
      (fun j => ((ny - 1) * nx + j, (ny - 1) * nx + j + 1))
      (a * nx + b, a * nx + b + nx) = 0 :=
    icount_zero _ _ _ (fun j hj heq => by
      rw [Prod.mk.injEq] at heq; obtain ⟨h1, h2⟩ := heq; omega)
  by_cases hb0 : b = 0
  · subst hb0
    have v2 : icount2 (ny - 1) (nx - 1)
        (fun i j => (i * nx + j + 1, i * nx + j + nx + 1))
        (a * nx + 0, a * nx + 0 + nx) = 0 :=
      icount2_zero _ _ _ _ (fun i hi j hj heq => by
        rw [Prod.mk.injEq] at heq
        obtain ⟨h1, h2⟩ := heq
        have h3 : i * nx + (j + 1) = a * nx + 0 := by omega
        obtain ⟨hh1, hh2⟩ := encode_inj (show j + 1 < nx by omega)
          (show 0 < nx by omega) h3
        omega)
    have v5 : icount2 (ny - 1) (nx - 1)
        (fun i j => (i * nx + j, i * nx + j + nx))
        (a * nx + 0, a * nx + 0 + nx) = 1 :=
      icount2_one _ _ _ _ a 0 haa (by omega) rfl
        (fun i hi j hj heq => by
          rw [Prod.mk.injEq] at heq
          obtain ⟨h1, h2⟩ := heq
          have h3 : i * nx + j = a * nx + 0 := by omega
          exact encode_inj (show j < nx by omega) (show 0 < nx by omega) h3)
    have v8 : icount (ny - 1) (fun i => (i * nx, i * nx + nx))
        (a * nx + 0, a * nx + 0 + nx) = 1 :=
      icount_one _ _ _ a haa
        (by simp only [Prod.mk.injEq]; constructor <;> omega)
        (fun i hi heq => by
          rw [Prod.mk.injEq] at heq
          obtain ⟨h1, h2⟩ := heq
          have h3 : i * nx + 0 = a * nx + 0 := by omega
          obtain ⟨hh1, hh2⟩ := encode_inj (show 0 < nx by omega)
            (show 0 < nx by omega) h3
          omega)
    have v9 : icount (ny - 1)
        (fun i => (i * nx + nx - 1, i * nx + nx + nx - 1))
        (a * nx + 0, a * nx + 0 + nx) = 0 :=
      icount_zero _ _ _ (fun i hi heq => by
        rw [Prod.mk.injEq] at heq
        obtain ⟨h1, h2⟩ := heq
        have h3 : i * nx + (nx - 1) = a * nx + 0 := by omega
        obtain ⟨hh1, hh2⟩ := encode_inj (show nx - 1 < nx by omega)
          (show 0 < nx by omega) h3
        omega)
    omega
  · by_cases hbR : b = nx - 1
    · subst hbR
      have v2 : icount2 (ny - 1) (nx - 1)
          (fun i j => (i * nx + j + 1, i * nx + j + nx + 1))
          (a * nx + (nx - 1), a * nx + (nx - 1) + nx) = 1 :=
        icount2_one _ _ _ _ a (nx - 1 - 1) haa (by omega)
          (by simp only [Prod.mk.injEq]; constructor <;> omega)
          (fun i hi j hj heq => by
            rw [Prod.mk.injEq] at heq
            obtain ⟨h1, h2⟩ := heq
            have h3 : i * nx + (j + 1) = a * nx + (nx - 1) := by omega
            obtain ⟨hh1, hh2⟩ := encode_inj (show j + 1 < nx by omega)
              (show nx - 1 < nx by omega) h3
            exact ⟨by omega, by omega⟩)
      have v5 : icount2 (ny - 1) (nx - 1)
          (fun i j => (i * nx + j, i * nx + j + nx))
          (a * nx + (nx - 1), a * nx + (nx - 1) + nx) = 0 :=
        icount2_zero _ _ _ _ (fun i hi j hj heq => by
          rw [Prod.mk.injEq] at heq
          obtain ⟨h1, h2⟩ := heq
          obtain ⟨hh1, hh2⟩ := encode_inj (show j < nx by omega)
            (show nx - 1 < nx by omega) h1
          omega)
      have v8 : icount (ny - 1) (fun i => (i * nx, i * nx + nx))
          (a * nx + (nx - 1), a * nx + (nx - 1) + nx) = 0 :=
        icount_zero _ _ _ (fun i hi heq => by
          rw [Prod.mk.injEq] at heq
          obtain ⟨h1, h2⟩ := heq
          have h3 : i * nx + 0 = a * nx + (nx - 1) := by omega
          obtain ⟨hh1, hh2⟩ := encode_inj (show 0 < nx by omega)
            (show nx - 1 < nx by omega) h3
          omega)
      have v9 : icount (ny - 1)
          (fun i => (i * nx + nx - 1, i * nx + nx + nx - 1))
          (a * nx + (nx - 1), a * nx + (nx - 1) + nx) = 1 :=
        icount_one _ _ _ a haa
          (by simp only [Prod.mk.injEq]; constructor <;> omega)
          (fun i hi heq => by
            rw [Prod.mk.injEq] at heq
            obtain ⟨h1, h2⟩ := heq
            have h3 : i * nx + (nx - 1) = a * nx + (nx - 1) := by omega
            obtain ⟨hh1, hh2⟩ := encode_inj (show nx - 1 < nx by omega)
              (show nx - 1 < nx by omega) h3
            omega)
      omega
    · have v2 : icount2 (ny - 1) (nx - 1)
          (fun i j => (i * nx + j + 1, i * nx + j + nx + 1))
          (a * nx + b, a * nx + b + nx) = 1 :=
        icount2_one _ _ _ _ a (b - 1) haa (by omega)
          (by simp only [Prod.mk.injEq]; constructor <;> omega)
          (fun i hi j hj heq => by
            rw [Prod.mk.injEq] at heq
            obtain ⟨h1, h2⟩ := heq
            have h3 : i * nx + (j + 1) = a * nx + b := by omega
            obtain ⟨hh1, hh2⟩ := encode_inj (show j + 1 < nx by omega) hb h3
            exact ⟨by omega, by omega⟩)
      have v5 : icount2 (ny - 1) (nx - 1)
          (fun i j => (i * nx + j, i * nx + j + nx))
          (a * nx + b, a * nx + b + nx) = 1 :=
        icount2_one _ _ _ _ a b haa (by omega) rfl
          (fun i hi j hj heq => by
            rw [Prod.mk.injEq] at heq
            obtain ⟨h1, h2⟩ := heq
            exact encode_inj (show j < nx by omega) hb h1)
      have v8 : icount (ny - 1) (fun i => (i * nx, i * nx + nx))
          (a * nx + b, a * nx + b + nx) = 0 :=
        icount_zero _ _ _ (fun i hi heq => by
          rw [Prod.mk.injEq] at heq
          obtain ⟨h1, h2⟩ := heq
          have h3 : i * nx + 0 = a * nx + b := by omega
          obtain ⟨hh1, hh2⟩ := encode_inj (show 0 < nx by omega) hb h3
          omega)
      have v9 : icount (ny - 1)
          (fun i => (i * nx + nx - 1, i * nx + nx + nx - 1))
          (a * nx + b, a * nx + b + nx) = 0 :=
        icount_zero _ _ _ (fun i hi heq => by
          rw [Prod.mk.injEq] at heq
          obtain ⟨h1, h2⟩ := heq
          have h3 : i * nx + (nx - 1) = a * nx + b := by omega
          obtain ⟨hh1, hh2⟩ := encode_inj (show nx - 1 < nx by omega) hb h3
          omega)
      omega

theorem surf_count_botD (ny nx a b : ℕ) (hny : 2 ≤ ny) (hnx : 2 ≤ nx)
    (haa : a < ny - 1) (hbb : b < nx - 1) :
    (edgeList (terrain_bottom_faces ny nx)).count
        (ny * nx + a * nx + b, ny * nx + a * nx + b + nx + 1) +
      (edgeList (terrain_front_faces ny nx)).count
        (ny * nx + a * nx + b, ny * nx + a * nx + b + nx + 1) +
      (edgeList (terrain_back_faces ny nx)).count
        (ny * nx + a * nx + b, ny * nx + a * nx + b + nx + 1) +
      (edgeList (terrain_left_faces ny nx)).count
        (ny * nx + a * nx + b, ny * nx + a * nx + b + nx + 1) +
      (edgeList (terrain_right_faces ny nx)).count
        (ny * nx + a * nx + b, ny * nx + a * nx + b + nx + 1) = 2 := by
  have hnn : 2 * nx ≤ ny * nx := Nat.mul_le_mul_right nx hny
  rw [cnt_bot ny nx hnx (ny * nx + a * nx + b, ny * nx + a * nx + b + nx + 1),
    cnt_front_bot ny nx hny hnx
      (ny * nx + a * nx + b, ny * nx + a * nx + b + nx + 1)
      (by show ny * nx ≤ ny * nx + a * nx + b; omega),
    cnt_back_bot ny nx hny hnx
      (ny * nx + a * nx + b, ny * nx + a * nx + b + nx + 1)
      (by show ny * nx ≤ ny * nx + a * nx + b; omega),
    cnt_left_bot ny nx hny hnx
      (ny * nx + a * nx + b, ny * nx + a * nx + b + nx + 1)
      (by show ny * nx ≤ ny * nx + a * nx + b; omega),
    cnt_right_bot ny nx hny hnx
      (ny * nx + a * nx + b, ny * nx + a * nx + b + nx + 1)
      (by show ny * nx ≤ ny * nx + a * nx + b; omega)]
  have v1 : icount2 (ny - 1) (nx - 1)
      (fun i j => (ny * nx + i * nx + j, ny * nx + i * nx + j + nx + 1))
      (ny * nx + a * nx + b, ny * nx + a * nx + b + nx + 1) = 1 :=
    icount2_one _ _ _ _ a b haa hbb rfl (fun i hi j hj heq => by
      rw [Prod.mk.injEq] at heq
      obtain ⟨h1, h2⟩ := heq
      have h3 : i * nx + j = a * nx + b := by omega
      exact encode_inj (show j < nx by omega) (show b < nx by omega) h3)
  have v2 : icount2 (ny - 1) (nx - 1)
      (fun i j => (ny * nx + i * nx + j + 1, ny * nx + i * nx + j + nx + 1))
      (ny * nx + a * nx + b, ny * nx + a * nx + b + nx + 1) = 0 :=
    icount2_zero _ _ _ _ (fun i hi j hj heq => by
      rw [Prod.mk.injEq] at heq; obtain ⟨h1, h2⟩ := heq; omega)
  have v3 : icount2 (ny - 1) (nx - 1)
      (fun i j => (ny * nx + i * nx + j, ny * nx + i * nx + j + 1))
      (ny * nx + a * nx + b, ny * nx + a * nx + b + nx + 1) = 0 :=
    icount2_zero _ _ _ _ (fun i hi j hj heq => by
      rw [Prod.mk.injEq] at heq; obtain ⟨h1, h2⟩ := heq; omega)
  have v4 : icount2 (ny - 1) (nx - 1)
      (fun i j => (ny * nx + i * nx + j, ny * nx + i * nx + j + nx))
      (ny * nx + a * nx + b, ny * nx + a * nx + b + nx + 1) = 0 :=
    icount2_zero _ _ _ _ (fun i hi j hj heq => by
      rw [Prod.mk.injEq] at heq; obtain ⟨h1, h2⟩ := heq; omega)
  have v5 : icount2 (ny - 1) (nx - 1)
      (fun i j => (ny * nx + i * nx + j + nx, ny * nx + i * nx + j + nx + 1))
      (ny * nx + a * nx + b, ny * nx + a * nx + b + nx + 1) = 0 :=
    icount2_zero _ _ _ _ (fun i hi j hj heq => by
      rw [Prod.mk.injEq] at heq; obtain ⟨h1, h2⟩ := heq; omega)
  have v6 : icount (nx - 1) (fun j => (ny * nx + j, ny * nx + j + 1))
      (ny * nx + a * nx + b, ny * nx + a * nx + b + nx + 1) = 0 :=
    icount_zero _ _ _ (fun j hj heq => by
      rw [Prod.mk.injEq] at heq; obtain ⟨h1, h2⟩ := heq; omega)
  have v7 : icount (nx - 1)
      (fun j => (ny * nx + (ny - 1) * nx + j, ny * nx + (ny - 1) * nx + j + 1))
      (ny * nx + a * nx + b, ny * nx + a * nx + b + nx + 1) = 0 :=
    icount_zero _ _ _ (fun j hj heq => by
      rw [Prod.mk.injEq] at heq; obtain ⟨h1, h2⟩ := heq; omega)
  have v8 : icount (ny - 1)
      (fun i => (ny * nx + i * nx, ny * nx + i * nx + nx))
      (ny * nx + a * nx + b, ny * nx + a * nx + b + nx + 1) = 0 :=
    icount_zero _ _ _ (fun i hi heq => by
      rw [Prod.mk.injEq] at heq; obtain ⟨h1, h2⟩ := heq; omega)
  have v9 : icount (ny - 1)
      (fun i => (ny * nx + i * nx + nx - 1, ny * nx + i * nx + nx + nx - 1))
      (ny * nx + a * nx + b, ny * nx + a * nx + b + nx + 1) = 0 :=
    icount_zero _ _ _ (fun i hi heq => by
      rw [Prod.mk.injEq] at heq; obtain ⟨h1, h2⟩ := heq; omega)
  omega

theorem surf_count_botH (ny nx a b : ℕ) (hny : 2 ≤ ny) (hnx : 2 ≤ nx)
    (ha : a < ny) (hbb : b < nx - 1) :
    (edgeList (terrain_bottom_faces ny nx)).count
        (ny * nx + a * nx + b, ny * nx + a * nx + b + 1) +
      (edgeList (terrain_front_faces ny nx)).count
        (ny * nx + a * nx + b, ny * nx + a * nx + b + 1) +
      (edgeList (terrain_back_faces ny nx)).count
        (ny * nx + a * nx + b, ny * nx + a * nx + b + 1) +
      (edgeList (terrain_left_faces ny nx)).count
        (ny * nx + a * nx + b, ny * nx + a * nx + b + 1) +
      (edgeList (terrain_right_faces ny nx)).count
        (ny * nx + a * nx + b, ny * nx + a * nx + b + 1) = 2 := by
  have hnn : 2 * nx ≤ ny * nx := Nat.mul_le_mul_right nx hny
  have hmA := mul_succ_le nx ha
  have hm1 : 1 * nx ≤ (ny - 1) * nx := Nat.mul_le_mul_right nx (by omega)
  have htN : (ny - 1) * nx + nx = ny * nx := htN_eq ny nx (by omega)
  rw [cnt_bot ny nx hnx (ny * nx + a * nx + b, ny * nx + a * nx + b + 1),
    cnt_front_bot ny nx hny hnx
      (ny * nx + a * nx + b, ny * nx + a * nx + b + 1)
      (by show ny * nx ≤ ny * nx + a * nx + b; omega),
    cnt_back_bot ny nx hny hnx
      (ny * nx + a * nx + b, ny * nx + a * nx + b + 1)
      (by show ny * nx ≤ ny * nx + a * nx + b; omega),
    cnt_left_bot ny nx hny hnx
      (ny * nx + a * nx + b, ny * nx + a * nx + b + 1)
      (by show ny * nx ≤ ny * nx + a * nx + b; omega),
    cnt_right_bot ny nx hny hnx
      (ny * nx + a * nx + b, ny * nx + a * nx + b + 1)
      (by show ny * nx ≤ ny * nx + a * nx + b; omega)]
  have v1 : icount2 (ny - 1) (nx - 1)
      (fun i j => (ny * nx + i * nx + j, ny * nx + i * nx + j + nx + 1))
      (ny * nx + a * nx + b, ny * nx + a * nx + b + 1) = 0 :=
    icount2_zero _ _ _ _ (fun i hi j hj heq => by
      rw [Prod.mk.injEq] at heq; obtain ⟨h1, h2⟩ := heq; omega)
  have v2 : icount2 (ny - 1) (nx - 1)
      (fun i j => (ny * nx + i * nx + j + 1, ny * nx + i * nx + j + nx + 1))
      (ny * nx + a * nx + b, ny * nx + a * nx + b + 1) = 0 :=
    icount2_zero _ _ _ _ (fun i hi j hj heq => by
      rw [Prod.mk.injEq] at heq; obtain ⟨h1, h2⟩ := heq; omega)
  have v4 : icount2 (ny - 1) (nx - 1)
      (fun i j => (ny * nx + i * nx + j, ny * nx + i * nx + j + nx))
      (ny * nx + a * nx + b, ny * nx + a * nx + b + 1) = 0 :=
    icount2_zero _ _ _ _ (fun i hi j hj heq => by
      rw [Prod.mk.injEq] at heq; obtain ⟨h1, h2⟩ := heq; omega)
  have v8 : icount (ny - 1)
      (fun i => (ny * nx + i * nx, ny * nx + i * nx + nx))
      (ny * nx + a * nx + b, ny * nx + a * nx + b + 1) = 0 :=
    icount_zero _ _ _ (fun i hi heq => by
      rw [Prod.mk.injEq] at heq; obtain ⟨h1, h2⟩ := heq; omega)
  have v9 : icount (ny - 1)
      (fun i => (ny * nx + i * nx + nx - 1, ny * nx + i * nx + nx + nx - 1))
      (ny * nx + a * nx + b, ny * nx + a * nx + b + 1) = 0 :=
    icount_zero _ _ _ (fun i hi heq => by
      rw [Prod.mk.injEq] at heq; obtain ⟨h1, h2⟩ := heq; omega)
  by_cases ha0 : a = 0
  · subst ha0
    have v3 : icount2 (ny - 1) (nx - 1)
        (fun i j => (ny * nx + i * nx + j, ny * nx + i * nx + j + 1))
        (ny * nx + 0 * nx + b, ny * nx + 0 * nx + b + 1) = 1 :=
      icount2_one _ _ _ _ 0 b (by omega) hbb rfl
        (fun i hi j hj heq => by
          rw [Prod.mk.injEq] at heq
          obtain ⟨h1, h2⟩ := heq
          have h3 : i * nx + j = 0 * nx + b := by omega
          exact encode_inj (show j < nx by omega) (show b < nx by omega) h3)
    have v5 : icount2 (ny - 1) (nx - 1)
        (fun i j => (ny * nx + i * nx + j + nx, ny * nx + i * nx + j + nx + 1))
        (ny * nx + 0 * nx + b, ny * nx + 0 * nx + b + 1) = 0 :=
      icount2_zero _ _ _ _ (fun i hi j hj heq => by
        rw [Prod.mk.injEq] at heq; obtain ⟨h1, h2⟩ := heq; omega)
    have v6 : icount (nx - 1) (fun j => (ny * nx + j, ny * nx + j + 1))
        (ny * nx + 0 * nx + b, ny * nx + 0 * nx + b + 1) = 1 :=
      icount_one _ _ _ b hbb
        (by simp only [Prod.mk.injEq]; constructor <;> omega)
        (fun j hj heq => by
          rw [Prod.mk.injEq] at heq; obtain ⟨h1, h2⟩ := heq; omega)
    have v7 : icount (nx - 1)
        (fun j =>
          (ny * nx + (ny - 1) * nx + j, ny * nx + (ny - 1) * nx + j + 1))
        (ny * nx + 0 * nx + b, ny * nx + 0 * nx + b + 1) = 0 :=
      icount_zero _ _ _ (fun j hj heq => by
        rw [Prod.mk.injEq] at heq; obtain ⟨h1, h2⟩ := heq; omega)
    omega
  · by_cases haT : a = ny - 1
    · subst haT
      have v3 : icount2 (ny - 1) (nx - 1)
          (fun i j => (ny * nx + i * nx + j, ny * nx + i * nx + j + 1))
          (ny * nx + (ny - 1) * nx + b, ny * nx + (ny - 1) * nx + b + 1)
          = 0 :=
        icount2_zero _ _ _ _ (fun i hi j hj heq => by
          rw [Prod.mk.injEq] at heq
          obtain ⟨h1, h2⟩ := heq
          have h3 : i * nx + j = (ny - 1) * nx + b := by omega
          obtain ⟨hh1, hh2⟩ := encode_inj (show j < nx by omega)
            (show b < nx by omega) h3
          omega)
      have v5 : icount2 (ny - 1) (nx - 1)
          (fun i j =>
            (ny * nx + i * nx + j + nx, ny * nx + i * nx + j + nx + 1))
          (ny * nx + (ny - 1) * nx + b, ny * nx + (ny - 1) * nx + b + 1)
          = 1 :=
        icount2_one _ _ _ _ (ny - 1 - 1) b (by omega) hbb
          (by
            have hsa : (ny - 1 - 1) * nx + nx = (ny - 1) * nx :=
              htN_eq (ny - 1) nx (by omega)
            simp only [Prod.mk.injEq]
            constructor <;> omega)
          (fun i hi j hj heq => by
            rw [Prod.mk.injEq] at heq
            obtain ⟨h1, h2⟩ := heq
            have hs : (i + 1) * nx = i * nx + nx := Nat.succ_mul i nx
            have h3 : (i + 1) * nx + j = (ny - 1) * nx + b := by omega
            obtain ⟨hh1, hh2⟩ := encode_inj (show j < nx by omega)
              (show b < nx by omega) h3
            exact ⟨by omega, by omega⟩)
      have v6 : icount (nx - 1) (fun j => (ny * nx + j, ny * nx + j + 1))
          (ny * nx + (ny - 1) * nx + b, ny * nx + (ny - 1) * nx + b + 1)
          = 0 :=
        icount_zero _ _ _ (fun j hj heq => by
          rw [Prod.mk.injEq] at heq; obtain ⟨h1, h2⟩ := heq; omega)
      have v7 : icount (nx - 1)
          (fun j =>
            (ny * nx + (ny - 1) * nx + j, ny * nx + (ny - 1) * nx + j + 1))
          (ny * nx + (ny - 1) * nx + b, ny * nx + (ny - 1) * nx + b + 1)
          = 1 :=
        icount_one _ _ _ b hbb rfl (fun j hj heq => by
          rw [Prod.mk.injEq] at heq; obtain ⟨h1, h2⟩ := heq; omega)
      omega
    · have hm1a : 1 * nx ≤ a * nx := Nat.mul_le_mul_right nx (by omega)
      have v3 : icount2 (ny - 1) (nx - 1)
          (fun i j => (ny * nx + i * nx + j, ny * nx + i * nx + j + 1))
          (ny * nx + a * nx + b, ny * nx + a * nx + b + 1) = 1 :=
        icount2_one _ _ _ _ a b (by omega) hbb rfl
          (fun i hi j hj heq => by
            rw [Prod.mk.injEq] at heq
            obtain ⟨h1, h2⟩ := heq
            have h3 : i * nx + j = a * nx + b := by omega
            exact encode_inj (show j < nx by omega) (show b < nx by omega) h3)
      have v5 : icount2 (ny - 1) (nx - 1)
          (fun i j =>
            (ny * nx + i * nx + j + nx, ny * nx + i * nx + j + nx + 1))
          (ny * nx + a * nx + b, ny * nx + a * nx + b + 1) = 1 :=
        icount2_one _ _ _ _ (a - 1) b (by omega) hbb
          (by
            have hsa : (a - 1) * nx + nx = a * nx := htN_eq a nx (by omega)
            simp only [Prod.mk.injEq]
            constructor <;> omega)
          (fun i hi j hj heq => by
            rw [Prod.mk.injEq] at heq
            obtain ⟨h1, h2⟩ := heq
            have hs : (i + 1) * nx = i * nx + nx := Nat.succ_mul i nx
            have h3 : (i + 1) * nx + j = a * nx + b := by omega
            obtain ⟨hh1, hh2⟩ := encode_inj (show j < nx by omega)
              (show b < nx by omega) h3
            exact ⟨by omega, by omega⟩)
      have v6 : icount (nx - 1) (fun j => (ny * nx + j, ny * nx + j + 1))
          (ny * nx + a * nx + b, ny * nx + a * nx + b + 1) = 0 :=
        icount_zero _ _ _ (fun j hj heq => by
          rw [Prod.mk.injEq] at heq; obtain ⟨h1, h2⟩ := heq; omega)
      have v7 : icount (nx - 1)
          (fun j =>
            (ny * nx + (ny - 1) * nx + j, ny * nx + (ny - 1) * nx + j + 1))
          (ny * nx + a * nx + b, ny * nx + a * nx + b + 1) = 0 :=
        icount_zero _ _ _ (fun j hj heq => by
          rw [Prod.mk.injEq] at heq
          obtain ⟨h1, h2⟩ := heq
          have h3 : (ny - 1) * nx + j = a * nx + b := by omega
          obtain ⟨hh1, hh2⟩ := encode_inj (show j < nx by omega)
            (show b < nx by omega) h3
          omega)
      omega

theorem surf_count_botV (ny nx a b : ℕ) (hny : 2 ≤ ny) (hnx : 2 ≤ nx)
    (haa : a < ny - 1) (hb : b < nx) :
    (edgeList (terrain_bottom_faces ny nx)).count
        (ny * nx + a * nx + b, ny * nx + a * nx + b + nx) +
      (edgeList (terrain_front_faces ny nx)).count
        (ny * nx + a * nx + b, ny * nx + a * nx + b + nx) +
      (edgeList (terrain_back_faces ny nx)).count
        (ny * nx + a * nx + b, ny * nx + a * nx + b + nx) +
      (edgeList (terrain_left_faces ny nx)).count
        (ny * nx + a * nx + b, ny * nx + a * nx + b + nx) +
      (edgeList (terrain_right_faces ny nx)).count
        (ny * nx + a * nx + b, ny * nx + a * nx + b + nx) = 2 := by
  have hnn : 2 * nx ≤ ny * nx := Nat.mul_le_mul_right nx hny
  have hmA := mul_succ_le nx haa
  have hm1 : 1 * nx ≤ (ny - 1) * nx := Nat.mul_le_mul_right nx (by omega)
  have htN : (ny - 1) * nx + nx = ny * nx := htN_eq ny nx (by omega)
  rw [cnt_bot ny nx hnx (ny * nx + a * nx + b, ny * nx + a * nx + b + nx),
    cnt_front_bot ny nx hny hnx
      (ny * nx + a * nx + b, ny * nx + a * nx + b + nx)
      (by show ny * nx ≤ ny * nx + a * nx + b; omega),
    cnt_back_bot ny nx hny hnx
      (ny * nx + a * nx + b, ny * nx + a * nx + b + nx)
      (by show ny * nx ≤ ny * nx + a * nx + b; omega),
    cnt_left_bot ny nx hny hnx
      (ny * nx + a * nx + b, ny * nx + a * nx + b + nx)
      (by show ny * nx ≤ ny * nx + a * nx + b; omega),
    cnt_right_bot ny nx hny hnx
      (ny * nx + a * nx + b, ny * nx + a * nx + b + nx)
      (by show ny * nx ≤ ny * nx + a * nx + b; omega)]
  have v1 : icount2 (ny - 1) (nx - 1)
      (fun i j => (ny * nx + i * nx + j, ny * nx + i * nx + j + nx + 1))
      (ny * nx + a * nx + b, ny * nx + a * nx + b + nx) = 0 :=
    icount2_zero _ _ _ _ (fun i hi j hj heq => by
      rw [Prod.mk.injEq] at heq; obtain ⟨h1, h2⟩ := heq; omega)
  have v3 : icount2 (ny - 1) (nx - 1)
      (fun i j => (ny * nx + i * nx + j, ny * nx + i * nx + j + 1))
      (ny * nx + a * nx + b, ny * nx + a * nx + b + nx) = 0 :=
    icount2_zero _ _ _ _ (fun i hi j hj heq => by
      rw [Prod.mk.injEq] at heq; obtain ⟨h1, h2⟩ := heq; omega)
  have v5 : icount2 (ny - 1) (nx - 1)
      (fun i j => (ny * nx + i * nx + j + nx, ny * nx + i * nx + j + nx + 1))
      (ny * nx + a * nx + b, ny * nx + a * nx + b + nx) = 0 :=
    icount2_zero _ _ _ _ (fun i hi j hj heq => by
      rw [Prod.mk.injEq] at heq; obtain ⟨h1, h2⟩ := heq; omega)
  have v6 : icount (nx - 1) (fun j => (ny * nx + j, ny * nx + j + 1))
      (ny * nx + a * nx + b, ny * nx + a * nx + b + nx) = 0 :=
    icount_zero _ _ _ (fun j hj heq => by
      rw [Prod.mk.injEq] at heq; obtain ⟨h1, h2⟩ := heq; omega)
  have v7 : icount (nx - 1)
      (fun j => (ny * nx + (ny - 1) * nx + j, ny * nx + (ny - 1) * nx + j + 1))
      (ny * nx + a * nx + b, ny * nx + a * nx + b + nx) = 0 :=
    icount_zero _ _ _ (fun j hj heq => by
      rw [Prod.mk.injEq] at heq; obtain ⟨h1, h2⟩ := heq; omega)
  by_cases hb0 : b = 0
  · subst hb0
    have v2 : icount2 (ny - 1) (nx - 1)
        (fun i j => (ny * nx + i * nx + j + 1, ny * nx + i * nx + j + nx + 1))
        (ny * nx + a * nx + 0, ny * nx + a * nx + 0 + nx) = 0 :=
      icount2_zero _ _ _ _ (fun i hi j hj heq => by
        rw [Prod.mk.injEq] at heq
        obtain ⟨h1, h2⟩ := heq
        have h3 : i * nx + (j + 1) = a * nx + 0 := by omega
        obtain ⟨hh1, hh2⟩ := encode_inj (show j + 1 < nx by omega)
          (show 0 < nx by omega) h3
        omega)
    have v4 : icount2 (ny - 1) (nx - 1)
        (fun i j => (ny * nx + i * nx + j, ny * nx + i * nx + j + nx))
        (ny * nx + a * nx + 0, ny * nx + a * nx + 0 + nx) = 1 :=
      icount2_one _ _ _ _ a 0 haa (by omega) rfl
        (fun i hi j hj heq => by
          rw [Prod.mk.injEq] at heq
          obtain ⟨h1, h2⟩ := heq
          have h3 : i * nx + j = a * nx + 0 := by omega
          exact encode_inj (show j < nx by omega) (show 0 < nx by omega) h3)
    have v8 : icount (ny - 1)
        (fun i => (ny * nx + i * nx, ny * nx + i * nx + nx))
        (ny * nx + a * nx + 0, ny * nx + a * nx + 0 + nx) = 1 :=
      icount_one _ _ _ a haa
        (by simp only [Prod.mk.injEq]; constructor <;> omega)
        (fun i hi heq => by
          rw [Prod.mk.injEq] at heq
          obtain ⟨h1, h2⟩ := heq
          have h3 : i * nx + 0 = a * nx + 0 := by omega
          obtain ⟨hh1, hh2⟩ := encode_inj (show 0 < nx by omega)
            (show 0 < nx by omega) h3
          omega)
    have v9 : icount (ny - 1)
        (fun i => (ny * nx + i * nx + nx - 1, ny * nx + i * nx + nx + nx - 1))
        (ny * nx + a * nx + 0, ny * nx + a * nx + 0 + nx) = 0 :=
      icount_zero _ _ _ (fun i hi heq => by
        rw [Prod.mk.injEq] at heq
        obtain ⟨h1, h2⟩ := heq
        have h3 : i * nx + (nx - 1) = a * nx + 0 := by omega
        obtain ⟨hh1, hh2⟩ := encode_inj (show nx - 1 < nx by omega)
          (show 0 < nx by omega) h3
        omega)
    omega
  · by_cases hbR : b = nx - 1
    · subst hbR
      have v2 : icount2 (ny - 1) (nx - 1)
          (fun i j =>
            (ny * nx + i * nx + j + 1, ny * nx + i * nx + j + nx + 1))
          (ny * nx + a * nx + (nx - 1), ny * nx + a * nx + (nx - 1) + nx)
          = 1 :=
        icount2_one _ _ _ _ a (nx - 1 - 1) haa (by omega)
          (by simp only [Prod.mk.injEq]; constructor <;> omega)
          (fun i hi j hj heq => by
            rw [Prod.mk.injEq] at heq
            obtain ⟨h1, h2⟩ := heq
            have h3 : i * nx + (j + 1) = a * nx + (nx - 1) := by omega
            obtain ⟨hh1, hh2⟩ := encode_inj (show j + 1 < nx by omega)
              (show nx - 1 < nx by omega) h3
            exact ⟨by omega, by omega⟩)
      have v4 : icount2 (ny - 1) (nx - 1)
          (fun i j => (ny * nx + i * nx + j, ny * nx + i * nx + j + nx))
          (ny * nx + a * nx + (nx - 1), ny * nx + a * nx + (nx - 1) + nx)
          = 0 :=
        icount2_zero _ _ _ _ (fun i hi j hj heq => by
          rw [Prod.mk.injEq] at heq
          obtain ⟨h1, h2⟩ := heq
          have h3 : i * nx + j = a * nx + (nx - 1) := by omega
          obtain ⟨hh1, hh2⟩ := encode_inj (show j < nx by omega)
            (show nx - 1 < nx by omega) h3
          omega)
      have v8 : icount (ny - 1)
          (fun i => (ny * nx + i * nx, ny * nx + i * nx + nx))
          (ny * nx + a * nx + (nx - 1), ny * nx + a * nx + (nx - 1) + nx)
          = 0 :=
        icount_zero _ _ _ (fun i hi heq => by
          rw [Prod.mk.injEq] at heq
          obtain ⟨h1, h2⟩ := heq
          have h3 : i * nx + 0 = a * nx + (nx - 1) := by omega
          obtain ⟨hh1, hh2⟩ := encode_inj (show 0 < nx by omega)
            (show nx - 1 < nx by omega) h3
          omega)
      have v9 : icount (ny - 1)
          (fun i =>
            (ny * nx + i * nx + nx - 1, ny * nx + i * nx + nx + nx - 1))
          (ny * nx + a * nx + (nx - 1), ny * nx + a * nx + (nx - 1) + nx)
          = 1 :=
        icount_one _ _ _ a haa
          (by simp only [Prod.mk.injEq]; constructor <;> omega)
          (fun i hi heq => by
            rw [Prod.mk.injEq] at heq
            obtain ⟨h1, h2⟩ := heq
            have h3 : i * nx + (nx - 1) = a * nx + (nx - 1) := by omega
            obtain ⟨hh1, hh2⟩ := encode_inj (show nx - 1 < nx by omega)
              (show nx - 1 < nx by omega) h3
            omega)
      omega
    · have v2 : icount2 (ny - 1) (nx - 1)
          (fun i j =>
            (ny * nx + i * nx + j + 1, ny * nx + i * nx + j + nx + 1))
          (ny * nx + a * nx + b, ny * nx + a * nx + b + nx) = 1 :=
        icount2_one _ _ _ _ a (b - 1) haa (by omega)
          (by simp only [Prod.mk.injEq]; constructor <;> omega)
          (fun i hi j hj heq => by
            rw [Prod.mk.injEq] at heq
            obtain ⟨h1, h2⟩ := heq
            have h3 : i * nx + (j + 1) = a * nx + b := by omega
            obtain ⟨hh1, hh2⟩ := encode_inj (show j + 1 < nx by omega) hb h3
            exact ⟨by omega, by omega⟩)
      have v4 : icount2 (ny - 1) (nx - 1)
          (fun i j => (ny * nx + i * nx + j, ny * nx + i * nx + j + nx))
          (ny * nx + a * nx + b, ny * nx + a * nx + b + nx) = 1 :=
        icount2_one _ _ _ _ a b haa (by omega) rfl
          (fun i hi j hj heq => by
            rw [Prod.mk.injEq] at heq
            obtain ⟨h1, h2⟩ := heq
            have h3 : i * nx + j = a * nx + b := by omega
            exact encode_inj (show j < nx by omega) hb h3)
      have v8 : icount (ny - 1)
          (fun i => (ny * nx + i * nx, ny * nx + i * nx + nx))
          (ny * nx + a * nx + b, ny * nx + a * nx + b + nx) = 0 :=
        icount_zero _ _ _ (fun i hi heq => by
          rw [Prod.mk.injEq] at heq
          obtain ⟨h1, h2⟩ := heq
          have h3 : i * nx + 0 = a * nx + b := by omega
          obtain ⟨hh1, hh2⟩ := encode_inj (show 0 < nx by omega) hb h3
          omega)
      have v9 : icount (ny - 1)
          (fun i =>
            (ny * nx + i * nx + nx - 1, ny * nx + i * nx + nx + nx - 1))
          (ny * nx + a * nx + b, ny * nx + a * nx + b + nx) = 0 :=
        icount_zero _ _ _ (fun i hi heq => by
          rw [Prod.mk.injEq] at heq
          obtain ⟨h1, h2⟩ := heq
          have h3 : i * nx + (nx - 1) = a * nx + b := by omega
          obtain ⟨hh1, hh2⟩ := encode_inj (show nx - 1 < nx by omega) hb h3
          omega)
      omega

theorem terrain_count_split (ny nx : ℕ) (e : ℕ × ℕ) :
    (edgeList (terrain_faces ny nx)).count e =
      (edgeList (terrain_top_faces ny nx)).count e +
      (edgeList (terrain_bottom_faces ny nx)).count e +
      (edgeList (terrain_front_faces ny nx)).count e +
      (edgeList (terrain_back_faces ny nx)).count e +
      (edgeList (terrain_left_faces ny nx)).count e +
      (edgeList (terrain_right_faces ny nx)).count e := by
  unfold terrain_faces edgeList
  simp only [List.flatMap_append, List.count_append]

theorem terrain_closed (ny nx : ℕ) (hny : 2 ≤ ny) (hnx : 2 ≤ nx) :
    IsClosedMesh (terrain_faces ny nx) := by
  have hnn : 2 * nx ≤ ny * nx := Nat.mul_le_mul_right nx hny
  have htN : (ny - 1) * nx + nx = ny * nx := htN_eq ny nx (by omega)
  have hnd := terrain_faces_nondeg ny nx hny hnx
  intro e he
  rw [sharedCount_eq_count _ hnd e, terrain_count_split ny nx e]
  unfold terrain_faces edgeList at he
  simp only [List.flatMap_append, List.mem_append] at he
  rcases he with ((((ht | hb) | hf) | hk) | hl) | hr
  · have hdec := mem_family2 _ _ _ _ _ _ _ _ _ _ e
      (fun i _ j _ => edges_top ny nx hnx i j) ht
    obtain ⟨i, hi, j, hj, hc⟩ := hdec
    have hmi := mul_succ_le nx hi
    rcases hc with hc | hc | hc | hc | hc | hc <;> subst hc
    · have hv := surf_count_H ny nx i j hny hnx (by omega) hj
      have hz := cnt_bot_zero ny nx hnx (i * nx + j, i * nx + j + 1)
        (by show i * nx + j < ny * nx; omega)
      omega
    · have hv := surf_count_V ny nx i (j + 1) hny hnx hi (by omega)
      have hpm : ((i * nx + (j + 1), i * nx + (j + 1) + nx) : ℕ × ℕ) =
          (i * nx + j + 1, i * nx + j + nx + 1) := by
        simp only [Prod.mk.injEq]; constructor <;> omega
      rw [hpm] at hv
      have hz := cnt_bot_zero ny nx hnx (i * nx + j + 1, i * nx + j + nx + 1)
        (by show i * nx + j + 1 < ny * nx; omega)
      omega
    · have hv := surf_count_D ny nx i j hny hnx hi hj
      have hz := cnt_bot_zero ny nx hnx (i * nx + j, i * nx + j + nx + 1)
        (by show i * nx + j < ny * nx; omega)
      omega
    · have hv := surf_count_D ny nx i j hny hnx hi hj
      have hz := cnt_bot_zero ny nx hnx (i * nx + j, i * nx + j + nx + 1)
        (by show i * nx + j < ny * nx; omega)
      omega
    · have hs : (i + 1) * nx = i * nx + nx := Nat.succ_mul i nx
      have hv := surf_count_H ny nx (i + 1) j hny hnx (by omega) hj
      have hpm : (((i + 1) * nx + j, (i + 1) * nx + j + 1) : ℕ × ℕ) =
          (i * nx + j + nx, i * nx + j + nx + 1) := by
        simp only [Prod.mk.injEq]; constructor <;> omega
      rw [hpm] at hv
      have hz := cnt_bot_zero ny nx hnx
        (i * nx + j + nx, i * nx + j + nx + 1)
        (by show i * nx + j + nx < ny * nx; omega)
      omega
    · have hv := surf_count_V ny nx i j hny hnx hi (by omega)
      have hz := cnt_bot_zero ny nx hnx (i * nx + j, i * nx + j + nx)
        (by show i * nx + j < ny * nx; omega)
      omega
  · have hdec := mem_family2 _ _ _ _ _ _ _ _ _ _ e
      (fun i _ j _ => edges_bottom ny nx hnx i j) hb
    obtain ⟨i, hi, j, hj, hc⟩ := hdec
    have hmi := mul_succ_le nx hi
    rcases hc with hc | hc | hc | hc | hc | hc <;> subst hc
    · have hv := surf_count_botD ny nx i j hny hnx hi hj
      have hz := cnt_top_zero ny nx hnx
        (ny * nx + i * nx + j, ny * nx + i * nx + j + nx + 1)
        (by show ny * nx ≤ ny * nx + i * nx + j + nx + 1; omega)
      omega
    · have hv := surf_count_botV ny nx i (j + 1) hny hnx hi (by omega)
      have hpm : ((ny * nx + i * nx + (j + 1),
          ny * nx + i * nx + (j + 1) + nx) : ℕ × ℕ) =
          (ny * nx + i * nx + j + 1, ny * nx + i * nx + j + nx + 1) := by
        simp only [Prod.mk.injEq]; constructor <;> omega
      rw [hpm] at hv
      have hz := cnt_top_zero ny nx hnx
        (ny * nx + i * nx + j + 1, ny * nx + i * nx + j + nx + 1)
        (by show ny * nx ≤ ny * nx + i * nx + j + nx + 1; omega)
      omega
    · have hv := surf_count_botH ny nx i j hny hnx (by omega) hj
      have hz := cnt_top_zero ny nx hnx
        (ny * nx + i * nx + j, ny * nx + i * nx + j + 1)
        (by show ny * nx ≤ ny * nx + i * nx + j + 1; omega)
      omega
    · have hv := surf_count_botV ny nx i j hny hnx hi (by omega)
      have hz := cnt_top_zero ny nx hnx
        (ny * nx + i * nx + j, ny * nx + i * nx + j + nx)
        (by show ny * nx ≤ ny * nx + i * nx + j + nx; omega)
      omega
    · have hs : (i + 1) * nx = i * nx + nx := Nat.succ_mul i nx
      have hv := surf_count_botH ny nx (i + 1) j hny hnx (by omega) hj
      have hpm : ((ny * nx + (i + 1) * nx + j,
          ny * nx + (i + 1) * nx + j + 1) : ℕ × ℕ) =
          (ny * nx + i * nx + j + nx, ny * nx + i * nx + j + nx + 1) := by
        simp only [Prod.mk.injEq]; constructor <;> omega
      rw [hpm] at hv
      have hz := cnt_top_zero ny nx hnx
        (ny * nx + i * nx + j + nx, ny * nx + i * nx + j + nx + 1)
        (by show ny * nx ≤ ny * nx + i * nx + j + nx + 1; omega)
      omega
    · have hv := surf_count_botD ny nx i j hny hnx hi hj
      have hz := cnt_top_zero ny nx hnx
        (ny * nx + i * nx + j, ny * nx + i * nx + j + nx + 1)
        (by show ny * nx ≤ ny * nx + i * nx + j + nx + 1; omega)
      omega
  · have hdec := mem_family1 _ _ _ _ _ _ _ _ _ e
      (fun j _ => edges_front ny nx hny hnx j) hf
    obtain ⟨j, hj, hc⟩ := hdec
    rcases hc with hc | hc | hc | hc | hc | hc <;> subst hc
    · have hv := skirt_count_S ny nx 0 j hny hnx (by omega) (by omega)
        (by omega)
      have hpm : ((0 * nx + j, ny * nx + 0 * nx + j) : ℕ × ℕ) =
          (j, ny * nx + j) := by
        simp only [Prod.mk.injEq]; constructor <;> omega
      rw [hpm] at hv
      have hz1 := cnt_top_zero ny nx hnx (j, ny * nx + j)
        (by show ny * nx ≤ ny * nx + j; omega)
      have hz2 := cnt_bot_zero ny nx hnx (j, ny * nx + j)
        (by show j < ny * nx; omega)
      omega
    · have hv := skirt_count_FD ny nx j hny hnx hj
      have hz1 := cnt_top_zero ny nx hnx (j + 1, ny * nx + j)
        (by show ny * nx ≤ ny * nx + j; omega)
      have hz2 := cnt_bot_zero ny nx hnx (j + 1, ny * nx + j)
        (by show j + 1 < ny * nx; omega)
      omega
    · have hv := surf_count_H ny nx 0 j hny hnx (by omega) hj
      have hpm : ((0 * nx + j, 0 * nx + j + 1) : ℕ × ℕ) = (j, j + 1) := by
        simp only [Prod.mk.injEq]; constructor <;> omega
      rw [hpm] at hv
      have hz := cnt_bot_zero ny nx hnx (j, j + 1)
        (by show j < ny * nx; omega)
      omega
    · have hv := skirt_count_FD ny nx j hny hnx hj
      have hz1 := cnt_top_zero ny nx hnx (j + 1, ny * nx + j)
        (by show ny * nx ≤ ny * nx + j; omega)
      have hz2 := cnt_bot_zero ny nx hnx (j + 1, ny * nx + j)
        (by show j + 1 < ny * nx; omega)
      omega
    · have hv := surf_count_botH ny nx 0 j hny hnx (by omega) hj
      have hpm : ((ny * nx + 0 * nx + j, ny * nx + 0 * nx + j + 1) : ℕ × ℕ) =
          (ny * nx + j, ny * nx + j + 1) := by
        simp only [Prod.mk.injEq]; constructor <;> omega
      rw [hpm] at hv
      have hz := cnt_top_zero ny nx hnx (ny * nx + j, ny * nx + j + 1)
        (by show ny * nx ≤ ny * nx + j + 1; omega)
      omega
    · have hv := skirt_count_S ny nx 0 (j + 1) hny hnx (by omega) (by omega)
        (by omega)
      have hpm : ((0 * nx + (j + 1), ny * nx + 0 * nx + (j + 1)) : ℕ × ℕ) =
          (j + 1, ny * nx + j + 1) := by
        simp only [Prod.mk.injEq]; constructor <;> omega
      rw [hpm] at hv
      have hz1 := cnt_top_zero ny nx hnx (j + 1, ny * nx + j + 1)
        (by show ny * nx ≤ ny * nx + j + 1; omega)
      have hz2 := cnt_bot_zero ny nx hnx (j + 1, ny * nx + j + 1)
        (by show j + 1 < ny * nx; omega)
      omega
  · have hdec := mem_family1 _ _ _ _ _ _ _ _ _ e
      (fun j _ => edges_back ny nx hny hnx j) hk
    obtain ⟨j, hj, hc⟩ := hdec
    have hm1 : 1 * nx ≤ (ny - 1) * nx := Nat.mul_le_mul_right nx (by omega)
    rcases hc with hc | hc | hc | hc | hc | hc <;> subst hc
    · have hv := surf_count_H ny nx (ny - 1) j hny hnx (by omega) hj
      have hz := cnt_bot_zero ny nx hnx
        ((ny - 1) * nx + j, (ny - 1) * nx + j + 1)
        (by show (ny - 1) * nx + j < ny * nx; omega)
      omega
    · have hv := skirt_count_BD ny nx j hny hnx hj
      have hz1 := cnt_top_zero ny nx hnx
        ((ny - 1) * nx + j + 1, ny * nx + (ny - 1) * nx + j)
        (by show ny * nx ≤ ny * nx + (ny - 1) * nx + j; omega)
      have hz2 := cnt_bot_zero ny nx hnx
        ((ny - 1) * nx + j + 1, ny * nx + (ny - 1) * nx + j)
        (by show (ny - 1) * nx + j + 1 < ny * nx; omega)
      omega
    · have hv := skirt_count_S ny nx (ny - 1) j hny hnx (by omega) (by omega)
        (by omega)
      have hz1 := cnt_top_zero ny nx hnx
        ((ny - 1) * nx + j, ny * nx + (ny - 1) * nx + j)
        (by show ny * nx ≤ ny * nx + (ny - 1) * nx + j; omega)
      have hz2 := cnt_bot_zero ny nx hnx
        ((ny - 1) * nx + j, ny * nx + (ny - 1) * nx + j)
        (by show (ny - 1) * nx + j < ny * nx; omega)
      omega
    · have hv := skirt_count_S ny nx (ny - 1) (j + 1) hny hnx (by omega)
        (by omega) (by omega)
      have hpm : (((ny - 1) * nx + (j + 1),
          ny * nx + (ny - 1) * nx + (j + 1)) : ℕ × ℕ) =
          ((ny - 1) * nx + j + 1, ny * nx + (ny - 1) * nx + j + 1) := by
        simp only [Prod.mk.injEq]; constructor <;> omega
      rw [hpm] at hv
      have hz1 := cnt_top_zero ny nx hnx
        ((ny - 1) * nx + j + 1, ny * nx + (ny - 1) * nx + j + 1)
        (by show ny * nx ≤ ny * nx + (ny - 1) * nx + j + 1; omega)
      have hz2 := cnt_bot_zero ny nx hnx
        ((ny - 1) * nx + j + 1, ny * nx + (ny - 1) * nx + j + 1)
        (by show (ny - 1) * nx + j + 1 < ny * nx; omega)
      omega
    · have hv := surf_count_botH ny nx (ny - 1) j hny hnx (by omega) hj
      have hz := cnt_top_zero ny nx hnx
        (ny * nx + (ny - 1) * nx + j, ny * nx + (ny - 1) * nx + j + 1)
        (by show ny * nx ≤ ny * nx + (ny - 1) * nx + j + 1; omega)
      omega
    · have hv := skirt_count_BD ny nx j hny hnx hj
      have hz1 := cnt_top_zero ny nx hnx
        ((ny - 1) * nx + j + 1, ny * nx + (ny - 1) * nx + j)
        (by show ny * nx ≤ ny * nx + (ny - 1) * nx + j; omega)
      have hz2 := cnt_bot_zero ny nx hnx
        ((ny - 1) * nx + j + 1, ny * nx + (ny - 1) * nx + j)
        (by show (ny - 1) * nx + j + 1 < ny * nx; omega)
      omega
  · have hdec := mem_family1 _ _ _ _ _ _ _ _ _ e
      (fun i _ => edges_left ny nx hny hnx i) hl
    obtain ⟨i, hi, hc⟩ := hdec
    have hmi := mul_succ_le nx hi
    have hs : (i + 1) * nx = i * nx + nx := Nat.succ_mul i nx
    rcases hc with hc | hc | hc | hc | hc | hc <;> subst hc
    · have hv := surf_count_V ny nx i 0 hny hnx hi (by omega)
      have hpm : ((i * nx + 0, i * nx + 0 + nx) : ℕ × ℕ) =
          (i * nx, i * nx + nx) := by
        simp only [Prod.mk.injEq]; constructor <;> omega
      rw [hpm] at hv
      have hz := cnt_bot_zero ny nx hnx (i * nx, i * nx + nx)
        (by show i * nx < ny * nx; omega)
      omega
    · have hv := skirt_count_LD ny nx i hny hnx hi
      have hz1 := cnt_top_zero ny nx hnx (i * nx + nx, ny * nx + i * nx)
        (by show ny * nx ≤ ny * nx + i * nx; omega)
      have hz2 := cnt_bot_zero ny nx hnx (i * nx + nx, ny * nx + i * nx)
        (by show i * nx + nx < ny * nx; omega)
      omega
    · have hv := skirt_count_S ny nx i 0 hny hnx (by omega) (by omega)
        (by omega)
      have hpm : ((i * nx + 0, ny * nx + i * nx + 0) : ℕ × ℕ) =
          (i * nx, ny * nx + i * nx) := by
        simp only [Prod.mk.injEq]; constructor <;> omega
      rw [hpm] at hv
      have hz1 := cnt_top_zero ny nx hnx (i * nx, ny * nx + i * nx)
        (by show ny * nx ≤ ny * nx + i * nx; omega)
      have hz2 := cnt_bot_zero ny nx hnx (i * nx, ny * nx + i * nx)
        (by show i * nx < ny * nx; omega)
      omega
    · have hv := skirt_count_S ny nx (i + 1) 0 hny hnx (by omega) (by omega)
        (by omega)
      have hpm : (((i + 1) * nx + 0, ny * nx + (i + 1) * nx + 0) : ℕ × ℕ) =
          (i * nx + nx, ny * nx + i * nx + nx) := by
        simp only [Prod.mk.injEq]; constructor <;> omega
      rw [hpm] at hv
      have hz1 := cnt_top_zero ny nx hnx
        (i * nx + nx, ny * nx + i * nx + nx)
        (by show ny * nx ≤ ny * nx + i * nx + nx; omega)
      have hz2 := cnt_bot_zero ny nx hnx
        (i * nx + nx, ny * nx + i * nx + nx)
        (by show i * nx + nx < ny * nx; omega)
      omega
    · have hv := surf_count_botV ny nx i 0 hny hnx hi (by omega)
      have hpm : ((ny * nx + i * nx + 0,
          ny * nx + i * nx + 0 + nx) : ℕ × ℕ) =
          (ny * nx + i * nx, ny * nx + i * nx + nx) := by
        simp only [Prod.mk.injEq]; constructor <;> omega
      rw [hpm] at hv
      have hz := cnt_top_zero ny nx hnx
        (ny * nx + i * nx, ny * nx + i * nx + nx)
        (by show ny * nx ≤ ny * nx + i * nx + nx; omega)
      omega
    · have hv := skirt_count_LD ny nx i hny hnx hi
      have hz1 := cnt_top_zero ny nx hnx (i * nx + nx, ny * nx + i * nx)
        (by show ny * nx ≤ ny * nx + i * nx; omega)
      have hz2 := cnt_bot_zero ny nx hnx (i * nx + nx, ny * nx + i * nx)
        (by show i * nx + nx < ny * nx; omega)
      omega
  · have hdec := mem_family1 _ _ _ _ _ _ _ _ _ e
      (fun i _ => edges_right ny nx hny hnx i) hr
    obtain ⟨i, hi, hc⟩ := hdec
    have hmi := mul_succ_le nx hi
    have hs : (i + 1) * nx = i * nx + nx := Nat.succ_mul i nx
    rcases hc with hc | hc | hc | hc | hc | hc <;> subst hc
    · have hv := skirt_count_S ny nx i (nx - 1) hny hnx (by omega) (by omega)
        (by omega)
      have hpm : ((i * nx + (nx - 1), ny * nx + i * nx + (nx - 1)) : ℕ × ℕ) =
          (i * nx + nx - 1, ny * nx + i * nx + nx - 1) := by
        simp only [Prod.mk.injEq]; constructor <;> omega
      rw [hpm] at hv
      have hz1 := cnt_top_zero ny nx hnx
        (i * nx + nx - 1, ny * nx + i * nx + nx - 1)
        (by show ny * nx ≤ ny * nx + i * nx + nx - 1; omega)
      have hz2 := cnt_bot_zero ny nx hnx
        (i * nx + nx - 1, ny * nx + i * nx + nx - 1)
        (by show i * nx + nx - 1 < ny * nx; omega)
      omega
    · have hv := skirt_count_RD ny nx i hny hnx hi
      have hz1 := cnt_top_zero ny nx hnx
        (i * nx + nx + nx - 1, ny * nx + i * nx + nx - 1)
        (by show ny * nx ≤ ny * nx + i * nx + nx - 1; omega)
      have hz2 := cnt_bot_zero ny nx hnx
        (i * nx + nx + nx - 1, ny * nx + i * nx + nx - 1)
        (by show i * nx + nx + nx - 1 < ny * nx; omega)
      omega
    · have hv := surf_count_V ny nx i (nx - 1) hny hnx hi (by omega)
      have hpm : ((i * nx + (nx - 1), i * nx + (nx - 1) + nx) : ℕ × ℕ) =
          (i * nx + nx - 1, i * nx + nx + nx - 1) := by
        simp only [Prod.mk.injEq]; constructor <;> omega
      rw [hpm] at hv
      have hz := cnt_bot_zero ny nx hnx
        (i * nx + nx - 1, i * nx + nx + nx - 1)
        (by show i * nx + nx - 1 < ny * nx; omega)
      omega
    · have hv := skirt_count_RD ny nx i hny hnx hi
      have hz1 := cnt_top_zero ny nx hnx
        (i * nx + nx + nx - 1, ny * nx + i * nx + nx - 1)
        (by show ny * nx ≤ ny * nx + i * nx + nx - 1; omega)
      have hz2 := cnt_bot_zero ny nx hnx
        (i * nx + nx + nx - 1, ny * nx + i * nx + nx - 1)
        (by show i * nx + nx + nx - 1 < ny * nx; omega)
      omega
    · have hv := surf_count_botV ny nx i (nx - 1) hny hnx hi (by omega)
      have hpm : ((ny * nx + i * nx + (nx - 1),
          ny * nx + i * nx + (nx - 1) + nx) : ℕ × ℕ) =
          (ny * nx + i * nx + nx - 1, ny * nx + i * nx + nx + nx - 1) := by
        simp only [Prod.mk.injEq]; constructor <;> omega
      rw [hpm] at hv
      have hz := cnt_top_zero ny nx hnx
        (ny * nx + i * nx + nx - 1, ny * nx + i * nx + nx + nx - 1)
        (by show ny * nx ≤ ny * nx + i * nx + nx + nx - 1; omega)
      omega
    · have hv := skirt_count_S ny nx (i + 1) (nx - 1) hny hnx (by omega)
        (by omega) (by omega)
      have hpm : (((i + 1) * nx + (nx - 1),
          ny * nx + (i + 1) * nx + (nx - 1)) : ℕ × ℕ) =
          (i * nx + nx + nx - 1, ny * nx + i * nx + nx + nx - 1) := by
        simp only [Prod.mk.injEq]; constructor <;> omega
      rw [hpm] at hv
      have hz1 := cnt_top_zero ny nx hnx
        (i * nx + nx + nx - 1, ny * nx + i * nx + nx + nx - 1)
        (by show ny * nx ≤ ny * nx + i * nx + nx + nx - 1; omega)
      have hz2 := cnt_bot_zero ny nx hnx
        (i * nx + nx + nx - 1, ny * nx + i * nx + nx + nx - 1)
        (by show i * nx + nx + nx - 1 < ny * nx; omega)
      omega

theorem fb_count_H (ny nx a b : ℕ) (hny : 2 ≤ ny) (hnx : 2 ≤ nx)
    (ha : a < ny) (hbb : b < nx - 1) :
    (edgeList (flat_bottom_top_faces ny nx)).count
        (a * nx + b, a * nx + b + 1) +
      (edgeList (terrain_front_faces ny nx)).count
        (a * nx + b, a * nx + b + 1) +
      (edgeList (terrain_back_faces ny nx)).count
        (a * nx + b, a * nx + b + 1) +
      (edgeList (terrain_left_faces ny nx)).count
        (a * nx + b, a * nx + b + 1) +
      (edgeList (terrain_right_faces ny nx)).count
        (a * nx + b, a * nx + b + 1) = 2 := by
  have hnn : 2 * nx ≤ ny * nx := Nat.mul_le_mul_right nx hny
  have hmA := mul_succ_le nx ha
  have hm1 : 1 * nx ≤ (ny - 1) * nx := Nat.mul_le_mul_right nx (by omega)
  have htN : (ny - 1) * nx + nx = ny * nx := htN_eq ny nx (by omega)
  rw [cnt_fbtop ny nx hnx (a * nx + b, a * nx + b + 1),
    cnt_front_top ny nx hny hnx (a * nx + b, a * nx + b + 1)
      (by show a * nx + b + 1 < ny * nx; omega),
    cnt_back_top ny nx hny hnx (a * nx + b, a * nx + b + 1)
      (by show a * nx + b + 1 < ny * nx; omega),
    cnt_left_top ny nx hny hnx (a * nx + b, a * nx + b + 1)
      (by show a * nx + b + 1 < ny * nx; omega),
    cnt_right_top ny nx hny hnx (a * nx + b, a * nx + b + 1)
      (by show a * nx + b + 1 < ny * nx; omega)]
  have v2 : icount2 (ny - 1) (nx - 1)
      (fun i j => (i * nx + j + 1, i * nx + j + nx))
      (a * nx + b, a * nx + b + 1) = 0 :=
    icount2_zero _ _ _ _ (fun i hi j hj heq => by
      rw [Prod.mk.injEq] at heq
      obtain ⟨h1, h2⟩ := heq
      by_cases hnx2 : nx = 2
      · subst hnx2; omega
      · omega)
  have v3 : icount2 (ny - 1) (nx - 1)
      (fun i j => (i * nx + j, i * nx + j + nx))
      (a * nx + b, a * nx + b + 1) = 0 :=
    icount2_zero _ _ _ _ (fun i hi j hj heq => by
      rw [Prod.mk.injEq] at heq; obtain ⟨h1, h2⟩ := heq; omega)
  have v4 : icount2 (ny - 1) (nx - 1)
      (fun i j => (i * nx + j + 1, i * nx + j + nx + 1))
      (a * nx + b, a * nx + b + 1) = 0 :=
    icount2_zero _ _ _ _ (fun i hi j hj heq => by
      rw [Prod.mk.injEq] at heq; obtain ⟨h1, h2⟩ := heq; omega)
  have v8 : icount (ny - 1) (fun i => (i * nx, i * nx + nx))
      (a * nx + b, a * nx + b + 1) = 0 :=
    icount_zero _ _ _ (fun i hi heq => by
      rw [Prod.mk.injEq] at heq; obtain ⟨h1, h2⟩ := heq; omega)
  have v9 : icount (ny - 1)
      (fun i => (i * nx + nx - 1, i * nx + nx + nx - 1))
      (a * nx + b, a * nx + b + 1) = 0 :=
    icount_zero _ _ _ (fun i hi heq => by
      rw [Prod.mk.injEq] at heq; obtain ⟨h1, h2⟩ := heq; omega)
  by_cases ha0 : a = 0
  · subst ha0
    have v1 : icount2 (ny - 1) (nx - 1)
        (fun i j => (i * nx + j, i * nx + j + 1))
        (0 * nx + b, 0 * nx + b + 1) = 1 :=
      icount2_one _ _ _ _ 0 b (by omega) hbb rfl
        (fun i hi j hj heq => by
          rw [Prod.mk.injEq] at heq
          obtain ⟨h1, h2⟩ := heq
          have h3 : i * nx + j = 0 * nx + b := by omega
          exact encode_inj (show j < nx by omega) (show b < nx by omega) h3)
    have v5 : icount2 (ny - 1) (nx - 1)
        (fun i j => (i * nx + j + nx, i * nx + j + nx + 1))
        (0 * nx + b, 0 * nx + b + 1) = 0 :=
      icount2_zero _ _ _ _ (fun i hi j hj heq => by
        rw [Prod.mk.injEq] at heq; obtain ⟨h1, h2⟩ := heq; omega)
    have v6 : icount (nx - 1) (fun j => (j, j + 1))
        (0 * nx + b, 0 * nx + b + 1) = 1 :=
      icount_one _ _ _ b hbb
        (by simp only [Prod.mk.injEq]; constructor <;> omega)
        (fun j hj heq => by
          rw [Prod.mk.injEq] at heq; obtain ⟨h1, h2⟩ := heq; omega)
    have v7 : icount (nx - 1)
        (fun j => ((ny - 1) * nx + j, (ny - 1) * nx + j + 1))
        (0 * nx + b, 0 * nx + b + 1) = 0 :=
      icount_zero _ _ _ (fun j hj heq => by
        rw [Prod.mk.injEq] at heq; obtain ⟨h1, h2⟩ := heq; omega)
    omega
  · by_cases haT : a = ny - 1
    · subst haT
      have v1 : icount2 (ny - 1) (nx - 1)
          (fun i j => (i * nx + j, i * nx + j + 1))
          ((ny - 1) * nx + b, (ny - 1) * nx + b + 1) = 0 :=
        icount2_zero _ _ _ _ (fun i hi j hj heq => by
          rw [Prod.mk.injEq] at heq
          obtain ⟨h1, h2⟩ := heq
          obtain ⟨hh1, hh2⟩ := encode_inj (show j < nx by omega)
            (show b < nx by omega) h1
          omega)
      have v5 : icount2 (ny - 1) (nx - 1)
          (fun i j => (i * nx + j + nx, i * nx + j + nx + 1))
          ((ny - 1) * nx + b, (ny - 1) * nx + b + 1) = 1 :=
        icount2_one _ _ _ _ (ny - 1 - 1) b (by omega) hbb
          (by
            have hsa : (ny - 1 - 1) * nx + nx = (ny - 1) * nx :=
              htN_eq (ny - 1) nx (by omega)
            simp only [Prod.mk.injEq]
            constructor <;> omega)
          (fun i hi j hj heq => by
            rw [Prod.mk.injEq] at heq
            obtain ⟨h1, h2⟩ := heq
            have hs : (i + 1) * nx = i * nx + nx := Nat.succ_mul i nx
            have h3 : (i + 1) * nx + j = (ny - 1) * nx + b := by omega
            obtain ⟨hh1, hh2⟩ := encode_inj (show j < nx by omega)
              (show b < nx by omega) h3
            exact ⟨by omega, by omega⟩)
      have v6 : icount (nx - 1) (fun j => (j, j + 1))
          ((ny - 1) * nx + b, (ny - 1) * nx + b + 1) = 0 :=
        icount_zero _ _ _ (fun j hj heq => by
          rw [Prod.mk.injEq] at heq; obtain ⟨h1, h2⟩ := heq; omega)
      have v7 : icount (nx - 1)
          (fun j => ((ny - 1) * nx + j, (ny - 1) * nx + j + 1))
          ((ny - 1) * nx + b, (ny - 1) * nx + b + 1) = 1 :=
        icount_one _ _ _ b hbb rfl (fun j hj heq => by
          rw [Prod.mk.injEq] at heq; obtain ⟨h1, h2⟩ := heq; omega)
      omega
    · have hm1a : 1 * nx ≤ a * nx := Nat.mul_le_mul_right nx (by omega)
      have v1 : icount2 (ny - 1) (nx - 1)
          (fun i j => (i * nx + j, i * nx + j + 1))
          (a * nx + b, a * nx + b + 1) = 1 :=
        icount2_one _ _ _ _ a b (by omega) hbb rfl
          (fun i hi j hj heq => by
            rw [Prod.mk.injEq] at heq
            obtain ⟨h1, h2⟩ := heq
            exact encode_inj (show j < nx by omega) (show b < nx by omega) h1)
      have v5 : icount2 (ny - 1) (nx - 1)
          (fun i j => (i * nx + j + nx, i * nx + j + nx + 1))
          (a * nx + b, a * nx + b + 1) = 1 :=
        icount2_one _ _ _ _ (a - 1) b (by omega) hbb
          (by
            have hsa : (a - 1) * nx + nx = a * nx := htN_eq a nx (by omega)
            simp only [Prod.mk.injEq]
            constructor <;> omega)
          (fun i hi j hj heq => by
            rw [Prod.mk.injEq] at heq
            obtain ⟨h1, h2⟩ := heq
            have hs : (i + 1) * nx = i * nx + nx := Nat.succ_mul i nx
            have h3 : (i + 1) * nx + j = a * nx + b := by omega
            obtain ⟨hh1, hh2⟩ := encode_inj (show j < nx by omega)
              (show b < nx by omega) h3
            exact ⟨by omega, by omega⟩)
      have v6 : icount (nx - 1) (fun j => (j, j + 1))
          (a * nx + b, a * nx + b + 1) = 0 :=
        icount_zero _ _ _ (fun j hj heq => by
          rw [Prod.mk.injEq] at heq; obtain ⟨h1, h2⟩ := heq; omega)
      have v7 : icount (nx - 1)
          (fun j => ((ny - 1) * nx + j, (ny - 1) * nx + j + 1))
          (a * nx + b, a * nx + b + 1) = 0 :=
        icount_zero _ _ _ (fun j hj heq => by
          rw [Prod.mk.injEq] at heq
          obtain ⟨h1, h2⟩ := heq
          obtain ⟨hh1, hh2⟩ := encode_inj (show j < nx by omega)
            (show b < nx by omega) h1
          omega)
      omega

theorem fb_count_V (ny nx a b : ℕ) (hny : 2 ≤ ny) (hnx : 2 ≤ nx)
    (haa : a < ny - 1) (hb : b < nx) :
    (edgeList (flat_bottom_top_faces ny nx)).count
        (a * nx + b, a * nx + b + nx) +
      (edgeList (terrain_front_faces ny nx)).count
        (a * nx + b, a * nx + b + nx) +
      (edgeList (terrain_back_faces ny nx)).count
        (a * nx + b, a * nx + b + nx) +
      (edgeList (terrain_left_faces ny nx)).count
        (a * nx + b, a * nx + b + nx) +
      (edgeList (terrain_right_faces ny nx)).count
        (a * nx + b, a * nx + b + nx) = 2 := by
  have hnn : 2 * nx ≤ ny * nx := Nat.mul_le_mul_right nx hny
  have hmA := mul_succ_le nx haa
  have hm1 : 1 * nx ≤ (ny - 1) * nx := Nat.mul_le_mul_right nx (by omega)
  have htN : (ny - 1) * nx + nx = ny * nx := htN_eq ny nx (by omega)
  rw [cnt_fbtop ny nx hnx (a * nx + b, a * nx + b + nx),
    cnt_front_top ny nx hny hnx (a * nx + b, a * nx + b + nx)
      (by show a * nx + b + nx < ny * nx; omega),
    cnt_back_top ny nx hny hnx (a * nx + b, a * nx + b + nx)
      (by show a * nx + b + nx < ny * nx; omega),
    cnt_left_top ny nx hny hnx (a * nx + b, a * nx + b + nx)
      (by show a * nx + b + nx < ny * nx; omega),
    cnt_right_top ny nx hny hnx (a * nx + b, a * nx + b + nx)
      (by show a * nx + b + nx < ny * nx; omega)]
  have v1 : icount2 (ny - 1) (nx - 1)
      (fun i j => (i * nx + j, i * nx + j + 1))
      (a * nx + b, a * nx + b + nx) = 0 :=
    icount2_zero _ _ _ _ (fun i hi j hj heq => by
      rw [Prod.mk.injEq] at heq; obtain ⟨h1, h2⟩ := heq; omega)
  have v2 : icount2 (ny - 1) (nx - 1)
      (fun i j => (i * nx + j + 1, i * nx + j + nx))
      (a * nx + b, a * nx + b + nx) = 0 :=
    icount2_zero _ _ _ _ (fun i hi j hj heq => by
      rw [Prod.mk.injEq] at heq; obtain ⟨h1, h2⟩ := heq; omega)
  have v5 : icount2 (ny - 1) (nx - 1)
      (fun i j => (i * nx + j + nx, i * nx + j + nx + 1))
      (a * nx + b, a * nx + b + nx) = 0 :=
    icount2_zero _ _ _ _ (fun i hi j hj heq => by
      rw [Prod.mk.injEq] at heq; obtain ⟨h1, h2⟩ := heq; omega)
  have v6 : icount (nx - 1) (fun j => (j, j + 1))
      (a * nx + b, a * nx + b + nx) = 0 :=
    icount_zero _ _ _ (fun j hj heq => by
      rw [Prod.mk.injEq] at heq; obtain ⟨h1, h2⟩ := heq; omega)
  have v7 : icount (nx - 1)
      (fun j => ((ny - 1) * nx + j, (ny - 1) * nx + j + 1))
      (a * nx + b, a * nx + b + nx) = 0 :=
    icount_zero _ _ _ (fun j hj heq => by
      rw [Prod.mk.injEq] at heq; obtain ⟨h1, h2⟩ := heq; omega)
  by_cases hb0 : b = 0
  · subst hb0
    have v3 : icount2 (ny - 1) (nx - 1)
        (fun i j => (i * nx + j, i * nx + j + nx))
        (a * nx + 0, a * nx + 0 + nx) = 1 :=
      icount2_one _ _ _ _ a 0 haa (by omega) rfl
        (fun i hi j hj heq => by
          rw [Prod.mk.injEq] at heq
          obtain ⟨h1, h2⟩ := heq
          have h3 : i * nx + j = a * nx + 0 := by omega
          exact encode_inj (show j < nx by omega) (show 0 < nx by omega) h3)
    have v4 : icount2 (ny - 1) (nx - 1)
        (fun i j => (i * nx + j + 1, i * nx + j + nx + 1))
        (a * nx + 0, a * nx + 0 + nx) = 0 :=
      icount2_zero _ _ _ _ (fun i hi j hj heq => by
        rw [Prod.mk.injEq] at heq
        obtain ⟨h1, h2⟩ := heq
        have h3 : i * nx + (j + 1) = a * nx + 0 := by omega
        obtain ⟨hh1, hh2⟩ := encode_inj (show j + 1 < nx by omega)
          (show 0 < nx by omega) h3
        omega)
    have v8 : icount (ny - 1) (fun i => (i * nx, i * nx + nx))
        (a * nx + 0, a * nx + 0 + nx) = 1 :=
      icount_one _ _ _ a haa
        (by simp only [Prod.mk.injEq]; constructor <;> omega)
        (fun i hi heq => by
          rw [Prod.mk.injEq] at heq
          obtain ⟨h1, h2⟩ := heq
          have h3 : i * nx + 0 = a * nx + 0 := by omega
          obtain ⟨hh1, hh2⟩ := encode_inj (show 0 < nx by omega)
            (show 0 < nx by omega) h3
          omega)
    have v9 : icount (ny - 1)
        (fun i => (i * nx + nx - 1, i * nx + nx + nx - 1))
        (a * nx + 0, a * nx + 0 + nx) = 0 :=
      icount_zero _ _ _ (fun i hi heq => by
        rw [Prod.mk.injEq] at heq
        obtain ⟨h1, h2⟩ := heq
        have h3 : i * nx + (nx - 1) = a * nx + 0 := by omega
        obtain ⟨hh1, hh2⟩ := encode_inj (show nx - 1 < nx by omega)
          (show 0 < nx by omega) h3
        omega)
    omega
  · by_cases hbR : b = nx - 1
    · subst hbR
      have v3 : icount2 (ny - 1) (nx - 1)
          (fun i j => (i * nx + j, i * nx + j + nx))
          (a * nx + (nx - 1), a * nx + (nx - 1) + nx) = 0 :=
        icount2_zero _ _ _ _ (fun i hi j hj heq => by
          rw [Prod.mk.injEq] at heq
          obtain ⟨h1, h2⟩ := heq
          obtain ⟨hh1, hh2⟩ := encode_inj (show j < nx by omega)
            (show nx - 1 < nx by omega) h1
          omega)
      have v4 : icount2 (ny - 1) (nx - 1)
          (fun i j => (i * nx + j + 1, i * nx + j + nx + 1))
          (a * nx + (nx - 1), a * nx + (nx - 1) + nx) = 1 :=
        icount2_one _ _ _ _ a (nx - 1 - 1) haa (by omega)
          (by simp only [Prod.mk.injEq]; constructor <;> omega)
          (fun i hi j hj heq => by
            rw [Prod.mk.injEq] at heq
            obtain ⟨h1, h2⟩ := heq
            have h3 : i * nx + (j + 1) = a * nx + (nx - 1) := by omega
            obtain ⟨hh1, hh2⟩ := encode_inj (show j + 1 < nx by omega)
              (show nx - 1 < nx by omega) h3
            exact ⟨by omega, by omega⟩)
      have v8 : icount (ny - 1) (fun i => (i * nx, i * nx + nx))
          (a * nx + (nx - 1), a * nx + (nx - 1) + nx) = 0 :=
        icount_zero _ _ _ (fun i hi heq => by
          rw [Prod.mk.injEq] at heq
          obtain ⟨h1, h2⟩ := heq
          have h3 : i * nx + 0 = a * nx + (nx - 1) := by omega
          obtain ⟨hh1, hh2⟩ := encode_inj (show 0 < nx by omega)
            (show nx - 1 < nx by omega) h3
          omega)
      have v9 : icount (ny - 1)
          (fun i => (i * nx + nx - 1, i * nx + nx + nx - 1))
          (a * nx + (nx - 1), a * nx + (nx - 1) + nx) = 1 :=
        icount_one _ _ _ a haa
          (by simp only [Prod.mk.injEq]; constructor <;> omega)
          (fun i hi heq => by
            rw [Prod.mk.injEq] at heq
            obtain ⟨h1, h2⟩ := heq
            have h3 : i * nx + (nx - 1) = a * nx + (nx - 1) := by omega
            obtain ⟨hh1, hh2⟩ := encode_inj (show nx - 1 < nx by omega)
              (show nx - 1 < nx by omega) h3
            omega)
      omega
    · have v3 : icount2 (ny - 1) (nx - 1)
          (fun i j => (i * nx + j, i * nx + j + nx))
          (a * nx + b, a * nx + b + nx) = 1 :=
        icount2_one _ _ _ _ a b haa (by omega) rfl
          (fun i hi j hj heq => by
            rw [Prod.mk.injEq] at heq
            obtain ⟨h1, h2⟩ := heq
            exact encode_inj (show j < nx by omega) hb h1)
      have v4 : icount2 (ny - 1) (nx - 1)
          (fun i j => (i * nx + j + 1, i * nx + j + nx + 1))
          (a * nx + b, a * nx + b + nx) = 1 :=
        icount2_one _ _ _ _ a (b - 1) haa (by omega)
          (by simp only [Prod.mk.injEq]; constructor <;> omega)
          (fun i hi j hj heq => by
            rw [Prod.mk.injEq] at heq
            obtain ⟨h1, h2⟩ := heq
            have h3 : i * nx + (j + 1) = a * nx + b := by omega
            obtain ⟨hh1, hh2⟩ := encode_inj (show j + 1 < nx by omega) hb h3
            exact ⟨by omega, by omega⟩)
      have v8 : icount (ny - 1) (fun i => (i * nx, i * nx + nx))
          (a * nx + b, a * nx + b + nx) = 0 :=
        icount_zero _ _ _ (fun i hi heq => by
          rw [Prod.mk.injEq] at heq
          obtain ⟨h1, h2⟩ := heq
          have h3 : i * nx + 0 = a * nx + b := by omega
          obtain ⟨hh1, hh2⟩ := encode_inj (show 0 < nx by omega) hb h3
          omega)
      have v9 : icount (ny - 1)
          (fun i => (i * nx + nx - 1, i * nx + nx + nx - 1))
          (a * nx + b, a * nx + b + nx) = 0 :=
        icount_zero _ _ _ (fun i hi heq => by
          rw [Prod.mk.injEq] at heq
          obtain ⟨h1, h2⟩ := heq
          have h3 : i * nx + (nx - 1) = a * nx + b := by omega
          obtain ⟨hh1, hh2⟩ := encode_inj (show nx - 1 < nx by omega) hb h3
          omega)
      omega

theorem fb_count_D2 (ny nx a b : ℕ) (hny : 2 ≤ ny) (hnx : 2 ≤ nx)
    (haa : a < ny - 1) (hbb : b < nx - 1) :
    (edgeList (flat_bottom_top_faces ny nx)).count
        (a * nx + b + 1, a * nx + b + nx) +
      (edgeList (terrain_front_faces ny nx)).count
        (a * nx + b + 1, a * nx + b + nx) +
      (edgeList (terrain_back_faces ny nx)).count
        (a * nx + b + 1, a * nx + b + nx) +
      (edgeList (terrain_left_faces ny nx)).count
        (a * nx + b + 1, a * nx + b + nx) +
      (edgeList (terrain_right_faces ny nx)).count
        (a * nx + b + 1, a * nx + b + nx) = 2 := by
  have hnn : 2 * nx ≤ ny * nx := Nat.mul_le_mul_right nx hny
  have hmA := mul_succ_le nx haa
  have hm1 : 1 * nx ≤ (ny - 1) * nx := Nat.mul_le_mul_right nx (by omega)
  have htN : (ny - 1) * nx + nx = ny * nx := htN_eq ny nx (by omega)
  rw [cnt_fbtop ny nx hnx (a * nx + b + 1, a * nx + b + nx),
    cnt_front_top ny nx hny hnx (a * nx + b + 1, a * nx + b + nx)
      (by show a * nx + b + nx < ny * nx; omega),
    cnt_back_top ny nx hny hnx (a * nx + b + 1, a * nx + b + nx)
      (by show a * nx + b + nx < ny * nx; omega),
    cnt_left_top ny nx hny hnx (a * nx + b + 1, a * nx + b + nx)
      (by show a * nx + b + nx < ny * nx; omega),
    cnt_right_top ny nx hny hnx (a * nx + b + 1, a * nx + b + nx)
      (by show a * nx + b + nx < ny * nx; omega)]
  have v1 : icount2 (ny - 1) (nx - 1)
      (fun i j => (i * nx + j, i * nx + j + 1))
      (a * nx + b + 1, a * nx + b + nx) = 0 :=
    icount2_zero _ _ _ _ (fun i hi j hj heq => by
      rw [Prod.mk.injEq] at heq
      obtain ⟨h1, h2⟩ := heq
      by_cases hnx2 : nx = 2
      · subst hnx2; omega
      · omega)
  have v2 : icount2 (ny - 1) (nx - 1)
      (fun i j => (i * nx + j + 1, i * nx + j + nx))
      (a * nx + b + 1, a * nx + b + nx) = 1 :=
    icount2_one _ _ _ _ a b haa hbb rfl
      (fun i hi j hj heq => by
        rw [Prod.mk.injEq] at heq
        obtain ⟨h1, h2⟩ := heq
        have h3 : i * nx + j = a * nx + b := by omega
        exact encode_inj (show j < nx by omega) (show b < nx by omega) h3)
  have v3 : icount2 (ny - 1) (nx - 1)
      (fun i j => (i * nx + j, i * nx + j + nx))
      (a * nx + b + 1, a * nx + b + nx) = 0 :=
    icount2_zero _ _ _ _ (fun i hi j hj heq => by
      rw [Prod.mk.injEq] at heq; obtain ⟨h1, h2⟩ := heq; omega)
  have v4 : icount2 (ny - 1) (nx - 1)
      (fun i j => (i * nx + j + 1, i * nx + j + nx + 1))
      (a * nx + b + 1, a * nx + b + nx) = 0 :=
    icount2_zero _ _ _ _ (fun i hi j hj heq => by
      rw [Prod.mk.injEq] at heq; obtain ⟨h1, h2⟩ := heq; omega)
  have v5 : icount2 (ny - 1) (nx - 1)
      (fun i j => (i * nx + j + nx, i * nx + j + nx + 1))
      (a * nx + b + 1, a * nx + b + nx) = 0 :=
    icount2_zero _ _ _ _ (fun i hi j hj heq => by
      rw [Prod.mk.injEq] at heq
      obtain ⟨h1, h2⟩ := heq
      by_cases hnx2 : nx = 2
      · subst hnx2; omega
      · omega)
  have v6 : icount (nx - 1) (fun j => (j, j + 1))
      (a * nx + b + 1, a * nx + b + nx) = 0 :=
    icount_zero _ _ _ (fun j hj heq => by
      rw [Prod.mk.injEq] at heq
      obtain ⟨h1, h2⟩ := heq
      by_cases hnx2 : nx = 2
      · subst hnx2; omega
      · omega)
  have v7 : icount (nx - 1)
      (fun j => ((ny - 1) * nx + j, (ny - 1) * nx + j + 1))
      (a * nx + b + 1, a * nx + b + nx) = 0 :=
    icount_zero _ _ _ (fun j hj heq => by
      rw [Prod.mk.injEq] at heq
      obtain ⟨h1, h2⟩ := heq
      by_cases hnx2 : nx = 2
      · subst hnx2; omega
      · omega)
  have v8 : icount (ny - 1) (fun i => (i * nx, i * nx + nx))
      (a * nx + b + 1, a * nx + b + nx) = 0 :=
    icount_zero _ _ _ (fun i hi heq => by
      rw [Prod.mk.injEq] at heq; obtain ⟨h1, h2⟩ := heq; omega)
  have v9 : icount (ny - 1)
      (fun i => (i * nx + nx - 1, i * nx + nx + nx - 1))
      (a * nx + b + 1, a * nx + b + nx) = 0 :=
    icount_zero _ _ _ (fun i hi heq => by
      rw [Prod.mk.injEq] at heq; obtain ⟨h1, h2⟩ := heq; omega)
  omega

theorem fb_count_botH (ny nx a b : ℕ) (hny : 2 ≤ ny) (hnx : 2 ≤ nx)
    (ha : a < ny) (hbb : b < nx - 1) :
    (edgeList (flat_bottom_bottom_faces ny nx)).count
        (ny * nx + a * nx + b, ny * nx + a * nx + b + 1) +
      (edgeList (terrain_front_faces ny nx)).count
        (ny * nx + a * nx + b, ny * nx + a * nx + b + 1) +
      (edgeList (terrain_back_faces ny nx)).count
        (ny * nx + a * nx + b, ny * nx + a * nx + b + 1) +
      (edgeList (terrain_left_faces ny nx)).count
        (ny * nx + a * nx + b, ny * nx + a * nx + b + 1) +
      (edgeList (terrain_right_faces ny nx)).count
        (ny * nx + a * nx + b, ny * nx + a * nx + b + 1) = 2 := by
  have hnn : 2 * nx ≤ ny * nx := Nat.mul_le_mul_right nx hny
  have hmA := mul_succ_le nx ha
  have hm1 : 1 * nx ≤ (ny - 1) * nx := Nat.mul_le_mul_right nx (by omega)
  have htN : (ny - 1) * nx + nx = ny * nx := htN_eq ny nx (by omega)
  rw [cnt_fbbot ny nx hnx (ny * nx + a * nx + b, ny * nx + a * nx + b + 1),
    cnt_front_bot ny nx hny hnx
      (ny * nx + a * nx + b, ny * nx + a * nx + b + 1)
      (by show ny * nx ≤ ny * nx + a * nx + b; omega),
    cnt_back_bot ny nx hny hnx
      (ny * nx + a * nx + b, ny * nx + a * nx + b + 1)
      (by show ny * nx ≤ ny * nx + a * nx + b; omega),
    cnt_left_bot ny nx hny hnx
      (ny * nx + a * nx + b, ny * nx + a * nx + b + 1)
      (by show ny * nx ≤ ny * nx + a * nx + b; omega),
    cnt_right_bot ny nx hny hnx
      (ny * nx + a * nx + b, ny * nx + a * nx + b + 1)
      (by show ny * nx ≤ ny * nx + a * nx + b; omega)]
  have v1 : icount2 (ny - 1) (nx - 1)
      (fun i j => (ny * nx + i * nx + j, ny * nx + i * nx + j + nx))
      (ny * nx + a * nx + b, ny * nx + a * nx + b + 1) = 0 :=
    icount2_zero _ _ _ _ (fun i hi j hj heq => by
      rw [Prod.mk.injEq] at heq; obtain ⟨h1, h2⟩ := heq; omega)
  have v2 : icount2 (ny - 1) (nx - 1)
      (fun i j => (ny * nx + i * nx + j + 1, ny * nx + i * nx + j + nx))
      (ny * nx + a * nx + b, ny * nx + a * nx + b + 1) = 0 :=
    icount2_zero _ _ _ _ (fun i hi j hj heq => by
      rw [Prod.mk.injEq] at heq
      obtain ⟨h1, h2⟩ := heq
      by_cases hnx2 : nx = 2
      · subst hnx2; omega
      · omega)
  have v6' : icount2 (ny - 1) (nx - 1)
      (fun i j => (ny * nx + i * nx + j + 1, ny * nx + i * nx + j + nx + 1))
      (ny * nx + a * nx + b, ny * nx + a * nx + b + 1) = 0 :=
    icount2_zero _ _ _ _ (fun i hi j hj heq => by
      rw [Prod.mk.injEq] at heq; obtain ⟨h1, h2⟩ := heq; omega)
  have v8 : icount (ny - 1)
      (fun i => (ny * nx + i * nx, ny * nx + i * nx + nx))
      (ny * nx + a * nx + b, ny * nx + a * nx + b + 1) = 0 :=
    icount_zero _ _ _ (fun i hi heq => by
      rw [Prod.mk.injEq] at heq; obtain ⟨h1, h2⟩ := heq; omega)
  have v9 : icount (ny - 1)
      (fun i => (ny * nx + i * nx + nx - 1, ny * nx + i * nx + nx + nx - 1))
      (ny * nx + a * nx + b, ny * nx + a * nx + b + 1) = 0 :=
    icount_zero _ _ _ (fun i hi heq => by
      rw [Prod.mk.injEq] at heq; obtain ⟨h1, h2⟩ := heq; omega)
  by_cases ha0 : a = 0
  · subst ha0
    have v3 : icount2 (ny - 1) (nx - 1)
        (fun i j => (ny * nx + i * nx + j, ny * nx + i * nx + j + 1))
        (ny * nx + 0 * nx + b, ny * nx + 0 * nx + b + 1) = 1 :=
      icount2_one _ _ _ _ 0 b (by omega) hbb rfl
        (fun i hi j hj heq => by
          rw [Prod.mk.injEq] at heq
          obtain ⟨h1, h2⟩ := heq
          have h3 : i * nx + j = 0 * nx + b := by omega
          exact encode_inj (show j < nx by omega) (show b < nx by omega) h3)
    have v5 : icount2 (ny - 1) (nx - 1)
        (fun i j => (ny * nx + i * nx + j + nx, ny * nx + i * nx + j + nx + 1))
        (ny * nx + 0 * nx + b, ny * nx + 0 * nx + b + 1) = 0 :=
      icount2_zero _ _ _ _ (fun i hi j hj heq => by
        rw [Prod.mk.injEq] at heq; obtain ⟨h1, h2⟩ := heq; omega)
    have v6 : icount (nx - 1) (fun j => (ny * nx + j, ny * nx + j + 1))
        (ny * nx + 0 * nx + b, ny * nx + 0 * nx + b + 1) = 1 :=
      icount_one _ _ _ b hbb
        (by simp only [Prod.mk.injEq]; constructor <;> omega)
        (fun j hj heq => by
          rw [Prod.mk.injEq] at heq; obtain ⟨h1, h2⟩ := heq; omega)
    have v7 : icount (nx - 1)
        (fun j =>
          (ny * nx + (ny - 1) * nx + j, ny * nx + (ny - 1) * nx + j + 1))
        (ny * nx + 0 * nx + b, ny * nx + 0 * nx + b + 1) = 0 :=
      icount_zero _ _ _ (fun j hj heq => by
        rw [Prod.mk.injEq] at heq; obtain ⟨h1, h2⟩ := heq; omega)
    omega
  · by_cases haT : a = ny - 1
    · subst haT
      have v3 : icount2 (ny - 1) (nx - 1)
          (fun i j => (ny * nx + i * nx + j, ny * nx + i * nx + j + 1))
          (ny * nx + (ny - 1) * nx + b, ny * nx + (ny - 1) * nx + b + 1)
          = 0 :=
        icount2_zero _ _ _ _ (fun i hi j hj heq => by
          rw [Prod.mk.injEq] at heq
          obtain ⟨h1, h2⟩ := heq
          have h3 : i * nx + j = (ny - 1) * nx + b := by omega
          obtain ⟨hh1, hh2⟩ := encode_inj (show j < nx by omega)
            (show b < nx by omega) h3
          omega)
      have v5 : icount2 (ny - 1) (nx - 1)
          (fun i j =>
            (ny * nx + i * nx + j + nx, ny * nx + i * nx + j + nx + 1))
          (ny * nx + (ny - 1) * nx + b, ny * nx + (ny - 1) * nx + b + 1)
          = 1 :=
        icount2_one _ _ _ _ (ny - 1 - 1) b (by omega) hbb
          (by
            have hsa : (ny - 1 - 1) * nx + nx = (ny - 1) * nx :=
              htN_eq (ny - 1) nx (by omega)
            simp only [Prod.mk.injEq]
            constructor <;> omega)
          (fun i hi j hj heq => by
            rw [Prod.mk.injEq] at heq
            obtain ⟨h1, h2⟩ := heq
            have hs : (i + 1) * nx = i * nx + nx := Nat.succ_mul i nx
            have h3 : (i + 1) * nx + j = (ny - 1) * nx + b := by omega
            obtain ⟨hh1, hh2⟩ := encode_inj (show j < nx by omega)
              (show b < nx by omega) h3
            exact ⟨by omega, by omega⟩)
      have v6 : icount (nx - 1) (fun j => (ny * nx + j, ny * nx + j + 1))
          (ny * nx + (ny - 1) * nx + b, ny * nx + (ny - 1) * nx + b + 1)
          = 0 :=
        icount_zero _ _ _ (fun j hj heq => by
          rw [Prod.mk.injEq] at heq; obtain ⟨h1, h2⟩ := heq; omega)
      have v7 : icount (nx - 1)
          (fun j =>
            (ny * nx + (ny - 1) * nx + j, ny * nx + (ny - 1) * nx + j + 1))
          (ny * nx + (ny - 1) * nx + b, ny * nx + (ny - 1) * nx + b + 1)
          = 1 :=
        icount_one _ _ _ b hbb rfl (fun j hj heq => by
          rw [Prod.mk.injEq] at heq; obtain ⟨h1, h2⟩ := heq; omega)
      omega
    · have hm1a : 1 * nx ≤ a * nx := Nat.mul_le_mul_right nx (by omega)
      have v3 : icount2 (ny - 1) (nx - 1)
          (fun i j => (ny * nx + i * nx + j, ny * nx + i * nx + j + 1))
          (ny * nx + a * nx + b, ny * nx + a * nx + b + 1) = 1 :=
        icount2_one _ _ _ _ a b (by omega) hbb rfl
          (fun i hi j hj heq => by
            rw [Prod.mk.injEq] at heq
            obtain ⟨h1, h2⟩ := heq
            have h3 : i * nx + j = a * nx + b := by omega
            exact encode_inj (show j < nx by omega) (show b < nx by omega) h3)
      have v5 : icount2 (ny - 1) (nx - 1)
          (fun i j =>
            (ny * nx + i * nx + j + nx, ny * nx + i * nx + j + nx + 1))
          (ny * nx + a * nx + b, ny * nx + a * nx + b + 1) = 1 :=
        icount2_one _ _ _ _ (a - 1) b (by omega) hbb
          (by
            have hsa : (a - 1) * nx + nx = a * nx := htN_eq a nx (by omega)
            simp only [Prod.mk.injEq]
            constructor <;> omega)
          (fun i hi j hj heq => by
            rw [Prod.mk.injEq] at heq
            obtain ⟨h1, h2⟩ := heq
            have hs : (i + 1) * nx = i * nx + nx := Nat.succ_mul i nx
            have h3 : (i + 1) * nx + j = a * nx + b := by omega
            obtain ⟨hh1, hh2⟩ := encode_inj (show j < nx by omega)
              (show b < nx by omega) h3
            exact ⟨by omega, by omega⟩)
      have v6 : icount (nx - 1) (fun j => (ny * nx + j, ny * nx + j + 1))
          (ny * nx + a * nx + b, ny * nx + a * nx + b + 1) = 0 :=
        icount_zero _ _ _ (fun j hj heq => by
          rw [Prod.mk.injEq] at heq; obtain ⟨h1, h2⟩ := heq; omega)
      have v7 : icount (nx - 1)
          (fun j =>
            (ny * nx + (ny - 1) * nx + j, ny * nx + (ny - 1) * nx + j + 1))
          (ny * nx + a * nx + b, ny * nx + a * nx + b + 1) = 0 :=
        icount_zero _ _ _ (fun j hj heq => by
          rw [Prod.mk.injEq] at heq
          obtain ⟨h1, h2⟩ := heq
          have h3 : (ny - 1) * nx + j = a * nx + b := by omega
          obtain ⟨hh1, hh2⟩ := encode_inj (show j < nx by omega)
            (show b < nx by omega) h3
          omega)
      omega

theorem fb_count_botV (ny nx a b : ℕ) (hny : 2 ≤ ny) (hnx : 2 ≤ nx)
    (haa : a < ny - 1) (hb : b < nx) :
    (edgeList (flat_bottom_bottom_faces ny nx)).count
        (ny * nx + a * nx + b, ny * nx + a * nx + b + nx) +
      (edgeList (terrain_front_faces ny nx)).count
        (ny * nx + a * nx + b, ny * nx + a * nx + b + nx) +
      (edgeList (terrain_back_faces ny nx)).count
        (ny * nx + a * nx + b, ny * nx + a * nx + b + nx) +
      (edgeList (terrain_left_faces ny nx)).count
        (ny * nx + a * nx + b, ny * nx + a * nx + b + nx) +
      (edgeList (terrain_right_faces ny nx)).count
        (ny * nx + a * nx + b, ny * nx + a * nx + b + nx) = 2 := by
  have hnn : 2 * nx ≤ ny * nx := Nat.mul_le_mul_right nx hny
  have hmA := mul_succ_le nx haa
  have hm1 : 1 * nx ≤ (ny - 1) * nx := Nat.mul_le_mul_right nx (by omega)
  have htN : (ny - 1) * nx + nx = ny * nx := htN_eq ny nx (by omega)
  rw [cnt_fbbot ny nx hnx (ny * nx + a * nx + b, ny * nx + a * nx + b + nx),
    cnt_front_bot ny nx hny hnx
      (ny * nx + a * nx + b, ny * nx + a * nx + b + nx)
      (by show ny * nx ≤ ny * nx + a * nx + b; omega),
    cnt_back_bot ny nx hny hnx
      (ny * nx + a * nx + b, ny * nx + a * nx + b + nx)
      (by show ny * nx ≤ ny * nx + a * nx + b; omega),
    cnt_left_bot ny nx hny hnx
      (ny * nx + a * nx + b, ny * nx + a * nx + b + nx)
      (by show ny * nx ≤ ny * nx + a * nx + b; omega),
    cnt_right_bot ny nx hny hnx
      (ny * nx + a * nx + b, ny * nx + a * nx + b + nx)
      (by show ny * nx ≤ ny * nx + a * nx + b; omega)]
  have v3 : icount2 (ny - 1) (nx - 1)
      (fun i j => (ny * nx + i * nx + j, ny * nx + i * nx + j + 1))
      (ny * nx + a * nx + b, ny * nx + a * nx + b + nx) = 0 :=
    icount2_zero _ _ _ _ (fun i hi j hj heq => by
      rw [Prod.mk.injEq] at heq; obtain ⟨h1, h2⟩ := heq; omega)
  have v2 : icount2 (ny - 1) (nx - 1)
      (fun i j => (ny * nx + i * nx + j + 1, ny * nx + i * nx + j + nx))
      (ny * nx + a * nx + b, ny * nx + a * nx + b + nx) = 0 :=
    icount2_zero _ _ _ _ (fun i hi j hj heq => by
      rw [Prod.mk.injEq] at heq; obtain ⟨h1, h2⟩ := heq; omega)
  have v5 : icount2 (ny - 1) (nx - 1)
      (fun i j => (ny * nx + i * nx + j + nx, ny * nx + i * nx + j + nx + 1))
      (ny * nx + a * nx + b, ny * nx + a * nx + b + nx) = 0 :=
    icount2_zero _ _ _ _ (fun i hi j hj heq => by
      rw [Prod.mk.injEq] at heq; obtain ⟨h1, h2⟩ := heq; omega)
  have v6 : icount (nx - 1) (fun j => (ny * nx + j, ny * nx + j + 1))
      (ny * nx + a * nx + b, ny * nx + a * nx + b + nx) = 0 :=
    icount_zero _ _ _ (fun j hj heq => by
      rw [Prod.mk.injEq] at heq; obtain ⟨h1, h2⟩ := heq; omega)
  have v7 : icount (nx - 1)
      (fun j => (ny * nx + (ny - 1) * nx + j, ny * nx + (ny - 1) * nx + j + 1))
      (ny * nx + a * nx + b, ny * nx + a * nx + b + nx) = 0 :=
    icount_zero _ _ _ (fun j hj heq => by
      rw [Prod.mk.injEq] at heq; obtain ⟨h1, h2⟩ := heq; omega)
  by_cases hb0 : b = 0
  · subst hb0
    have v1 : icount2 (ny - 1) (nx - 1)
        (fun i j => (ny * nx + i * nx + j, ny * nx + i * nx + j + nx))
        (ny * nx + a * nx + 0, ny * nx + a * nx + 0 + nx) = 1 :=
      icount2_one _ _ _ _ a 0 haa (by omega) rfl
        (fun i hi j hj heq => by
          rw [Prod.mk.injEq] at heq
          obtain ⟨h1, h2⟩ := heq
          have h3 : i * nx + j = a * nx + 0 := by omega
          exact encode_inj (show j < nx by omega) (show 0 < nx by omega) h3)
    have v4 : icount2 (ny - 1) (nx - 1)
        (fun i j => (ny * nx + i * nx + j + 1, ny * nx + i * nx + j + nx + 1))
        (ny * nx + a * nx + 0, ny * nx + a * nx + 0 + nx) = 0 :=
      icount2_zero _ _ _ _ (fun i hi j hj heq => by
        rw [Prod.mk.injEq] at heq
        obtain ⟨h1, h2⟩ := heq
        have h3 : i * nx + (j + 1) = a * nx + 0 := by omega
        obtain ⟨hh1, hh2⟩ := encode_inj (show j + 1 < nx by omega)
          (show 0 < nx by omega) h3
        omega)
    have v8 : icount (ny - 1)
        (fun i => (ny * nx + i * nx, ny * nx + i * nx + nx))
        (ny * nx + a * nx + 0, ny * nx + a * nx + 0 + nx) = 1 :=
      icount_one _ _ _ a haa
        (by simp only [Prod.mk.injEq]; constructor <;> omega)
        (fun i hi heq => by
          rw [Prod.mk.injEq] at heq
          obtain ⟨h1, h2⟩ := heq
          have h3 : i * nx + 0 = a * nx + 0 := by omega
          obtain ⟨hh1, hh2⟩ := encode_inj (show 0 < nx by omega)
            (show 0 < nx by omega) h3
          omega)
    have v9 : icount (ny - 1)
        (fun i => (ny * nx + i * nx + nx - 1, ny * nx + i * nx + nx + nx - 1))
        (ny * nx + a * nx + 0, ny * nx + a * nx + 0 + nx) = 0 :=
      icount_zero _ _ _ (fun i hi heq => by
        rw [Prod.mk.injEq] at heq
        obtain ⟨h1, h2⟩ := heq
        have h3 : i * nx + (nx - 1) = a * nx + 0 := by omega
        obtain ⟨hh1, hh2⟩ := encode_inj (show nx - 1 < nx by omega)
          (show 0 < nx by omega) h3
        omega)
    omega
  · by_cases hbR : b = nx - 1
    · subst hbR
      have v1 : icount2 (ny - 1) (nx - 1)
          (fun i j => (ny * nx + i * nx + j, ny * nx + i * nx + j + nx))
          (ny * nx + a * nx + (nx - 1), ny * nx + a * nx + (nx - 1) + nx)
          = 0 :=
        icount2_zero _ _ _ _ (fun i hi j hj heq => by
          rw [Prod.mk.injEq] at heq
          obtain ⟨h1, h2⟩ := heq
          have h3 : i * nx + j = a * nx + (nx - 1) := by omega
          obtain ⟨hh1, hh2⟩ := encode_inj (show j < nx by omega)
            (show nx - 1 < nx by omega) h3
          omega)
      have v4 : icount2 (ny - 1) (nx - 1)
          (fun i j =>
            (ny * nx + i * nx + j + 1, ny * nx + i * nx + j + nx + 1))
          (ny * nx + a * nx + (nx - 1), ny * nx + a * nx + (nx - 1) + nx)
          = 1 :=
        icount2_one _ _ _ _ a (nx - 1 - 1) haa (by omega)
          (by simp only [Prod.mk.injEq]; constructor <;> omega)
          (fun i hi j hj heq => by
            rw [Prod.mk.injEq] at heq
            obtain ⟨h1, h2⟩ := heq
            have h3 : i * nx + (j + 1) = a * nx + (nx - 1) := by omega
            obtain ⟨hh1, hh2⟩ := encode_inj (show j + 1 < nx by omega)
              (show nx - 1 < nx by omega) h3
            exact ⟨by omega, by omega⟩)
      have v8 : icount (ny - 1)
          (fun i => (ny * nx + i * nx, ny * nx + i * nx + nx))
          (ny * nx + a * nx + (nx - 1), ny * nx + a * nx + (nx - 1) + nx)
          = 0 :=
        icount_zero _ _ _ (fun i hi heq => by
          rw [Prod.mk.injEq] at heq
          obtain ⟨h1, h2⟩ := heq
          have h3 : i * nx + 0 = a * nx + (nx - 1) := by omega
          obtain ⟨hh1, hh2⟩ := encode_inj (show 0 < nx by omega)
            (show nx - 1 < nx by omega) h3
          omega)
      have v9 : icount (ny - 1)
          (fun i =>
            (ny * nx + i * nx + nx - 1, ny * nx + i * nx + nx + nx - 1))
          (ny * nx + a * nx + (nx - 1), ny * nx + a * nx + (nx - 1) + nx)
          = 1 :=
        icount_one _ _ _ a haa
          (by simp only [Prod.mk.injEq]; constructor <;> omega)
          (fun i hi heq => by
            rw [Prod.mk.injEq] at heq
            obtain ⟨h1, h2⟩ := heq
            have h3 : i * nx + (nx - 1) = a * nx + (nx - 1) := by omega
            obtain ⟨hh1, hh2⟩ := encode_inj (show nx - 1 < nx by omega)
              (show nx - 1 < nx by omega) h3
            omega)
      omega
    · have v1 : icount2 (ny - 1) (nx - 1)
          (fun i j => (ny * nx + i * nx + j, ny * nx + i * nx + j + nx))
          (ny * nx + a * nx + b, ny * nx + a * nx + b + nx) = 1 :=
        icount2_one _ _ _ _ a b haa (by omega) rfl
          (fun i hi j hj heq => by
            rw [Prod.mk.injEq] at heq
            obtain ⟨h1, h2⟩ := heq
            have h3 : i * nx + j = a * nx + b := by omega
            exact encode_inj (show j < nx by omega) hb h3)
      have v4 : icount2 (ny - 1) (nx - 1)
          (fun i j =>
            (ny * nx + i * nx + j + 1, ny * nx + i * nx + j + nx + 1))
          (ny * nx + a * nx + b, ny * nx + a * nx + b + nx) = 1 :=
        icount2_one _ _ _ _ a (b - 1) haa (by omega)
          (by simp only [Prod.mk.injEq]; constructor <;> omega)
          (fun i hi j hj heq => by
            rw [Prod.mk.injEq] at heq
            obtain ⟨h1, h2⟩ := heq
            have h3 : i * nx + (j + 1) = a * nx + b := by omega
            obtain ⟨hh1, hh2⟩ := encode_inj (show j + 1 < nx by omega) hb h3
            exact ⟨by omega, by omega⟩)
      have v8 : icount (ny - 1)
          (fun i => (ny * nx + i * nx, ny * nx + i * nx + nx))
          (ny * nx + a * nx + b, ny * nx + a * nx + b + nx) = 0 :=
        icount_zero _ _ _ (fun i hi heq => by
          rw [Prod.mk.injEq] at heq
          obtain ⟨h1, h2⟩ := heq
          have h3 : i * nx + 0 = a * nx + b := by omega
          obtain ⟨hh1, hh2⟩ := encode_inj (show 0 < nx by omega) hb h3
          omega)
      have v9 : icount (ny - 1)
          (fun i =>
            (ny * nx + i * nx + nx - 1, ny * nx + i * nx + nx + nx - 1))
          (ny * nx + a * nx + b, ny * nx + a * nx + b + nx) = 0 :=
        icount_zero _ _ _ (fun i hi heq => by
          rw [Prod.mk.injEq] at heq
          obtain ⟨h1, h2⟩ := heq
          have h3 : i * nx + (nx - 1) = a * nx + b := by omega
          obtain ⟨hh1, hh2⟩ := encode_inj (show nx - 1 < nx by omega) hb h3
          omega)
      omega

theorem fb_count_botD2 (ny nx a b : ℕ) (hny : 2 ≤ ny) (hnx : 2 ≤ nx)
    (haa : a < ny - 1) (hbb : b < nx - 1) :
    (edgeList (flat_bottom_bottom_faces ny nx)).count
        (ny * nx + a * nx + b + 1, ny * nx + a * nx + b + nx) +
      (edgeList (terrain_front_faces ny nx)).count
        (ny * nx + a * nx + b + 1, ny * nx + a * nx + b + nx) +
      (edgeList (terrain_back_faces ny nx)).count
        (ny * nx + a * nx + b + 1, ny * nx + a * nx + b + nx) +
      (edgeList (terrain_left_faces ny nx)).count
        (ny * nx + a * nx + b + 1, ny * nx + a * nx + b + nx) +
      (edgeList (terrain_right_faces ny nx)).count
        (ny * nx + a * nx + b + 1, ny * nx + a * nx + b + nx) = 2 := by
  have hnn : 2 * nx ≤ ny * nx := Nat.mul_le_mul_right nx hny
  have hmA := mul_succ_le nx haa
  have hm1 : 1 * nx ≤ (ny - 1) * nx := Nat.mul_le_mul_right nx (by omega)
  have htN : (ny - 1) * nx + nx = ny * nx := htN_eq ny nx (by omega)
  rw [cnt_fbbot ny nx hnx
      (ny * nx + a * nx + b + 1, ny * nx + a * nx + b + nx),
    cnt_front_bot ny nx hny hnx
      (ny * nx + a * nx + b + 1, ny * nx + a * nx + b + nx)
      (by show ny * nx ≤ ny * nx + a * nx + b + 1; omega),
    cnt_back_bot ny nx hny hnx
      (ny * nx + a * nx + b + 1, ny * nx + a * nx + b + nx)
      (by show ny * nx ≤ ny * nx + a * nx + b + 1; omega),
    cnt_left_bot ny nx hny hnx
      (ny * nx + a * nx + b + 1, ny * nx + a * nx + b + nx)
      (by show ny * nx ≤ ny * nx + a * nx + b + 1; omega),
    cnt_right_bot ny nx hny hnx
      (ny * nx + a * nx + b + 1, ny * nx + a * nx + b + nx)
      (by show ny * nx ≤ ny * nx + a * nx + b + 1; omega)]
  have v1 : icount2 (ny - 1) (nx - 1)
      (fun i j => (ny * nx + i * nx + j, ny * nx + i * nx + j + nx))
      (ny * nx + a * nx + b + 1, ny * nx + a * nx + b + nx) = 0 :=
    icount2_zero _ _ _ _ (fun i hi j hj heq => by
      rw [Prod.mk.injEq] at heq; obtain ⟨h1, h2⟩ := heq; omega)
  have v2 : icount2 (ny - 1) (nx - 1)
      (fun i j => (ny * nx + i * nx + j + 1, ny * nx + i * nx + j + nx))
      (ny * nx + a * nx + b + 1, ny * nx + a * nx + b + nx) = 1 :=
    icount2_one _ _ _ _ a b haa hbb rfl
      (fun i hi j hj heq => by
        rw [Prod.mk.injEq] at heq
        obtain ⟨h1, h2⟩ := heq
        have h3 : i * nx + j = a * nx + b := by omega
        exact encode_inj (show j < nx by omega) (show b < nx by omega) h3)
  have v3 : icount2 (ny - 1) (nx - 1)
      (fun i j => (ny * nx + i * nx + j, ny * nx + i * nx + j + 1))
      (ny * nx + a * nx + b + 1, ny * nx + a * nx + b + nx) = 0 :=
    icount2_zero _ _ _ _ (fun i hi j hj heq => by
      rw [Prod.mk.injEq] at heq
      obtain ⟨h1, h2⟩ := heq
      by_cases hnx2 : nx = 2
      · subst hnx2; omega
      · omega)
  have v5 : icount2 (ny - 1) (nx - 1)
      (fun i j => (ny * nx + i * nx + j + nx, ny * nx + i * nx + j + nx + 1))
      (ny * nx + a * nx + b + 1, ny * nx + a * nx + b + nx) = 0 :=
    icount2_zero _ _ _ _ (fun i hi j hj heq => by
      rw [Prod.mk.injEq] at heq
      obtain ⟨h1, h2⟩ := heq
      by_cases hnx2 : nx = 2
      · subst hnx2; omega
      · omega)
  have v6' : icount2 (ny - 1) (nx - 1)
      (fun i j => (ny * nx + i * nx + j + 1, ny * nx + i * nx + j + nx + 1))
      (ny * nx + a * nx + b + 1, ny * nx + a * nx + b + nx) = 0 :=
    icount2_zero _ _ _ _ (fun i hi j hj heq => by
      rw [Prod.mk.injEq] at heq; obtain ⟨h1, h2⟩ := heq; omega)
  have v6 : icount (nx - 1) (fun j => (ny * nx + j, ny * nx + j + 1))
      (ny * nx + a * nx + b + 1, ny * nx + a * nx + b + nx) = 0 :=
    icount_zero _ _ _ (fun j hj heq => by
      rw [Prod.mk.injEq] at heq
      obtain ⟨h1, h2⟩ := heq
      by_cases hnx2 : nx = 2
      · subst hnx2; omega
      · omega)
  have v7 : icount (nx - 1)
      (fun j => (ny * nx + (ny - 1) * nx + j, ny * nx + (ny - 1) * nx + j + 1))
      (ny * nx + a * nx + b + 1, ny * nx + a * nx + b + nx) = 0 :=
    icount_zero _ _ _ (fun j hj heq => by
      rw [Prod.mk.injEq] at heq
      obtain ⟨h1, h2⟩ := heq
      by_cases hnx2 : nx = 2
      · subst hnx2; omega
      · omega)
  have v8 : icount (ny - 1)
      (fun i => (ny * nx + i * nx, ny * nx + i * nx + nx))
      (ny * nx + a * nx + b + 1, ny * nx + a * nx + b + nx) = 0 :=
    icount_zero _ _ _ (fun i hi heq => by
      rw [Prod.mk.injEq] at heq; obtain ⟨h1, h2⟩ := heq; omega)
  have v9 : icount (ny - 1)
      (fun i => (ny * nx + i * nx + nx - 1, ny * nx + i * nx + nx + nx - 1))
      (ny * nx + a * nx + b + 1, ny * nx + a * nx + b + nx) = 0 :=
    icount_zero _ _ _ (fun i hi heq => by
      rw [Prod.mk.injEq] at heq; obtain ⟨h1, h2⟩ := heq; omega)
  omega

theorem flat_bottom_count_split (ny nx : ℕ) (e : ℕ × ℕ) :
    (edgeList (flat_bottom_faces ny nx)).count e =
      (edgeList (flat_bottom_top_faces ny nx)).count e +
      (edgeList (flat_bottom_bottom_faces ny nx)).count e +
      (edgeList (terrain_front_faces ny nx)).count e +
      (edgeList (terrain_back_faces ny nx)).count e +
      (edgeList (terrain_left_faces ny nx)).count e +
      (edgeList (terrain_right_faces ny nx)).count e := by
  unfold flat_bottom_faces edgeList
  simp only [List.flatMap_append, List.count_append]

theorem flat_bottom_closed (ny nx : ℕ) (hny : 2 ≤ ny) (hnx : 2 ≤ nx) :
    IsClosedMesh (flat_bottom_faces ny nx) := by
  have hnn : 2 * nx ≤ ny * nx := Nat.mul_le_mul_right nx hny
  have htN : (ny - 1) * nx + nx = ny * nx := htN_eq ny nx (by omega)
  have hnd := flat_bottom_faces_nondeg ny nx hny hnx
  intro e he
  rw [sharedCount_eq_count _ hnd e, flat_bottom_count_split ny nx e]
  unfold flat_bottom_faces edgeList at he
  simp only [List.flatMap_append, List.mem_append] at he
  rcases he with ((((ht | hb) | hf) | hk) | hl) | hr
  · have hdec := mem_family2 _ _ _ _ _ _ _ _ _ _ e
      (fun i _ j _ => edges_fbtop ny nx hnx i j) ht
    obtain ⟨i, hi, j, hj, hc⟩ := hdec
    have hmi := mul_succ_le nx hi
    rcases hc with hc | hc | hc | hc | hc | hc <;> subst hc
    · have hv := fb_count_H ny nx i j hny hnx (by omega) hj
      have hz := cnt_fbbot_zero ny nx hnx (i * nx + j, i * nx + j + 1)
        (by show i * nx + j < ny * nx; omega)
      omega
    · have hv := fb_count_D2 ny nx i j hny hnx hi hj
      have hz := cnt_fbbot_zero ny nx hnx (i * nx + j + 1, i * nx + j + nx)
        (by show i * nx + j + 1 < ny * nx; omega)
      omega
    · have hv := fb_count_V ny nx i j hny hnx hi (by omega)
      have hz := cnt_fbbot_zero ny nx hnx (i * nx + j, i * nx + j + nx)
        (by show i * nx + j < ny * nx; omega)
      omega
    · have hv := fb_count_V ny nx i (j + 1) hny hnx hi (by omega)
      have hpm : ((i * nx + (j + 1), i * nx + (j + 1) + nx) : ℕ × ℕ) =
          (i * nx + j + 1, i * nx + j + nx + 1) := by
        simp only [Prod.mk.injEq]; constructor <;> omega
      rw [hpm] at hv
      have hz := cnt_fbbot_zero ny nx hnx
        (i * nx + j + 1, i * nx + j + nx + 1)
        (by show i * nx + j + 1 < ny * nx; omega)
      omega
    · have hs : (i + 1) * nx = i * nx + nx := Nat.succ_mul i nx
      have hv := fb_count_H ny nx (i + 1) j hny hnx (by omega) hj
      have hpm : (((i + 1) * nx + j, (i + 1) * nx + j + 1) : ℕ × ℕ) =
          (i * nx + j + nx, i * nx + j + nx + 1) := by
        simp only [Prod.mk.injEq]; constructor <;> omega
      rw [hpm] at hv
      have hz := cnt_fbbot_zero ny nx hnx
        (i * nx + j + nx, i * nx + j + nx + 1)
        (by show i * nx + j + nx < ny * nx; omega)
      omega
    · have hv := fb_count_D2 ny nx i j hny hnx hi hj
      have hz := cnt_fbbot_zero ny nx hnx (i * nx + j + 1, i * nx + j + nx)
        (by show i * nx + j + 1 < ny * nx; omega)
      omega
  · have hdec := mem_family2 _ _ _ _ _ _ _ _ _ _ e
      (fun i _ j _ => edges_fbbot ny nx hnx i j) hb
    obtain ⟨i, hi, j, hj, hc⟩ := hdec
    have hmi := mul_succ_le nx hi
    rcases hc with hc | hc | hc | hc | hc | hc <;> subst hc
    · have hv := fb_count_botV ny nx i j hny hnx hi (by omega)
      have hz := cnt_fbtop_zero ny nx hnx
        (ny * nx + i * nx + j, ny * nx + i * nx + j + nx)
        (by show ny * nx ≤ ny * nx + i * nx + j + nx; omega)
      omega
    · have hv := fb_count_botD2 ny nx i j hny hnx hi hj
      have hz := cnt_fbtop_zero ny nx hnx
        (ny * nx + i * nx + j + 1, ny * nx + i * nx + j + nx)
        (by show ny * nx ≤ ny * nx + i * nx + j + nx; omega)
      omega
    · have hv := fb_count_botH ny nx i j hny hnx (by omega) hj
      have hz := cnt_fbtop_zero ny nx hnx
        (ny * nx + i * nx + j, ny * nx + i * nx + j + 1)
        (by show ny * nx ≤ ny * nx + i * nx + j + 1; omega)
      omega
    · have hv := fb_count_botD2 ny nx i j hny hnx hi hj
      have hz := cnt_fbtop_zero ny nx hnx
        (ny * nx + i * nx + j + 1, ny * nx + i * nx + j + nx)
        (by show ny * nx ≤ ny * nx + i * nx + j + nx; omega)
      omega
    · have hs : (i + 1) * nx = i * nx + nx := Nat.succ_mul i nx
      have hv := fb_count_botH ny nx (i + 1) j hny hnx (by omega) hj
      have hpm : ((ny * nx + (i + 1) * nx + j,
          ny * nx + (i + 1) * nx + j + 1) : ℕ × ℕ) =
          (ny * nx + i * nx + j + nx, ny * nx + i * nx + j + nx + 1) := by
        simp only [Prod.mk.injEq]; constructor <;> omega
      rw [hpm] at hv
      have hz := cnt_fbtop_zero ny nx hnx
        (ny * nx + i * nx + j + nx, ny * nx + i * nx + j + nx + 1)
        (by show ny * nx ≤ ny * nx + i * nx + j + nx + 1; omega)
      omega
    · have hv := fb_count_botV ny nx i (j + 1) hny hnx hi (by omega)
      have hpm : ((ny * nx + i * nx + (j + 1),
          ny * nx + i * nx + (j + 1) + nx) : ℕ × ℕ) =
          (ny * nx + i * nx + j + 1, ny * nx + i * nx + j + nx + 1) := by
        simp only [Prod.mk.injEq]; constructor <;> omega
      rw [hpm] at hv
      have hz := cnt_fbtop_zero ny nx hnx
        (ny * nx + i * nx + j + 1, ny * nx + i * nx + j + nx + 1)
        (by show ny * nx ≤ ny * nx + i * nx + j + nx + 1; omega)
      omega
  · have hdec := mem_family1 _ _ _ _ _ _ _ _ _ e
      (fun j _ => edges_front ny nx hny hnx j) hf
    obtain ⟨j, hj, hc⟩ := hdec
    rcases hc with hc | hc | hc | hc | hc | hc <;> subst hc
    · have hv := skirt_count_S ny nx 0 j hny hnx (by omega) (by omega)
        (by omega)
      have hpm : ((0 * nx + j, ny * nx + 0 * nx + j) : ℕ × ℕ) =
          (j, ny * nx + j) := by
        simp only [Prod.mk.injEq]; constructor <;> omega
      rw [hpm] at hv
      have hz1 := cnt_fbtop_zero ny nx hnx (j, ny * nx + j)
        (by show ny * nx ≤ ny * nx + j; omega)
      have hz2 := cnt_fbbot_zero ny nx hnx (j, ny * nx + j)
        (by show j < ny * nx; omega)
      omega
    · have hv := skirt_count_FD ny nx j hny hnx hj
      have hz1 := cnt_fbtop_zero ny nx hnx (j + 1, ny * nx + j)
        (by show ny * nx ≤ ny * nx + j; omega)
      have hz2 := cnt_fbbot_zero ny nx hnx (j + 1, ny * nx + j)
        (by show j + 1 < ny * nx; omega)
      omega
    · have hv := fb_count_H ny nx 0 j hny hnx (by omega) hj
      have hpm : ((0 * nx + j, 0 * nx + j + 1) : ℕ × ℕ) = (j, j + 1) := by
        simp only [Prod.mk.injEq]; constructor <;> omega
      rw [hpm] at hv
      have hz := cnt_fbbot_zero ny nx hnx (j, j + 1)
        (by show j < ny * nx; omega)
      omega
    · have hv := skirt_count_FD ny nx j hny hnx hj
      have hz1 := cnt_fbtop_zero ny nx hnx (j + 1, ny * nx + j)
        (by show ny * nx ≤ ny * nx + j; omega)
      have hz2 := cnt_fbbot_zero ny nx hnx (j + 1, ny * nx + j)
        (by show j + 1 < ny * nx; omega)
      omega
    · have hv := fb_count_botH ny nx 0 j hny hnx (by omega) hj
      have hpm : ((ny * nx + 0 * nx + j, ny * nx + 0 * nx + j + 1) : ℕ × ℕ) =
          (ny * nx + j, ny * nx + j + 1) := by
        simp only [Prod.mk.injEq]; constructor <;> omega
      rw [hpm] at hv
      have hz := cnt_fbtop_zero ny nx hnx (ny * nx + j, ny * nx + j + 1)
        (by show ny * nx ≤ ny * nx + j + 1; omega)
      omega
    · have hv := skirt_count_S ny nx 0 (j + 1) hny hnx (by omega) (by omega)
        (by omega)
      have hpm : ((0 * nx + (j + 1), ny * nx + 0 * nx + (j + 1)) : ℕ × ℕ) =
          (j + 1, ny * nx + j + 1) := by
        simp only [Prod.mk.injEq]; constructor <;> omega
      rw [hpm] at hv
      have hz1 := cnt_fbtop_zero ny nx hnx (j + 1, ny * nx + j + 1)
        (by show ny * nx ≤ ny * nx + j + 1; omega)
      have hz2 := cnt_fbbot_zero ny nx hnx (j + 1, ny * nx + j + 1)
        (by show j + 1 < ny * nx; omega)
      omega
  · have hdec := mem_family1 _ _ _ _ _ _ _ _ _ e
      (fun j _ => edges_back ny nx hny hnx j) hk
    obtain ⟨j, hj, hc⟩ := hdec
    have hm1 : 1 * nx ≤ (ny - 1) * nx := Nat.mul_le_mul_right nx (by omega)
    rcases hc with hc | hc | hc | hc | hc | hc <;> subst hc
    · have hv := fb_count_H ny nx (ny - 1) j hny hnx (by omega) hj
      have hz := cnt_fbbot_zero ny nx hnx
        ((ny - 1) * nx + j, (ny - 1) * nx + j + 1)
        (by show (ny - 1) * nx + j < ny * nx; omega)
      omega
    · have hv := skirt_count_BD ny nx j hny hnx hj
      have hz1 := cnt_fbtop_zero ny nx hnx
        ((ny - 1) * nx + j + 1, ny * nx + (ny - 1) * nx + j)
        (by show ny * nx ≤ ny * nx + (ny - 1) * nx + j; omega)
      have hz2 := cnt_fbbot_zero ny nx hnx
        ((ny - 1) * nx + j + 1, ny * nx + (ny - 1) * nx + j)
        (by show (ny - 1) * nx + j + 1 < ny * nx; omega)
      omega
    · have hv := skirt_count_S ny nx (ny - 1) j hny hnx (by omega) (by omega)
        (by omega)
      have hz1 := cnt_fbtop_zero ny nx hnx
        ((ny - 1) * nx + j, ny * nx + (ny - 1) * nx + j)
        (by show ny * nx ≤ ny * nx + (ny - 1) * nx + j; omega)
      have hz2 := cnt_fbbot_zero ny nx hnx
        ((ny - 1) * nx + j, ny * nx + (ny - 1) * nx + j)
        (by show (ny - 1) * nx + j < ny * nx; omega)
      omega
    · have hv := skirt_count_S ny nx (ny - 1) (j + 1) hny hnx (by omega)
        (by omega) (by omega)
      have hpm : (((ny - 1) * nx + (j + 1),
          ny * nx + (ny - 1) * nx + (j + 1)) : ℕ × ℕ) =
          ((ny - 1) * nx + j + 1, ny * nx + (ny - 1) * nx + j + 1) := by
        simp only [Prod.mk.injEq]; constructor <;> omega
      rw [hpm] at hv
      have hz1 := cnt_fbtop_zero ny nx hnx
        ((ny - 1) * nx + j + 1, ny * nx + (ny - 1) * nx + j + 1)
        (by show ny * nx ≤ ny * nx + (ny - 1) * nx + j + 1; omega)
      have hz2 := cnt_fbbot_zero ny nx hnx
        ((ny - 1) * nx + j + 1, ny * nx + (ny - 1) * nx + j + 1)
        (by show (ny - 1) * nx + j + 1 < ny * nx; omega)
      omega
    · have hv := fb_count_botH ny nx (ny - 1) j hny hnx (by omega) hj
      have hz := cnt_fbtop_zero ny nx hnx
        (ny * nx + (ny - 1) * nx + j, ny * nx + (ny - 1) * nx + j + 1)
        (by show ny * nx ≤ ny * nx + (ny - 1) * nx + j + 1; omega)
      omega
    · have hv := skirt_count_BD ny nx j hny hnx hj
      have hz1 := cnt_fbtop_zero ny nx hnx
        ((ny - 1) * nx + j + 1, ny * nx + (ny - 1) * nx + j)
        (by show ny * nx ≤ ny * nx + (ny - 1) * nx + j; omega)
      have hz2 := cnt_fbbot_zero ny nx hnx
        ((ny - 1) * nx + j + 1, ny * nx + (ny - 1) * nx + j)
        (by show (ny - 1) * nx + j + 1 < ny * nx; omega)
      omega
  · have hdec := mem_family1 _ _ _ _ _ _ _ _ _ e
      (fun i _ => edges_left ny nx hny hnx i) hl
    obtain ⟨i, hi, hc⟩ := hdec
    have hmi := mul_succ_le nx hi
    have hs : (i + 1) * nx = i * nx + nx := Nat.succ_mul i nx
    rcases hc with hc | hc | hc | hc | hc | hc <;> subst hc
    · have hv := fb_count_V ny nx i 0 hny hnx hi (by omega)
      have hpm : ((i * nx + 0, i * nx + 0 + nx) : ℕ × ℕ) =
          (i * nx, i * nx + nx) := by
        simp only [Prod.mk.injEq]; constructor <;> omega
      rw [hpm] at hv
      have hz := cnt_fbbot_zero ny nx hnx (i * nx, i * nx + nx)
        (by show i * nx < ny * nx; omega)
      omega
    · have hv := skirt_count_LD ny nx i hny hnx hi
      have hz1 := cnt_fbtop_zero ny nx hnx (i * nx + nx, ny * nx + i * nx)
        (by show ny * nx ≤ ny * nx + i * nx; omega)
      have hz2 := cnt_fbbot_zero ny nx hnx (i * nx + nx, ny * nx + i * nx)
        (by show i * nx + nx < ny * nx; omega)
      omega
    · have hv := skirt_count_S ny nx i 0 hny hnx (by omega) (by omega)
        (by omega)
      have hpm : ((i * nx + 0, ny * nx + i * nx + 0) : ℕ × ℕ) =
          (i * nx, ny * nx + i * nx) := by
        simp only [Prod.mk.injEq]; constructor <;> omega
      rw [hpm] at hv
      have hz1 := cnt_fbtop_zero ny nx hnx (i * nx, ny * nx + i * nx)
        (by show ny * nx ≤ ny * nx + i * nx; omega)
      have hz2 := cnt_fbbot_zero ny nx hnx (i * nx, ny * nx + i * nx)
        (by show i * nx < ny * nx; omega)
      omega
    · have hv := skirt_count_S ny nx (i + 1) 0 hny hnx (by omega) (by omega)
        (by omega)
      have hpm : (((i + 1) * nx + 0, ny * nx + (i + 1) * nx + 0) : ℕ × ℕ) =
          (i * nx + nx, ny * nx + i * nx + nx) := by
        simp only [Prod.mk.injEq]; constructor <;> omega
      rw [hpm] at hv
      have hz1 := cnt_fbtop_zero ny nx hnx
        (i * nx + nx, ny * nx + i * nx + nx)
        (by show ny * nx ≤ ny * nx + i * nx + nx; omega)
      have hz2 := cnt_fbbot_zero ny nx hnx
        (i * nx + nx, ny * nx + i * nx + nx)
        (by show i * nx + nx < ny * nx; omega)
      omega
    · have hv := fb_count_botV ny nx i 0 hny hnx hi (by omega)
      have hpm : ((ny * nx + i * nx + 0,
          ny * nx + i * nx + 0 + nx) : ℕ × ℕ) =
          (ny * nx + i * nx, ny * nx + i * nx + nx) := by
        simp only [Prod.mk.injEq]; constructor <;> omega
      rw [hpm] at hv
      have hz := cnt_fbtop_zero ny nx hnx
        (ny * nx + i * nx, ny * nx + i * nx + nx)
        (by show ny * nx ≤ ny * nx + i * nx + nx; omega)
      omega
    · have hv := skirt_count_LD ny nx i hny hnx hi
      have hz1 := cnt_fbtop_zero ny nx hnx (i * nx + nx, ny * nx + i * nx)
        (by show ny * nx ≤ ny * nx + i * nx; omega)
      have hz2 := cnt_fbbot_zero ny nx hnx (i * nx + nx, ny * nx + i * nx)
        (by show i * nx + nx < ny * nx; omega)
      omega
  · have hdec := mem_family1 _ _ _ _ _ _ _ _ _ e
      (fun i _ => edges_right ny nx hny hnx i) hr
    obtain ⟨i, hi, hc⟩ := hdec
    have hmi := mul_succ_le nx hi
    have hs : (i + 1) * nx = i * nx + nx := Nat.succ_mul i nx
    rcases hc with hc | hc | hc | hc | hc | hc <;> subst hc
    · have hv := skirt_count_S ny nx i (nx - 1) hny hnx (by omega) (by omega)
        (by omega)
      have hpm : ((i * nx + (nx - 1), ny * nx + i * nx + (nx - 1)) : ℕ × ℕ) =
          (i * nx + nx - 1, ny * nx + i * nx + nx - 1) := by
        simp only [Prod.mk.injEq]; constructor <;> omega
      rw [hpm] at hv
      have hz1 := cnt_fbtop_zero ny nx hnx
        (i * nx + nx - 1, ny * nx + i * nx + nx - 1)
        (by show ny * nx ≤ ny * nx + i * nx + nx - 1; omega)
      have hz2 := cnt_fbbot_zero ny nx hnx
        (i * nx + nx - 1, ny * nx + i * nx + nx - 1)
        (by show i * nx + nx - 1 < ny * nx; omega)
      omega
    · have hv := skirt_count_RD ny nx i hny hnx hi
      have hz1 := cnt_fbtop_zero ny nx hnx
        (i * nx + nx + nx - 1, ny * nx + i * nx + nx - 1)
        (by show ny * nx ≤ ny * nx + i * nx + nx - 1; omega)
      have hz2 := cnt_fbbot_zero ny nx hnx
        (i * nx + nx + nx - 1, ny * nx + i * nx + nx - 1)
        (by show i * nx + nx + nx - 1 < ny * nx; omega)
      omega
    · have hv := fb_count_V ny nx i (nx - 1) hny hnx hi (by omega)
      have hpm : ((i * nx + (nx - 1), i * nx + (nx - 1) + nx) : ℕ × ℕ) =
          (i * nx + nx - 1, i * nx + nx + nx - 1) := by
        simp only [Prod.mk.injEq]; constructor <;> omega
      rw [hpm] at hv
      have hz := cnt_fbbot_zero ny nx hnx
        (i * nx + nx - 1, i * nx + nx + nx - 1)
        (by show i * nx + nx - 1 < ny * nx; omega)
      omega
    · have hv := skirt_count_RD ny nx i hny hnx hi
      have hz1 := cnt_fbtop_zero ny nx hnx
        (i * nx + nx + nx - 1, ny * nx + i * nx + nx - 1)
        (by show ny * nx ≤ ny * nx + i * nx + nx - 1; omega)
      have hz2 := cnt_fbbot_zero ny nx hnx
        (i * nx + nx + nx - 1, ny * nx + i * nx + nx - 1)
        (by show i * nx + nx + nx - 1 < ny * nx; omega)
      omega
    · have hv := fb_count_botV ny nx i (nx - 1) hny hnx hi (by omega)
      have hpm : ((ny * nx + i * nx + (nx - 1),
          ny * nx + i * nx + (nx - 1) + nx) : ℕ × ℕ) =
          (ny * nx + i * nx + nx - 1, ny * nx + i * nx + nx + nx - 1) := by
        simp only [Prod.mk.injEq]; constructor <;> omega
      rw [hpm] at hv
      have hz := cnt_fbtop_zero ny nx hnx
        (ny * nx + i * nx + nx - 1, ny * nx + i * nx + nx + nx - 1)
        (by show ny * nx ≤ ny * nx + i * nx + nx + nx - 1; omega)
      omega
    · have hv := skirt_count_S ny nx (i + 1) (nx - 1) hny hnx (by omega)
        (by omega) (by omega)
      have hpm : (((i + 1) * nx + (nx - 1),
          ny * nx + (i + 1) * nx + (nx - 1)) : ℕ × ℕ) =
          (i * nx + nx + nx - 1, ny * nx + i * nx + nx + nx - 1) := by
        simp only [Prod.mk.injEq]; constructor <;> omega
      rw [hpm] at hv
      have hz1 := cnt_fbtop_zero ny nx hnx
        (i * nx + nx + nx - 1, ny * nx + i * nx + nx + nx - 1)
        (by show ny * nx ≤ ny * nx + i * nx + nx + nx - 1; omega)
      have hz2 := cnt_fbbot_zero ny nx hnx
        (i * nx + nx + nx - 1, ny * nx + i * nx + nx + nx - 1)
        (by show i * nx + nx + nx - 1 < ny * nx; omega)
      omega

/-- **C1.** For every `ny×nx` elevation grid with `ny ≥ 2` and `nx ≥ 2`, the
Terrain Mesh Builder produces a mesh whose triangle count equals
`4·(ny-1)·(nx-1) + 2·((ny-1)+(nx-1))·2`, and that mesh is closed: every
undirected edge of the mesh is shared by exactly two triangles.  This holds
both for `create_terrain_mesh` (src/core/generate.py, lines 194-257) and for
`create_flat_bottom_mesh` (src/core/tactile_map/mesh_generator.py,
lines 9-120). -/
theorem C1_terrain_mesh_count_closed (ny nx : ℕ) (hny : 2 ≤ ny)
    (hnx : 2 ≤ nx) (X Y Z lon lat elev : List (List ℚ)) (bt : ℚ)
    (hZ : Z.length = ny) (hZr : rowLen Z 0 = nx)
    (hE : elev.length = ny) (hEr : rowLen elev 0 = nx) :
    ((create_terrain_mesh X Y Z).2.length =
        4 * (ny - 1) * (nx - 1) + 2 * ((ny - 1) + (nx - 1)) * 2 ∧
      IsClosedMesh (create_terrain_mesh X Y Z).2) ∧
    ∃ m, create_flat_bottom_mesh lon lat elev bt = some m ∧
      m.2.length =
        4 * (ny - 1) * (nx - 1) + 2 * ((ny - 1) + (nx - 1)) * 2 ∧
      IsClosedMesh m.2 := by
  have hcf : (create_terrain_mesh X Y Z).2 = terrain_faces ny nx := by
    show terrain_faces Z.length (rowLen Z 0) = terrain_faces ny nx
    rw [hZ, hZr]
  refine ⟨⟨?_, ?_⟩, ?_⟩
  · rw [hcf, terrain_faces_length]
    ring
  · rw [hcf]
    exact terrain_closed ny nx hny hnx
  · refine ⟨(column_stack3 (ravel lon) (ravel lat) (ravel elev)
       ++ column_stack3 (ravel lon) (ravel lat)
            ((ravel elev).map fun _ => -bt),
      flat_bottom_faces ny nx), ?_, ?_, ?_⟩
    · unfold create_flat_bottom_mesh
      rw [hE, hEr, fb_vstack_raises_false_big ny nx hny hnx]
      rfl
    · show (flat_bottom_faces ny nx).length = _
      rw [flat_bottom_faces_length]
      ring
    · show IsClosedMesh (flat_bottom_faces ny nx)
      exact flat_bottom_closed ny nx hny hnx

theorem C1_terrain_mesh_count_closed_witness :
    ((2 : ℕ) ≤ 2 ∧
      ([[(0 : ℚ), 0], [0, 0]] : List (List ℚ)).length = 2 ∧
      rowLen ([[(0 : ℚ), 0], [0, 0]] : List (List ℚ)) 0 = 2) ∧
    (((create_terrain_mesh [[(0 : ℚ), 0], [0, 0]] [[(0 : ℚ), 0], [0, 0]]
          [[(0 : ℚ), 0], [0, 0]]).2.length =
        4 * (2 - 1) * (2 - 1) + 2 * ((2 - 1) + (2 - 1)) * 2 ∧
      IsClosedMesh (create_terrain_mesh [[(0 : ℚ), 0], [0, 0]]
        [[(0 : ℚ), 0], [0, 0]] [[(0 : ℚ), 0], [0, 0]]).2) ∧
    ∃ m, create_flat_bottom_mesh [[(0 : ℚ), 0], [0, 0]]
        [[(0 : ℚ), 0], [0, 0]] [[(0 : ℚ), 0], [0, 0]] 2 = some m ∧
      m.2.length =
        4 * (2 - 1) * (2 - 1) + 2 * ((2 - 1) + (2 - 1)) * 2 ∧
      IsClosedMesh m.2) :=
  ⟨⟨by omega, rfl, rfl⟩,
    C1_terrain_mesh_count_closed 2 2 (by omega) (by omega)
      [[(0 : ℚ), 0], [0, 0]] [[(0 : ℚ), 0], [0, 0]] [[(0 : ℚ), 0], [0, 0]]
      [[(0 : ℚ), 0], [0, 0]] [[(0 : ℚ), 0], [0, 0]] [[(0 : ℚ), 0], [0, 0]]
      2 rfl rfl rfl rfl⟩
